import Mathlib

/-!
# Tool-calling assistant: registry, reply loop and title generation

A shallow embedding of `internal/chat/assistant/assistant.go` and
`internal/chat/assistant/tools/{registry,tool}.go`.

* Go strings are byte sequences (`GoString`); `len` is `List.length` and
  `s[:n]` is `List.take n`.
* A Go `error` is represented by its text (`GoError.Error`).
* The completion API and the tools' execution functions are external and
  stateful: they are functions over an arbitrary world state `σ`, threaded
  explicitly through `Reply` and `Title`.
* The iteration order of a Go map is unspecified; wherever the code ranges over
  a map, the embedding takes a `seed : Nat` that stands for the runtime's choice.
-/

namespace Chat

/-! ## Strings and errors -/

/-- A Go string: a sequence of bytes. -/
abbrev GoString := List Nat

/-- UTF-8 encoding of one code point. -/
def utf8Encode (c : Nat) : List Nat :=
  if c < 0x80 then [c]
  else if c < 0x800 then [0xC0 + c / 0x40, 0x80 + c % 0x40]
  else if c < 0x10000 then [0xE0 + c / 0x1000, 0x80 + c / 0x40 % 0x40, 0x80 + c % 0x40]
  else [0xF0 + c / 0x40000, 0x80 + c / 0x1000 % 0x40, 0x80 + c / 0x40 % 0x40, 0x80 + c % 0x40]

/-- The bytes of a string literal of the source. -/
def str (s : String) : GoString :=
  (s.toList.map (fun c => utf8Encode c.toNat)).flatten

/-- A Go `error` value, identified with the text returned by its `Error()` method. -/
structure GoError where
  Error : GoString
deriving DecidableEq, Repr

/-- Go `errors.New(text)`. -/
def errors.New (text : GoString) : GoError := ⟨text⟩

/-! ## Data model -/

/-- Modelled from the spec: the role type of `internal/chat/model` (its declaration is
not part of the sources at hand). `Reply` only distinguishes `RoleUser` and
`RoleAssistant`; every other role falls through its `switch`. -/
inductive model.Role where
  | RoleUser
  | RoleAssistant
  | RoleOther
deriving DecidableEq, Repr

/-- Modelled from the spec: `model.Message`, of which the assistant reads `Role` and
`Content`. -/
structure model.Message where
  Role : model.Role
  Content : GoString
deriving DecidableEq, Repr

/-- Modelled from the spec: `model.Conversation`, of which the assistant reads `ID`
(for logging only) and `Messages`. -/
structure model.Conversation where
  ID : GoString
  Messages : List model.Message
deriving DecidableEq, Repr

/-- The `Function` part of a tool call requested by the completion API. -/
structure openai.ToolCallFunction where
  Name : GoString
  Arguments : GoString
deriving DecidableEq, Repr

/-- A tool call requested by the completion API (`openai.ChatCompletionMessageToolCallUnion`). -/
structure openai.ToolCall where
  ID : GoString
  Function : openai.ToolCallFunction
deriving DecidableEq, Repr

/-- A candidate's message (`openai.ChatCompletionMessage`). -/
structure openai.ChatCompletionMessage where
  Content : GoString
  ToolCalls : List openai.ToolCall
deriving DecidableEq, Repr

/-- One candidate of a completion response. -/
structure openai.ChatCompletionChoice where
  Message : openai.ChatCompletionMessage
deriving DecidableEq, Repr

/-- A completion response (`openai.ChatCompletion`). -/
structure openai.ChatCompletion where
  Choices : List openai.ChatCompletionChoice
deriving DecidableEq, Repr

/-- A message sent to the completion API (`openai.ChatCompletionMessageParamUnion`). -/
inductive openai.MessageParam where
  | system (content : GoString)
  | user (content : GoString)
  | assistant (content : GoString) (toolCalls : List openai.ToolCall)
  | tool (content : GoString) (toolCallID : GoString)
deriving DecidableEq, Repr

/-- Go `openai.SystemMessage(content)`. -/
def openai.SystemMessage (content : GoString) : openai.MessageParam := .system content

/-- Go `openai.UserMessage(content)`. -/
def openai.UserMessage (content : GoString) : openai.MessageParam := .user content

/-- Go `openai.AssistantMessage(content)`: an assistant turn without tool calls. -/
def openai.AssistantMessage (content : GoString) : openai.MessageParam := .assistant content []

/-- Go `openai.ToolMessage(content, toolCallID)`. -/
def openai.ToolMessage (content toolCallID : GoString) : openai.MessageParam :=
  .tool content toolCallID

/-- Go `message.ToParam()`: the candidate's message as an assistant turn, its tool-call
requests included. -/
def openai.ChatCompletionMessage.ToParam (m : openai.ChatCompletionMessage) :
    openai.MessageParam :=
  .assistant m.Content m.ToolCalls

/-- A tool definition presented to the completion API (`openai.ChatCompletionToolUnionParam`). -/
structure openai.ToolParam where
  Name : GoString
  Description : GoString
  Parameters : GoString
deriving DecidableEq, Repr

/-- The chat models named by the source. -/
inductive openai.ChatModel where
  | ChatModelGPT4Turbo
  | ChatModelGPT4_1
deriving DecidableEq, Repr

/-- The request of one completion call (`openai.ChatCompletionNewParams`). -/
structure openai.ChatCompletionNewParams where
  Model : openai.ChatModel
  Messages : List openai.MessageParam
  Tools : List openai.ToolParam
deriving DecidableEq, Repr

/-- The completion client: `cli.Chat.Completions.New`, an external call over the world
state `σ`. -/
structure openai.Client (σ : Type) where
  New : openai.ChatCompletionNewParams → σ → Except GoError openai.ChatCompletion × σ

/-! ## `tools/tool.go` and `tools/registry.go` -/

/-- The `Tool` interface. -/
structure tools.Tool (σ : Type) where
  Name : GoString
  Definition : openai.ToolParam
  Execute : GoString → σ → Except GoError GoString × σ

/-- The sentinel `ErrToolNotFound`. -/
def tools.ErrToolNotFound : GoError := errors.New (str "tool not found")

/-- A Go `map[string]V`: its entries, with pairwise distinct keys. The position of an
entry in the list has no meaning in Go; `GoMap.range` decides the order of a traversal. -/
abbrev GoMap (V : Type) := List (GoString × V)

/-- Go `m[k] = v`. -/
def GoMap.set {V : Type} (m : GoMap V) (k : GoString) (v : V) : GoMap V :=
  m.filter (fun e => e.1 ≠ k) ++ [(k, v)]

/-- Go `v, exists := m[k]`. -/
def GoMap.get? {V : Type} (m : GoMap V) (k : GoString) : Option V :=
  (m.find? (fun e => e.1 = k)).map (fun e => e.2)

/-- The order chosen for one traversal: `seed` encodes the choice, the head of the list
being inserted at position `seed % length` of the traversal of the tail. The result is a
permutation of the list (`rangeOrder_perm`) and every permutation is chosen by some seed
(`rangeOrder_surjective`). -/
def rangeOrder {α : Type} : Nat → List α → List α
  | _, [] => []
  | seed, x :: xs =>
    (rangeOrder (seed / (xs.length + 1)) xs).insertIdx (seed % (xs.length + 1)) x

/-- Go `for k, v := range m`: the entries in the order of this traversal. -/
def GoMap.range {V : Type} (seed : Nat) (m : GoMap V) : List (GoString × V) :=
  rangeOrder seed m

/-- The registry of tools. -/
structure tools.Registry (σ : Type) where
  tools : GoMap (tools.Tool σ)

/-- Go `NewRegistry()`. -/
def tools.NewRegistry {σ : Type} : tools.Registry σ := ⟨[]⟩

/-- Go `(*Registry).Register`. -/
def tools.Registry.Register {σ : Type} (r : tools.Registry σ) (tool : tools.Tool σ) :
    tools.Registry σ :=
  ⟨r.tools.set tool.Name tool⟩

/-- Go `(*Registry).GetToolDefinitions`. The method only reads `r.tools`, so it is a
function of the registry; `seed` is the order of the map traversal. -/
def tools.Registry.GetToolDefinitions {σ : Type} (r : tools.Registry σ) (seed : Nat) :
    List openai.ToolParam :=
  (r.tools.range seed).foldl (fun definitions e => definitions ++ [e.2.Definition]) []

/-- Go `(*Registry).ExecuteTool`. -/
def tools.Registry.ExecuteTool {σ : Type} (r : tools.Registry σ) (toolName arguments : GoString)
    (s : σ) : Except GoError GoString × σ :=
  match r.tools.get? toolName with
  | none => (.error tools.ErrToolNotFound, s)
  | some tool => tool.Execute arguments s

/-! ## `assistant.go`: the reply loop -/

/-- The assistant: a completion client and a tool registry. -/
structure Assistant (σ : Type) where
  cli : openai.Client σ
  toolRegistry : tools.Registry σ

/-- The bound of the reply loop. -/
def maxToolIterations : Nat := 15

/-- The system instruction that opens every reply request. -/
def systemPrompt : GoString :=
  str "You are a helpful, concise AI assistant. Provide accurate, safe, and clear responses."

/-- The loop of `Reply` over `conv.Messages` that builds the request messages: user and
assistant messages are mapped to their turn, any other role is skipped. -/
def buildMessages : List model.Message → List openai.MessageParam → List openai.MessageParam
  | [], msgs => msgs
  | m :: rest, msgs =>
    match m.Role with
    | .RoleUser => buildMessages rest (msgs ++ [openai.UserMessage m.Content])
    | .RoleAssistant => buildMessages rest (msgs ++ [openai.AssistantMessage m.Content])
    | .RoleOther => buildMessages rest msgs

/-- The content of the tool message for an outcome `result, err` of `ExecuteTool`:
`if err != nil { result = "Error: " + err.Error() }`. -/
def toolResultContent : Except GoError GoString → GoString
  | .ok result => result
  | .error err => str "Error: " ++ err.Error

/-- The inner loop of `Reply`, `for _, call := range message.ToolCalls`: each call is
executed through the registry and a tool message keyed by the call's ID is appended. -/
def execToolCalls {σ : Type} (r : tools.Registry σ) :
    List openai.ToolCall → List openai.MessageParam → σ → List openai.MessageParam × σ
  | [], msgs, s => (msgs, s)
  | call :: rest, msgs, s =>
    let toolName := call.Function.Name
    let arguments := call.Function.Arguments
    let callID := call.ID
    let out := r.ExecuteTool toolName arguments s
    execToolCalls r rest (msgs ++ [openai.ToolMessage (toolResultContent out.1) callID]) out.2

/-- The second half of an iteration, for a candidate `message` that requests tool calls:
the candidate's message is appended with its tool-call requests, then every call is
processed. -/
def dispatchToolCalls {σ : Type} (a : Assistant σ) (message : openai.ChatCompletionMessage)
    (msgs : List openai.MessageParam) (s1 : σ) : List openai.MessageParam × σ :=
  execToolCalls a.toolRegistry message.ToolCalls (msgs ++ [message.ToParam]) s1

/-- The request of iteration `i` of the reply loop. -/
def replyParams {σ : Type} (a : Assistant σ) (seed : Nat → Nat) (i : Nat)
    (msgs : List openai.MessageParam) : openai.ChatCompletionNewParams :=
  { Model := .ChatModelGPT4_1
    Messages := msgs
    Tools := a.toolRegistry.GetToolDefinitions (seed i) }

/-- The outcome of one iteration of the reply loop: `Reply` returns, or the loop goes on
with a longer message list. -/
inductive Step (σ : Type) where
  | ret (result : Except GoError GoString) (s : σ)
  | next (msgs : List openai.MessageParam) (s : σ)

/-- The body of the reply loop, at iteration `i`. -/
def replyIteration {σ : Type} (a : Assistant σ) (seed : Nat → Nat) (i : Nat)
    (msgs : List openai.MessageParam) (s : σ) : Step σ :=
  match a.cli.New (replyParams a seed i msgs) s with
  | (.error err, s1) => .ret (.error err) s1
  | (.ok resp, s1) =>
    match resp.Choices with
    | [] => .ret (.error (errors.New (str "no choices returned by OpenAI"))) s1
    | choice :: _ =>
      let message := choice.Message
      if message.ToolCalls.length = 0 then .ret (.ok message.Content) s1
      else
        let out := dispatchToolCalls a message msgs s1
        .next out.1 out.2

/-- The reply loop `for i := 0; i < maxToolIterations; i++`, with `n` iterations left
(`n = maxToolIterations - i`), followed by the final `return` of `Reply`. -/
def replyLoop {σ : Type} (a : Assistant σ) (seed : Nat → Nat) :
    Nat → Nat → List openai.MessageParam → σ → Except GoError GoString × σ
  | 0, _, _, s => (.error (errors.New (str "too many tool calls, unable to generate reply")), s)
  | n + 1, i, msgs, s =>
    match replyIteration a seed i msgs s with
    | .ret result s1 => (result, s1)
    | .next msgs1 s1 => replyLoop a seed n (i + 1) msgs1 s1

/-- Go `(*Assistant).Reply`. `seed i` is the order in which iteration `i` traverses the
registry's map. -/
def Assistant.Reply {σ : Type} (a : Assistant σ) (seed : Nat → Nat) (conv : model.Conversation)
    (s : σ) : Except GoError GoString × σ :=
  if conv.Messages.length = 0 then
    (.error (errors.New (str "conversation has no messages")), s)
  else
    replyLoop a seed maxToolIterations 0
      (buildMessages conv.Messages [openai.SystemMessage systemPrompt]) s

/-! ## The string functions of the Go library used by `Title` -/

/-- Go `utf8.RuneError`. -/
def utf8.RuneError : Nat := 0xFFFD

/-- Go `utf8.DecodeRuneInString`: the first rune of `s` and its width in bytes; an invalid
or truncated encoding gives `(RuneError, 1)`, the empty string `(RuneError, 0)`. -/
def utf8.DecodeRuneInString (s : GoString) : Nat × Nat :=
  match s with
  | [] => (utf8.RuneError, 0)
  | s0 :: rest =>
    if s0 < 0x80 then (s0, 1)
    else if s0 < 0xC2 ∨ 0xF4 < s0 then (utf8.RuneError, 1)
    else
      let sz := if s0 < 0xE0 then 2 else if s0 < 0xF0 then 3 else 4
      let lo := if s0 = 0xE0 then 0xA0 else if s0 = 0xF0 then 0x90 else 0x80
      let hi := if s0 = 0xED then 0x9F else if s0 = 0xF4 then 0x8F else 0xBF
      if s.length < sz then (utf8.RuneError, 1)
      else
        match rest with
        | [] => (utf8.RuneError, 1)
        | s1 :: rest1 =>
          if s1 < lo ∨ hi < s1 then (utf8.RuneError, 1)
          else if sz ≤ 2 then (s0 % 0x20 * 0x40 + s1 % 0x40, 2)
          else
            match rest1 with
            | [] => (utf8.RuneError, 1)
            | s2 :: rest2 =>
              if s2 < 0x80 ∨ 0xBF < s2 then (utf8.RuneError, 1)
              else if sz ≤ 3 then (s0 % 0x10 * 0x1000 + s1 % 0x40 * 0x40 + s2 % 0x40, 3)
              else
                match rest2 with
                | [] => (utf8.RuneError, 1)
                | s3 :: _ =>
                  if s3 < 0x80 ∨ 0xBF < s3 then (utf8.RuneError, 1)
                  else
                    (s0 % 0x08 * 0x40000 + s1 % 0x40 * 0x1000 + s2 % 0x40 * 0x40 + s3 % 0x40, 4)

/-- Go `utf8.RuneStart`: whether `b` can be the first byte of an encoded rune. -/
def utf8.RuneStart (b : Nat) : Bool := b / 0x40 % 4 ≠ 2

/-- The search of `utf8.DecodeLastRuneInString` for the start of the last rune: from
`start` down to `lim`, the first index whose byte is a rune start, or `lim - 1`. -/
def utf8.lastRuneStart (s : GoString) (lim : Nat) : Nat → Nat → Nat
  | 0, start => start
  | fuel + 1, start =>
    if start < lim then start
    else if utf8.RuneStart (s.getD start 0) then start
    else if start = 0 then 0
    else utf8.lastRuneStart s lim fuel (start - 1)

/-- Go `utf8.DecodeLastRuneInString`: the last rune of `s` and its width in bytes. -/
def utf8.DecodeLastRuneInString (s : GoString) : Nat × Nat :=
  if s.length = 0 then (utf8.RuneError, 0)
  else
    let r := s.getD (s.length - 1) 0
    if r < 0x80 then (r, 1)
    else if s.length = 1 then
      let out := utf8.DecodeRuneInString s
      if 0 + out.2 ≠ s.length then (utf8.RuneError, 1) else out
    else
      let start := utf8.lastRuneStart s (s.length - 4) 4 (s.length - 2)
      let out := utf8.DecodeRuneInString (s.drop start)
      if start + out.2 ≠ s.length then (utf8.RuneError, 1) else out

/-- Go `unicode.IsSpace`. -/
def unicode.IsSpace (r : Nat) : Bool :=
  if r ≤ 0xFF then
    r = 0x09 ∨ r = 0x0A ∨ r = 0x0B ∨ r = 0x0C ∨ r = 0x0D ∨ r = 0x20 ∨ r = 0x85 ∨ r = 0xA0
  else
    r = 0x1680 ∨ (0x2000 ≤ r ∧ r ≤ 0x200A) ∨ r = 0x2028 ∨ r = 0x2029 ∨ r = 0x202F
      ∨ r = 0x205F ∨ r = 0x3000

/-- The table `asciiSpace` of package `strings`. -/
def strings.asciiSpace (c : Nat) : Bool :=
  c = 0x09 ∨ c = 0x0A ∨ c = 0x0B ∨ c = 0x0C ∨ c = 0x0D ∨ c = 0x20

/-- Go `strings.TrimLeftFunc(s, f)`, with `fuel` bounding the number of runes visited. -/
def strings.trimLeftFuncAux (f : Nat → Bool) : Nat → GoString → GoString
  | 0, s => s
  | fuel + 1, s =>
    match s with
    | [] => []
    | _ :: _ =>
      if f (utf8.DecodeRuneInString s).1 then
        strings.trimLeftFuncAux f fuel (s.drop (utf8.DecodeRuneInString s).2)
      else s

/-- Go `strings.TrimLeftFunc(s, f)`. -/
def strings.TrimLeftFunc (s : GoString) (f : Nat → Bool) : GoString :=
  strings.trimLeftFuncAux f s.length s

/-- Go `lastIndexFunc(s, f, false)`: the index of the last rune that does not satisfy `f`,
`none` standing for -1. -/
def strings.lastIndexFuncAux (f : Nat → Bool) : Nat → GoString → Option Nat
  | 0, _ => none
  | fuel + 1, s =>
    if s.length = 0 then none
    else
      let out := utf8.DecodeLastRuneInString s
      let i := s.length - out.2
      if f out.1 then strings.lastIndexFuncAux f fuel (s.take i) else some i

/-- Go `strings.TrimRightFunc(s, f)`. -/
def strings.TrimRightFunc (s : GoString) (f : Nat → Bool) : GoString :=
  match strings.lastIndexFuncAux f s.length s with
  | none => []
  | some i =>
    if 0x80 ≤ s.getD i 0 then s.take (i + (utf8.DecodeRuneInString (s.drop i)).2)
    else s.take (i + 1)

/-- Go `strings.TrimFunc(s, f)`. -/
def strings.TrimFunc (s : GoString) (f : Nat → Bool) : GoString :=
  strings.TrimRightFunc (strings.TrimLeftFunc s f) f

/-- The second loop of `strings.TrimSpace`, over the reversed remainder `s[start:stop]`. -/
def strings.trimSpaceRight : GoString → GoString
  | [] => []
  | c :: rest =>
    if 0x80 ≤ c then strings.TrimRightFunc (c :: rest).reverse unicode.IsSpace
    else if strings.asciiSpace c then strings.trimSpaceRight rest
    else (c :: rest).reverse

/-- Go `strings.TrimSpace`: the first loop skips leading ASCII space and hands over to
`TrimFunc` at the first non-ASCII byte. -/
def strings.TrimSpace : GoString → GoString
  | [] => []
  | c :: rest =>
    if 0x80 ≤ c then strings.TrimFunc (c :: rest) unicode.IsSpace
    else if strings.asciiSpace c then strings.TrimSpace rest
    else strings.trimSpaceRight (c :: rest).reverse

/-- Go `strings.ReplaceAll(s, old, new)` for one-byte `old` and `new`. -/
def strings.ReplaceAll (s : GoString) (old new : Nat) : GoString :=
  s.map (fun b => if b = old then new else b)

/-- Go `strings.Trim(s, cutset)` for a cutset of ASCII bytes: the trailing, then the
leading bytes that belong to `cutset` are removed. -/
def strings.Trim (s cutset : GoString) : GoString :=
  ((s.reverse.dropWhile (fun b => b ∈ cutset)).reverse).dropWhile (fun b => b ∈ cutset)

/-! ## `assistant.go`: the title -/

/-- The instruction that opens the title request. -/
def titlePrompt : GoString :=
  str ("Generate a concise, descriptive title that summarizes the user's question or topic. \n"
    ++ "\tThe title should be 2-5 words maximum, no more than 80 characters, and should NOT answer the question. \n"
    ++ "\tFocus on extracting the main subject matter only. \n"
    ++ "\t\n"
    ++ "\tExamples:\n"
    ++ "\t- \"What is the weather in Barcelona?\" → \"Weather in Barcelona\"\n"
    ++ "\t- \"How do I bake chocolate chip cookies?\" → \"Chocolate Chip Cookie Recipe\"\n"
    ++ "\t- \"Tell me about the history of ancient Rome\" → \"Ancient Roman History\"\n"
    ++ "\t- \"What are the best restaurants in Paris?\" → \"Paris Restaurant Recommendations\"")

/-- The request of `Title`: the instruction as an assistant turn, then the content of every
message as a user turn. -/
def titleParams (conv : model.Conversation) : openai.ChatCompletionNewParams :=
  { Model := .ChatModelGPT4Turbo
    Messages := openai.AssistantMessage titlePrompt ::
      conv.Messages.map (fun m => openai.UserMessage m.Content)
    Tools := [] }

/-- The cutset of the `strings.Trim` call of `Title`: space, tab, carriage return, newline,
hyphen, double quote, apostrophe. -/
def titleCutset : GoString := [0x20, 0x09, 0x0D, 0x0A, 0x2D, 0x22, 0x27]

/-- Lines 86-88 of `Title`: newlines become spaces, then the cutset is trimmed off both
ends. -/
def cleanTitle (content : GoString) : GoString :=
  strings.Trim (strings.ReplaceAll content 0x0A 0x20) titleCutset

/-- Lines 90-92 of `Title`: `if len(title) > 80 { title = title[:80] }`. -/
def truncateTitle (title : GoString) : GoString :=
  if title.length > 80 then title.take 80 else title

/-- Go `(*Assistant).Title`. -/
def Assistant.Title {σ : Type} (a : Assistant σ) (conv : model.Conversation) (s : σ) :
    Except GoError GoString × σ :=
  if conv.Messages.length = 0 then
    (.ok (str "An empty conversation"), s)
  else
    match a.cli.New (titleParams conv) s with
    | (.error err, s1) => (.error err, s1)
    | (.ok resp, s1) =>
      match resp.Choices with
      | [] => (.error (errors.New (str "empty response from OpenAI for title generation")), s1)
      | choice :: _ =>
        if strings.TrimSpace choice.Message.Content = [] then
          (.error (errors.New (str "empty response from OpenAI for title generation")), s1)
        else
          (.ok (truncateTitle (cleanTitle choice.Message.Content)), s1)

/-! ## Observing the external calls -/

/-- An external call made by the assistant. -/
inductive Event where
  | completion (params : openai.ChatCompletionNewParams)
  | toolExec (tag : Nat) (name : GoString) (arguments : GoString)
deriving DecidableEq, Repr

/-- Whether an event is a completion call. -/
def Event.isCompletion : Event → Bool
  | .completion _ => true
  | .toolExec _ _ _ => false

/-- The number of completion calls in a log. -/
def completionCalls (log : List Event) : Nat := (log.filter Event.isCompletion).length

/-- The number of tool executions in a log. -/
def toolExecutions (log : List Event) : Nat := (log.filter (fun e => !e.isCompletion)).length

/-- The client `c`, recording each of its calls in a log carried next to the state. -/
def openai.Client.traced {σ : Type} (c : openai.Client σ) : openai.Client (σ × List Event) :=
  ⟨fun params w => ((c.New params w.1).1, ((c.New params w.1).2, w.2 ++ [Event.completion params]))⟩

/-- The tool `t`, recording each of its executions, under the tag `tag`. -/
def tools.Tool.traced {σ : Type} (tag : Nat) (t : tools.Tool σ) : tools.Tool (σ × List Event) :=
  { Name := t.Name
    Definition := t.Definition
    Execute := fun arguments w =>
      ((t.Execute arguments w.1).1,
        ((t.Execute arguments w.1).2, w.2 ++ [Event.toolExec tag t.Name arguments])) }

/-- The registry `r` with each tool recording its executions. -/
def tools.Registry.traced {σ : Type} (r : tools.Registry σ) : tools.Registry (σ × List Event) :=
  ⟨r.tools.map (fun e => (e.1, e.2.traced 0))⟩

/-- The assistant `a` with every external call recorded. -/
def Assistant.traced {σ : Type} (a : Assistant σ) : Assistant (σ × List Event) :=
  ⟨a.cli.traced, a.toolRegistry.traced⟩

/-- Whether a completion outcome is a response whose first candidate requests at least
one tool call. -/
def requestsToolCall : Except GoError openai.ChatCompletion → Bool
  | .ok resp =>
    match resp.Choices with
    | [] => false
    | choice :: _ => !choice.Message.ToolCalls.isEmpty
  | .error _ => false

/-- Whether a completion outcome is a response whose first candidate requests no tool
call, that is, a plain-text answer. -/
def isPlainAnswer : Except GoError openai.ChatCompletion → Bool
  | .ok resp =>
    match resp.Choices with
    | [] => false
    | choice :: _ => choice.Message.ToolCalls.isEmpty
  | .error _ => false

/-! ## Sequences of registrations -/

/-- The registry obtained from `NewRegistry()` by calling `Register` with the tools of `ts`,
in order. -/
def registerAll {σ : Type} (ts : List (tools.Tool σ)) : tools.Registry σ :=
  ts.foldl tools.Registry.Register tools.NewRegistry

/-- The tool most recently registered under `name` in the sequence `ts`, with its position
in the sequence; `none` when no tool of `ts` has that name. -/
def lastRegistered {σ : Type} (name : GoString) (ts : List (tools.Tool σ)) :
    Option (Nat × tools.Tool σ) :=
  ts.enum.reverse.find? (fun e => e.2.Name = name)

/-- The tools of `ts`, each recording its executions under its position in `ts`. -/
def tracedAll {σ : Type} (ts : List (tools.Tool σ)) : List (tools.Tool (σ × List Event)) :=
  ts.enum.map (fun e => e.2.traced e.1)

/-- The tools of `ts` that are not followed by a tool of the same name: for each
registered name the tool last registered under it. -/
def lastPerName {σ : Type} : List (tools.Tool σ) → List (tools.Tool σ)
  | [] => []
  | t :: rest =>
    if rest.any (fun u => u.Name = t.Name) then lastPerName rest else t :: lastPerName rest

/-! ## The pairing of tool results with tool calls -/

/-- The IDs on the tool-call list of the nearest assistant message at the end of `msgs`, or
`ids` when `msgs` holds no assistant message. -/
def lastCallIDs : List GoString → List openai.MessageParam → List GoString
  | ids, [] => ids
  | _, .assistant _ toolCalls :: rest => lastCallIDs (toolCalls.map (fun c => c.ID)) rest
  | ids, .system _ :: rest => lastCallIDs ids rest
  | ids, .user _ :: rest => lastCallIDs ids rest
  | ids, .tool _ _ :: rest => lastCallIDs ids rest

/-- Whether every tool message of `msgs` carries an ID of the tool-call list of the nearest
assistant message before it; `ids` is that list for the messages that precede `msgs`
(empty when no assistant message precedes). -/
def toolResultsKeyed : List GoString → List openai.MessageParam → Bool
  | _, [] => true
  | _, .assistant _ toolCalls :: rest => toolResultsKeyed (toolCalls.map (fun c => c.ID)) rest
  | ids, .tool _ toolCallID :: rest => decide (toolCallID ∈ ids) && toolResultsKeyed ids rest
  | ids, .system _ :: rest => toolResultsKeyed ids rest
  | ids, .user _ :: rest => toolResultsKeyed ids rest

/-! ## A simulated completion API -/

/-- A simulated completion API: the outcome of call number `c` (counted from 0) on the
request `params` is `script c params`. The first component of the state counts the calls
made so far. -/
def scriptedClient {τ : Type}
    (script : Nat → openai.ChatCompletionNewParams → Except GoError openai.ChatCompletion) :
    openai.Client (Nat × τ) :=
  ⟨fun params w => (script w.1 params, (w.1 + 1, w.2))⟩

/-- The tool `t` in a world that also carries the call counter, which it leaves alone. -/
def tools.Tool.lift {τ : Type} (t : tools.Tool τ) : tools.Tool (Nat × τ) :=
  { Name := t.Name
    Definition := t.Definition
    Execute := fun arguments w =>
      ((t.Execute arguments w.2).1, (w.1, (t.Execute arguments w.2).2)) }

/-- The registry `r` in a world that also carries the call counter. -/
def tools.Registry.lift {τ : Type} (r : tools.Registry τ) : tools.Registry (Nat × τ) :=
  ⟨r.tools.map (fun e => (e.1, e.2.lift))⟩

/-- The assistant made of a simulated completion API and the registry `r`. -/
def scriptedAssistant {τ : Type}
    (script : Nat → openai.ChatCompletionNewParams → Except GoError openai.ChatCompletion)
    (r : tools.Registry τ) : Assistant (Nat × τ) :=
  ⟨scriptedClient script, r.lift⟩

/-! ## Sample world used to instantiate the theorems -/

/-- A tool that echoes its arguments. -/
def echoTool : tools.Tool Unit :=
  { Name := str "echo"
    Definition := ⟨str "echo", str "Echo the arguments", str ""⟩
    Execute := fun arguments s => (.ok arguments, s) }

/-- A tool that always fails. -/
def failingTool : tools.Tool Unit :=
  { Name := str "fail"
    Definition := ⟨str "fail", str "Always fails", str ""⟩
    Execute := fun _ s => (.error (errors.New (str "boom")), s) }

/-- A second tool named "echo", which answers "again" whatever its arguments. -/
def echoAgainTool : tools.Tool Unit :=
  { Name := str "echo"
    Definition := ⟨str "echo", str "Answer again", str ""⟩
    Execute := fun _ s => (.ok (str "again"), s) }

/-- A registry holding `echoTool` and `failingTool`. -/
def sampleRegistry : tools.Registry Unit :=
  (tools.NewRegistry.Register echoTool).Register failingTool

/-- A tool call to the failing tool. -/
def failCall : openai.ToolCall := ⟨str "call_1", ⟨str "fail", str ""⟩⟩

/-- A client whose every response requests one call of the failing tool. -/
def loopingClient : openai.Client Unit :=
  ⟨fun _ s => (.ok ⟨[⟨⟨str "", [failCall]⟩⟩]⟩, s)⟩

/-- An assistant that never gets a plain-text answer. -/
def loopingAssistant : Assistant Unit := ⟨loopingClient, sampleRegistry⟩

/-- A conversation of one user message. -/
def sampleConversation : model.Conversation :=
  ⟨str "c1", [⟨.RoleUser, str "What is the weather in Barcelona?"⟩]⟩

/-- A conversation without messages. -/
def emptyConversation : model.Conversation := ⟨str "c0", []⟩

/-- A script that requests the failing tool once and then answers "Sunny". -/
def oneToolScript : Nat → openai.ChatCompletionNewParams → Except GoError openai.ChatCompletion :=
  fun c _ => if c = 0 then .ok ⟨[⟨⟨str "", [failCall]⟩⟩]⟩ else .ok ⟨[⟨⟨str "Sunny", []⟩⟩]⟩

/-- A client that answers every request with the single candidate text `text`. -/
def titleClient (text : GoString) : openai.Client Unit :=
  ⟨fun _ s => (.ok ⟨[⟨⟨text, []⟩⟩]⟩, s)⟩

/-- An assistant whose completion API generates `text`. -/
def titleAssistant (text : GoString) : Assistant Unit := ⟨titleClient text, sampleRegistry⟩

/-- A generated text of 120 bytes: a double quote followed by 119 letters `a`. -/
def quotedText : GoString := 0x22 :: List.replicate 119 0x61

/-- A generated text of 120 letters `a`. -/
def plainText : GoString := List.replicate 120 0x61

/-! ## `tools/stock.go`: the volume with thousands separators -/

/-- The decimal digits of `n` in front of `acc`, most significant first; `fuel` bounds the
number of digits and `n + 1` is always enough (`decimalAux_eq`). -/
def decimalAux : Nat → Nat → GoString → GoString
  | 0, _, acc => acc
  | fuel + 1, n, acc =>
    if n / 10 = 0 then (0x30 + n % 10) :: acc
    else decimalAux fuel (n / 10) ((0x30 + n % 10) :: acc)

/-- The decimal representation of a natural number. -/
def decimal (n : Nat) : GoString := decimalAux (n + 1) n []

/-- Go `fmt.Sprintf("%d", v)` for an integer `v`. -/
def fmt.Sprintd (v : Int) : GoString :=
  if v < 0 then 0x2D :: decimal v.natAbs else decimal v.toNat

/-- The loop of `formatVolume`, `for i, r := range str`, at index `i` with the runes from
`i` on still to visit; `n` is `len(str)` and `result` the builder. -/
def formatVolumeLoop (n : Nat) : Nat → GoString → GoString → GoString
  | _, [], result => result
  | i, r :: rest, result =>
    if i > 0 ∧ (n - i) % 3 = 0 then
      formatVolumeLoop n (i + 1) rest ((result ++ [0x2C]) ++ [r])
    else
      formatVolumeLoop n (i + 1) rest (result ++ [r])

/-- Go `formatVolume`. -/
def formatVolume (volume : Int) : GoString :=
  if volume = 0 then str "0"
  else
    if (fmt.Sprintd volume).length ≤ 3 then fmt.Sprintd volume
    else formatVolumeLoop (fmt.Sprintd volume).length 0 (fmt.Sprintd volume) []

/-- The number written by a string of decimal digits. -/
def decimalValue (s : GoString) : Nat := s.foldl (fun v d => 10 * v + (d - 0x30)) 0

/-- Whether a byte is one of the decimal digits `0` to `9`. -/
def isDigit (b : Nat) : Bool := 0x30 ≤ b && b ≤ 0x39

/-! ## Floating-point numbers and their formatting -/

/-- A Go `float64`. A finite value is `±mant * 2^exp` (both zeros included, the negative
zero having `neg = true` and `mant = 0`); the other values are the two infinities and NaN. -/
inductive float64 where
  | finite (neg : Bool) (mant : Nat) (exp : Int)
  | inf (neg : Bool)
  | nan
deriving DecidableEq, Repr

/-- Go `f < 0`. -/
def float64.lt0 : float64 → Bool
  | .finite neg mant _ => neg && decide (mant ≠ 0)
  | .inf neg => neg
  | .nan => false

/-- Go `-f`. -/
def float64.neg : float64 → float64
  | .finite neg mant exp => .finite (!neg) mant exp
  | .inf neg => .inf (!neg)
  | .nan => .nan

/-- Whether `f` is the negative zero. -/
def float64.isNegZero : float64 → Bool
  | .finite neg mant _ => neg && decide (mant = 0)
  | _ => false

/-- Whether `f` is finite. -/
def float64.isFinite : float64 → Bool
  | .finite _ _ _ => true
  | _ => false

/-- The integer nearest to `mant * 2^exp * 10^prec`, a tie going to the even neighbour:
the rounding of `strconv.FormatFloat(f, 'f', prec, 64)`, which works on the exact value. -/
def float64.scaled (mant : Nat) (exp : Int) (prec : Nat) : Nat :=
  if 0 ≤ exp then mant * 2 ^ exp.toNat * 10 ^ prec
  else
    let num := mant * 10 ^ prec
    let den := 2 ^ (-exp).toNat
    if 2 * (num % den) > den ∨ (2 * (num % den) = den ∧ num / den % 2 = 1) then num / den + 1
    else num / den

/-- The `prec` decimal digits of `frac < 10^prec`, leading zeros included. -/
def fractionDigits (prec frac : Nat) : GoString :=
  (List.range prec).map (fun i => 0x30 + frac / 10 ^ (prec - 1 - i) % 10)

/-- Go `fmt.Sprintf("%.<prec>f", f)` for `prec > 0`. -/
def fmt.fixed (prec : Nat) : float64 → GoString
  | .finite neg mant exp =>
    (if neg then [0x2D] else [])
      ++ decimal (float64.scaled mant exp prec / 10 ^ prec)
      ++ 0x2E :: fractionDigits prec (float64.scaled mant exp prec % 10 ^ prec)
  | .inf false => str "+Inf"
  | .inf true => str "-Inf"
  | .nan => str "NaN"

/-! ## `tools/stock.go` -/

/-- Go `StockData`. -/
structure StockData where
  Symbol : GoString
  Price : float64
  Change : float64
  ChangePercent : float64
  Volume : Int
  High : float64
  Low : float64
  Open : float64
  PreviousClose : float64
  Name : GoString
deriving DecidableEq, Repr

/-- Go `abs` of `tools/stock.go`. -/
def abs (f : float64) : float64 :=
  if f.lt0 then f.neg else f

/-- The `changeIndicator` of both formatting functions. -/
def changeIndicator (data : StockData) : GoString :=
  if data.Change.lt0 then str "▼" else str "▲"

/-- Go `(*StockTool).formatSimpleResponse`. -/
def formatSimpleResponse (data : StockData) : GoString :=
  if data.Name ≠ [] then
    data.Name ++ str " (" ++ data.Symbol ++ str "): $" ++ fmt.fixed 2 data.Price ++ str " "
      ++ changeIndicator data ++ fmt.fixed 2 (abs data.Change) ++ str " ("
      ++ fmt.fixed 2 (abs data.ChangePercent) ++ str "%)"
  else
    data.Symbol ++ str ": $" ++ fmt.fixed 2 data.Price ++ str " "
      ++ changeIndicator data ++ fmt.fixed 2 (abs data.Change) ++ str " ("
      ++ fmt.fixed 2 (abs data.ChangePercent) ++ str "%)"

/-- Go `(*StockTool).formatDetailedResponse`. -/
def formatDetailedResponse (data : StockData) : GoString :=
  str "Stock: " ++ data.Name ++ str " (" ++ data.Symbol ++ str ")\n"
    ++ (str "Price: $" ++ fmt.fixed 2 data.Price ++ str "\n")
    ++ (str "Change: " ++ changeIndicator data ++ str "$" ++ fmt.fixed 2 (abs data.Change)
        ++ str " (" ++ fmt.fixed 2 (abs data.ChangePercent) ++ str "%)\n")
    ++ (str "Open: $" ++ fmt.fixed 2 data.Open ++ str "\n")
    ++ (str "High: $" ++ fmt.fixed 2 data.High ++ str "\n")
    ++ (str "Low: $" ++ fmt.fixed 2 data.Low ++ str "\n")
    ++ (str "Previous Close: $" ++ fmt.fixed 2 data.PreviousClose ++ str "\n")
    ++ (str "Volume: " ++ formatVolume data.Volume ++ str "\n")

/-- The numbers that `fetchStockData` reads from the "Global Quote" object of the response
with `parseFloat` and `parseInt`. -/
structure GlobalQuote where
  Price : float64
  Change : float64
  ChangePercent : float64
  Volume : Int
  High : float64
  Low : float64
  Open : float64
  PreviousClose : float64
deriving DecidableEq, Repr

/-- The arguments of the stock tool once decoded. -/
structure StockPayload where
  Symbol : GoString
  Detailed : Bool
deriving DecidableEq, Repr

/-- The external calls of the stock tool, each with its decoding. `globalQuote`,
`overviewName` and `bestMatches` stand for the three HTTP requests: an error is a failed
request or an undecodable body; `globalQuote` gives the "Global Quote" entry when present,
`overviewName` the string under "Name" when present, `bestMatches` the symbols of the
matches. -/
structure StockWorld where
  Unmarshal : GoString → Except GoError StockPayload
  ToUpper : GoString → GoString
  globalQuote : GoString → Except GoError (Option GlobalQuote)
  overviewName : GoString → Except GoError (Option GoString)
  bestMatches : GoString → Except GoError (List GoString)

/-- Go `(*StockTool).getCompanyName`. -/
def getCompanyName (w : StockWorld) (symbol : GoString) : Except GoError GoString :=
  match w.overviewName symbol with
  | .error err => .error err
  | .ok (some name) => .ok name
  | .ok none => .ok symbol

/-- Go `(*StockTool).resolveSymbol`. -/
def resolveSymbol (w : StockWorld) (query : GoString) : Except GoError GoString :=
  match w.bestMatches query with
  | .error err => .error err
  | .ok [] => .error (errors.New (str "no matching symbols found for '" ++ query ++ str "'"))
  | .ok (symbol :: _) => .ok symbol

/-- Go `(*StockTool).fetchStockData`. -/
def fetchStockData (w : StockWorld) (symbol : GoString) : Except GoError StockData :=
  match w.globalQuote symbol with
  | .error err => .error err
  | .ok none => .error (errors.New (str "no quote data found for symbol " ++ symbol))
  | .ok (some quote) =>
    let stockData : StockData :=
      { Symbol := symbol
        Price := quote.Price
        Change := quote.Change
        ChangePercent := quote.ChangePercent
        Volume := quote.Volume
        High := quote.High
        Low := quote.Low
        Open := quote.Open
        PreviousClose := quote.PreviousClose
        Name := [] }
    match getCompanyName w symbol with
    | .ok name => .ok { stockData with Name := name }
    | .error _ => .ok stockData

/-- Go `(*StockTool).Execute`, for the tool with API key `apiKey`. -/
def StockTool.Execute (w : StockWorld) (apiKey : GoString) (args : GoString) :
    Except GoError GoString :=
  if apiKey = [] then
    .error (errors.New
      (str "stock API key not configured. Please set STOCK_API_KEY environment variable."))
  else
    match w.Unmarshal args with
    | .error err => .error (errors.New (str "failed to parse arguments: " ++ err.Error))
    | .ok payload =>
      if payload.Symbol = [] then .error (errors.New (str "stock symbol is required"))
      else
        let symbol := w.ToUpper payload.Symbol
        let resolved : Except GoError GoString :=
          if symbol.length > 5 then
            match resolveSymbol w symbol with
            | .error err =>
              .error (errors.New
                (str "could not find stock symbol for '" ++ symbol ++ str "': " ++ err.Error))
            | .ok resolvedSymbol => .ok resolvedSymbol
          else .ok symbol
        match resolved with
        | .error err => .error err
        | .ok symbol =>
          match fetchStockData w symbol with
          | .error err => .error err
          | .ok stockData =>
            if payload.Detailed then .ok (formatDetailedResponse stockData)
            else .ok (formatSimpleResponse stockData)

/-- Whether `s` is a number with exactly two decimals and no sign: one or more digits, a
point, two digits. -/
def isUnsignedFixed2 (s : GoString) : Bool :=
  match s.reverse with
  | d2 :: d1 :: 0x2E :: int => isDigit d1 && isDigit d2 && !int.isEmpty && int.all isDigit
  | _ => false

/-- Whether `s` is a number with exactly two decimals, with or without a minus sign. -/
def isFixed2 (s : GoString) : Bool :=
  match s with
  | 0x2D :: rest => isUnsignedFixed2 rest
  | _ => isUnsignedFixed2 s

/-- Whether `sub` occurs in `s` as a contiguous part. -/
def occursIn (sub s : GoString) : Prop := ∃ before after, s = before ++ sub ++ after

/-! ## Sample quotes -/

/-- A quote of AAPL: price 150.00, change -2.50, change percent -1.50, no company name. -/
def appleData : StockData :=
  { Symbol := str "AAPL"
    Price := .finite false 150 0
    Change := .finite true 5 (-1)
    ChangePercent := .finite true 3 (-1)
    Volume := 1234567
    High := .finite false 151 0
    Low := .finite false 149 0
    Open := .finite false 152 0
    PreviousClose := .finite false 305 (-1)
    Name := [] }

/-- The arguments `\x7b"symbol":"aapl"\x7d`. -/
def simpleArgs : GoString := str "\x7b\"symbol\":\"aapl\"\x7d"

/-- The arguments `\x7b"symbol":"aapl","detailed":true\x7d`. -/
def detailedArgs : GoString := str "\x7b\"symbol\":\"aapl\",\"detailed\":true\x7d"

/-- A world in which the quote lookup succeeds and the company-overview lookup fails. -/
def overviewDownWorld : StockWorld :=
  { Unmarshal := fun args =>
      if args = simpleArgs then .ok ⟨str "aapl", false⟩
      else if args = detailedArgs then .ok ⟨str "aapl", true⟩
      else .error (errors.New (str "unexpected end of JSON input"))
    ToUpper := fun s => s.map (fun b => if 0x61 ≤ b ∧ b ≤ 0x7A then b - 0x20 else b)
    globalQuote := fun _ =>
      .ok (some
        { Price := .finite false 150 0
          Change := .finite true 5 (-1)
          ChangePercent := .finite true 3 (-1)
          Volume := 1234567
          High := .finite false 151 0
          Low := .finite false 149 0
          Open := .finite false 152 0
          PreviousClose := .finite false 305 (-1) })
    overviewName := fun _ => .error (errors.New (str "context deadline exceeded"))
    bestMatches := fun _ => .ok [] }

/-! ## `tools/weather.go` -/

/-- Go `int(f)` for a `float64`: the value truncated toward zero. For a value outside
`int64` (and for the infinities and NaN) Go leaves the result to the implementation; the
model takes the result of amd64, the least `int64`. -/
def float64.toInt : float64 → Int
  | .finite neg mant exp =>
    let magnitude : Nat := if 0 ≤ exp then mant * 2 ^ exp.toNat else mant / 2 ^ (-exp).toNat
    let value : Int := if neg then -(magnitude : Int) else (magnitude : Int)
    if -(2 : Int) ^ 63 ≤ value ∧ value < (2 : Int) ^ 63 then value else -(2 : Int) ^ 63
  | _ => -(2 : Int) ^ 63

/-- The `location` object of `WeatherAPIResponse`. -/
structure WeatherLocation where
  Name : GoString
  Region : GoString
  Country : GoString
deriving DecidableEq, Repr

/-- The `current` object of `WeatherAPIResponse`. -/
structure WeatherCurrent where
  TempC : float64
  TempF : float64
  ConditionText : GoString
  Humidity : Int
  FeelsLikeC : float64
  FeelsLikeF : float64
  WindMph : float64
  WindKph : float64
deriving DecidableEq, Repr

/-- Go `WeatherAPIResponse`. -/
structure WeatherAPIResponse where
  Location : WeatherLocation
  Current : WeatherCurrent
deriving DecidableEq, Repr

/-- The response of the weather API: its status code, its status line and the outcome of
decoding its body as a `WeatherAPIResponse`. -/
structure WeatherResponse where
  StatusCode : Int
  Status : GoString
  Body : Except GoError WeatherAPIResponse

/-- The HTTP layer under `GetWeather`: the outcome of `http.NewRequestWithContext` and of
`ws.client.Do` for a URL. -/
structure WeatherWorld where
  NewRequest : GoString → Except GoError Unit
  Do : GoString → Except GoError WeatherResponse

/-- The URL built by `GetWeather`. -/
def weatherURL (apiKey location : GoString) : GoString :=
  str "https://api.weatherapi.com/v1/current.json?key=" ++ apiKey ++ str "&q=" ++ location
    ++ str "&aqi=no"

/-- The last part of `GetWeather`: the one-line summary of the decoded body. -/
def formatWeather (weatherData : WeatherAPIResponse) : GoString :=
  let locationName := weatherData.Location.Name
  let locationName :=
    if weatherData.Location.Region ≠ [] then locationName ++ str ", " ++ weatherData.Location.Region
    else locationName
  let locationName :=
    if weatherData.Location.Country ≠ [] then
      locationName ++ str ", " ++ weatherData.Location.Country
    else locationName
  let temperature := weatherData.Current.TempF.toInt
  let weatherDescription := weatherData.Current.ConditionText
  let humidity := weatherData.Current.Humidity
  let feelsLike := weatherData.Current.FeelsLikeF.toInt
  str "Weather in " ++ locationName ++ str ": " ++ fmt.Sprintd temperature ++ str "°F ("
    ++ weatherDescription ++ str "), Feels like: " ++ fmt.Sprintd feelsLike
    ++ str "°F, Humidity: " ++ fmt.Sprintd humidity ++ str "%, Wind: "
    ++ fmt.fixed 1 weatherData.Current.WindMph ++ str " mph"

/-- Go `(*SimpleWeatherService).GetWeather`, for the service with API key `apiKey`. -/
def GetWeather (w : WeatherWorld) (apiKey location : GoString) : Except GoError GoString :=
  if apiKey = [] then .ok (str "Weather service not configured. Please set WEATHER_API_KEY.")
  else
    match w.NewRequest (weatherURL apiKey location) with
    | .error err => .error (errors.New (str "failed to create request: " ++ err.Error))
    | .ok _ =>
      match w.Do (weatherURL apiKey location) with
      | .error err => .error (errors.New (str "failed to get weather data: " ++ err.Error))
      | .ok resp =>
        if resp.StatusCode ≠ 200 then
          if resp.StatusCode = 404 then
            .error (errors.New (str "location '" ++ location ++ str "' not found"))
          else if resp.StatusCode = 401 then
            .error (errors.New (str "invalid API key for weather service"))
          else if resp.StatusCode = 400 then
            .error (errors.New (str "invalid location format or missing parameters"))
          else .error (errors.New (str "weather API returned status: " ++ resp.Status))
        else
          match resp.Body with
          | .error err => .error (errors.New (str "failed to parse weather data: " ++ err.Error))
          | .ok weatherData => .ok (formatWeather weatherData)

/-- The four failures by which `GetWeather` answers a status code. -/
def isStatusFailure (location status : GoString) (out : Except GoError GoString) : Prop :=
  out = .error (errors.New (str "location '" ++ location ++ str "' not found"))
    ∨ out = .error (errors.New (str "invalid API key for weather service"))
    ∨ out = .error (errors.New (str "invalid location format or missing parameters"))
    ∨ out = .error (errors.New (str "weather API returned status: " ++ status))

/-- A decoded body: Barcelona, 72.5 °F, sunny. -/
def barcelonaWeather : WeatherAPIResponse :=
  { Location := ⟨str "Barcelona", str "Catalonia", str "Spain"⟩
    Current :=
      { TempC := .finite false 45 (-1)
        TempF := .finite false 145 (-1)
        ConditionText := str "Sunny"
        Humidity := 40
        FeelsLikeC := .finite false 23 0
        FeelsLikeF := .finite false 147 (-1)
        WindMph := .finite false 25 (-2)
        WindKph := .finite false 10 0 } }

/-- A weather API that answers every request with the given status and the Barcelona
body. -/
def weatherWorld (code : Int) (status : GoString) : WeatherWorld :=
  { NewRequest := fun _ => .ok ()
    Do := fun _ => .ok ⟨code, status, .ok barcelonaWeather⟩ }

/-! ## Instants and dates -/

/-- A Go `time.Time`: an instant, in nanoseconds since January 1 of year 1, 00:00:00 UTC
(the zero time), and the offset of its location at that instant, in seconds east of UTC. -/
structure time.Time where
  instant : Int
  offset : Int
deriving DecidableEq, Repr

/-- Go `t.IsZero()`. -/
def time.Time.IsZero (t : time.Time) : Bool := decide (t.instant = 0)

/-- Go `t.After(u)`. -/
def time.Time.After (t u : time.Time) : Bool := decide (u.instant < t.instant)

/-- Go `t.Before(u)`. -/
def time.Time.Before (t u : time.Time) : Bool := decide (t.instant < u.instant)

/-- The year, month and day of the proleptic Gregorian calendar that lie `days` days after
January 1 of year 1. -/
def time.civil (days : Int) : Int × Nat × Nat :=
  let z := days + 306
  let era := z / 146097
  let doe := (z % 146097).toNat
  let yoe := (doe - doe / 1460 + doe / 36524 - doe / 146096) / 365
  let doy := doe - (365 * yoe + yoe / 4 - yoe / 100)
  let mp := (5 * doy + 2) / 153
  let day := doy - (153 * mp + 2) / 5 + 1
  let month := if mp < 10 then mp + 3 else mp - 9
  (yoe + era * 400 + (if month ≤ 2 then 1 else 0), month, day)

/-- Go `appendInt` of package `time`: `x` in decimal, padded with zeros to `width` digits
after the sign. -/
def time.appendInt (x : Int) (width : Nat) : GoString :=
  (if x < 0 then [0x2D] else [])
    ++ List.replicate (width - (decimal x.natAbs).length) 0x30 ++ decimal x.natAbs

/-- Go `t.Format(time.DateOnly)`, the layout "2006-01-02". -/
def time.Time.FormatDateOnly (t : time.Time) : GoString :=
  let date := time.civil ((t.instant / 1000000000 + t.offset) / 86400)
  time.appendInt date.1 4 ++ [0x2D] ++ time.appendInt date.2.1 2 ++ [0x2D]
    ++ time.appendInt date.2.2 2

/-- Go `t.Year()`. -/
def time.Time.Year (t : time.Time) : Int :=
  (time.civil ((t.instant / 1000000000 + t.offset) / 86400)).1

/-- Whether a text has the shape `YYYY-MM-DD`: four digits, a hyphen, two digits, a hyphen
and two digits. -/
def isDateOnly : GoString → Bool
  | [y1, y2, y3, y4, h1, m1, m2, h2, d1, d2] =>
    isDigit y1 && isDigit y2 && isDigit y3 && isDigit y4 && h1 == 0x2D
      && isDigit m1 && isDigit m2 && h2 == 0x2D && isDigit d1 && isDigit d2
  | _ => false

/-! ## `tools/holidays.go` -/

/-- An event of the calendar feed. The holidays tool observes two things of it: the
outcome of `GetAllDayStartAt()` and the value of its SUMMARY property, `none` when the
event has no such property (`GetProperty` then returns nil). `GetAllDayStartAt()` returns
the date of the start whenever the DTSTART of the event holds a readable date, for a timed
event as well as for an all-day one. `AllDay` tells whether the event is an all-day event
(its DTSTART is a date without a time of day); the tool never reads it, only the wording
of the specification refers to it. -/
structure ics.VEvent where
  AllDay : Bool
  AllDayStartAt : Except GoError time.Time
  Summary : Option GoString

/-- The outcome of a Go call that returns `(string, error)`, or panics. -/
inductive GoResult where
  | ok (result : GoString)
  | error (err : GoError)
  | panic
deriving DecidableEq, Repr

/-- The `payload` struct of `(*HolidaysTool).Execute`. -/
structure HolidaysPayload where
  BeforeDate : time.Time
  AfterDate : time.Time
  MaxCount : Int
deriving DecidableEq, Repr

/-- The arguments of the holidays tool as `Execute` meets them: no bytes at all, bytes that
`json.Unmarshal` rejects, or a JSON object in which each of the three keys is given or
not. -/
inductive HolidaysArgs where
  | empty
  | invalid (err : GoError)
  | object (before_date after_date : Option time.Time) (max_count : Option Int)

/-- The zero value of `time.Time`. -/
def time.zero : time.Time := ⟨0, 0⟩

/-- The lines 59-69 of `Execute`: the payload starts as the zero value, `json.Unmarshal`
runs when `len(args) > 0` and fills the keys that are given. -/
def HolidaysArgs.Unmarshal : HolidaysArgs → Except GoError HolidaysPayload
  | .empty => .ok ⟨time.zero, time.zero, 0⟩
  | .invalid err => .error err
  | .object before_date after_date max_count =>
    .ok ⟨before_date.getD time.zero, after_date.getD time.zero, max_count.getD 0⟩

/-- The loop of `Execute` over the events, `holidays` being the lines collected so far;
`none` is the nil dereference of `event.GetProperty(...).Value` on an event without
SUMMARY. -/
def holidaysLoop (payload : HolidaysPayload) :
    List ics.VEvent → List GoString → Option (List GoString)
  | [], holidays => some holidays
  | event :: rest, holidays =>
    match event.AllDayStartAt with
    | .error _ => holidaysLoop payload rest holidays
    | .ok date =>
      if payload.MaxCount > 0 ∧ (holidays.length : Int) ≥ payload.MaxCount then some holidays
      else if (!payload.BeforeDate.IsZero && date.After payload.BeforeDate) = true then
        holidaysLoop payload rest holidays
      else if (!payload.AfterDate.IsZero && date.Before payload.AfterDate) = true then
        holidaysLoop payload rest holidays
      else
        match event.Summary with
        | none => none
        | some value =>
          holidaysLoop payload rest (holidays ++ [date.FormatDateOnly ++ str ": " ++ value])

/-- Go `strings.Join(elems, sep)`. -/
def strings.Join : List GoString → GoString → GoString
  | [], _ => []
  | [a], _ => a
  | a :: b :: rest, sep => a ++ sep ++ strings.Join (b :: rest) sep

/-- The lines 49-52 of `Execute`: the link of the feed, the default one unless the
environment variable `HOLIDAY_CALENDAR_LINK` is set. -/
def calendarLink (getenv : GoString → GoString) : GoString :=
  if getenv (str "HOLIDAY_CALENDAR_LINK") ≠ [] then getenv (str "HOLIDAY_CALENDAR_LINK")
  else str "https://www.officeholidays.com/ics/spain/catalonia"

/-- Go `(*HolidaysTool).Execute`; `getenv` is `os.Getenv` and `LoadCalendar` the outcome of
fetching and parsing the feed at a link. -/
def HolidaysTool.Execute (getenv : GoString → GoString)
    (LoadCalendar : GoString → Except GoError (List ics.VEvent)) (args : HolidaysArgs) :
    GoResult :=
  match LoadCalendar (calendarLink getenv) with
  | .error err => .error err
  | .ok events =>
    match args.Unmarshal with
    | .error err => .error err
    | .ok payload =>
      match holidaysLoop payload events [] with
      | none => .panic
      | some holidays => .ok (strings.Join holidays (str "\n"))

/-- The line `YYYY-MM-DD: <summary>` of an event whose start date is read and that has a
summary. -/
def holidayLine (event : ics.VEvent) : GoString :=
  match event.AllDayStartAt, event.Summary with
  | .ok date, some value => date.FormatDateOnly ++ str ": " ++ value
  | _, _ => []

/-- Whether `Execute` lets an event through: `GetAllDayStartAt()` returns its start date
without error, and that date is not strictly after a `BeforeDate` other than the zero time
and not strictly before an `AfterDate` other than the zero time. No other test of being an
all-day event is made. -/
def qualifies (payload : HolidaysPayload) (event : ics.VEvent) : Bool :=
  match event.AllDayStartAt with
  | .error _ => false
  | .ok date =>
    !(!payload.BeforeDate.IsZero && date.After payload.BeforeDate)
      && !(!payload.AfterDate.IsZero && date.Before payload.AfterDate)

/-- The events that `Execute` lists: the qualifying events of the feed, in feed order, cut
to the first `MaxCount` when `MaxCount` is positive. -/
def selectedHolidays (payload : HolidaysPayload) (events : List ics.VEvent) :
    List ics.VEvent :=
  if payload.MaxCount > 0 then (events.filter (qualifies payload)).take payload.MaxCount.toNat
  else events.filter (qualifies payload)

/-- The output as the specification words it: among the all-day events that are neither
strictly after `before_date` nor strictly before `after_date` (an absent bound excluding
nothing), the first `max_count` (all of them when `max_count` is not given), one line
each, joined by newlines. -/
def claimedHolidays (events : List ics.VEvent) (before_date after_date : Option time.Time)
    (max_count : Option Int) : GoString :=
  let qualifying := events.filter (fun event =>
    event.AllDay &&
    match event.AllDayStartAt with
    | .error _ => false
    | .ok date =>
      !(match before_date with
        | some bound => date.After bound
        | none => false)
      && !(match after_date with
        | some bound => date.Before bound
        | none => false))
  let selected :=
    match max_count with
    | some n => qualifying.take n.toNat
    | none => qualifying
  strings.Join (selected.map holidayLine) (str "\n")

/-- An all-day event that starts `days` days after January 1 of year 1, at midnight UTC. -/
def allDay (days : Int) (summary : String) : ics.VEvent :=
  ⟨true, .ok ⟨days * 86400 * 1000000000, 0⟩, some (str summary)⟩

/-- Christmas Day 2024, an all-day event. -/
def christmas : ics.VEvent := allDay 739244 "Christmas Day"

/-- The instant at which Christmas Day 2024 starts, 2024-12-25T00:00:00Z. -/
def christmasStart : time.Time := ⟨739244 * 86400 * 1000000000, 0⟩

/-- A timed event, a meeting on December 25, 2024 at 10:00 UTC (DTSTART `20241225T100000Z`):
`GetAllDayStartAt()` returns the date of its start, 2024-12-25T00:00:00Z. -/
def meeting : ics.VEvent := ⟨false, .ok christmasStart, some (str "Meeting")⟩

/-- The number of lines of a text: one more than its newlines. -/
def lineCount (text : GoString) : Nat := text.count 0x0A + 1

/-- A feed of ten all-day events, December 22 to December 31, 2024. -/
def tenHolidays : List ics.VEvent :=
  (List.range 10).map (fun i => allDay (739241 + i) "Holiday")

/-- A feed loader that answers every link with `events`. -/
def feedOf (events : List ics.VEvent) : GoString → Except GoError (List ics.VEvent) :=
  fun _ => .ok events

/-- An environment without variables. -/
def noEnv : GoString → GoString := fun _ => []

/-! ## Lemmas on the registry -/

theorem GoMap.get?_set {V : Type} (m : GoMap V) (k : GoString) (v : V) (name : GoString) :
    (m.set k v).get? name = if k = name then some v else m.get? name := by
  unfold GoMap.set GoMap.get?
  rw [List.find?_append, List.find?_filter]
  by_cases hk : k = name
  · subst hk
    simp
  · have : (fun e : GoString × V => decide (decide (e.1 ≠ k) = true ∧ decide (e.1 = name) = true))
        = fun e => decide (e.1 = name) := by
      funext e
      by_cases he : e.1 = name
      · simp [he, Ne.symm hk]
      · simp [he]
    rw [this]
    cases m.find? (fun e => decide (e.1 = name)) <;> simp [hk]

theorem registerAll_append {σ : Type} (ts : List (tools.Tool σ)) (t : tools.Tool σ) :
    registerAll (ts ++ [t]) = (registerAll ts).Register t := by
  simp [registerAll, List.foldl_append]

theorem lastRegistered_append {σ : Type} (name : GoString) (ts : List (tools.Tool σ))
    (t : tools.Tool σ) :
    lastRegistered name (ts ++ [t])
      = if t.Name = name then some (ts.length, t) else lastRegistered name ts := by
  unfold lastRegistered
  rw [List.enum_append, List.enumFrom_singleton, List.reverse_append]
  by_cases h : t.Name = name <;> simp [h]

theorem registerAll_get? {σ σ' : Type} (f : Nat → tools.Tool σ → tools.Tool σ')
    (hf : ∀ k t, (f k t).Name = t.Name) (ts : List (tools.Tool σ)) (name : GoString) :
    (registerAll (ts.enum.map (fun e => f e.1 e.2))).tools.get? name
      = (lastRegistered name ts).map (fun e => f e.1 e.2) := by
  induction ts using List.reverseRecOn with
  | nil => rfl
  | append_singleton ts t ih =>
    rw [List.enum_append, List.enumFrom_singleton, List.map_append, List.map_singleton,
      registerAll_append, lastRegistered_append]
    show GoMap.get? (GoMap.set _ _ _) name = _
    rw [GoMap.get?_set, ih, hf]
    by_cases h : t.Name = name <;> simp [h]

theorem lastRegistered_eq_none {σ : Type} (name : GoString) (ts : List (tools.Tool σ)) :
    lastRegistered name ts = none ↔ ∀ t ∈ ts, t.Name ≠ name := by
  induction ts using List.reverseRecOn with
  | nil => simp [lastRegistered]
  | append_singleton ts t ih =>
    rw [lastRegistered_append]
    by_cases h : t.Name = name
    · simp only [h, if_true, List.mem_append, List.mem_singleton]
      exact ⟨fun hc => Option.noConfusion hc, fun hall => absurd h (hall t (Or.inr rfl))⟩
    · simp only [h, if_false, ih, List.mem_append, List.mem_singleton]
      constructor
      · rintro hall u (hu | rfl)
        · exact hall u hu
        · exact h
      · exact fun hall u hu => hall u (Or.inl hu)

theorem lastRegistered_some {σ : Type} (name : GoString) (ts : List (tools.Tool σ))
    (k : Nat) (t : tools.Tool σ) (h : lastRegistered name ts = some (k, t)) :
    ts[k]? = some t ∧ t.Name = name ∧ ∀ j u, k < j → ts[j]? = some u → u.Name ≠ name := by
  induction ts using List.reverseRecOn with
  | nil => simp [lastRegistered] at h
  | append_singleton ts u ih =>
    rw [lastRegistered_append] at h
    by_cases hu : u.Name = name
    · rw [if_pos hu] at h
      obtain ⟨rfl, rfl⟩ := Prod.mk.inj (Option.some.inj h)
      refine ⟨by simp, hu, ?_⟩
      intro j v hj hv
      have : j < (ts ++ [u]).length := (List.getElem?_eq_some.mp hv).1
      simp at this
      omega
    · rw [if_neg hu] at h
      obtain ⟨h1, h2, h3⟩ := ih h
      have hk : k < ts.length := (List.getElem?_eq_some.mp h1).1
      refine ⟨by rw [List.getElem?_append_left hk]; exact h1, h2, ?_⟩
      intro j v hj hv
      by_cases hjl : j < ts.length
      · rw [List.getElem?_append_left hjl] at hv
        exact h3 j v hj hv
      · rw [List.getElem?_append_right (by omega)] at hv
        have hj0 : j - ts.length = 0 := by
          by_contra hne
          rw [List.getElem?_eq_none (by simp; omega)] at hv
          exact Option.noConfusion hv
        rw [hj0] at hv
        simp only [List.getElem?_cons_zero, Option.some.injEq] at hv
        exact hv ▸ hu

theorem rangeOrder_perm {α : Type} (seed : Nat) (l : List α) : (rangeOrder seed l).Perm l := by
  induction l generalizing seed with
  | nil => exact List.Perm.refl _
  | cons x xs ih =>
    have hlen : (rangeOrder (seed / (xs.length + 1)) xs).length = xs.length := (ih _).length_eq
    have hle : seed % (xs.length + 1) ≤ (rangeOrder (seed / (xs.length + 1)) xs).length := by
      rw [hlen]
      exact Nat.lt_succ_iff.mp (Nat.mod_lt _ (Nat.succ_pos _))
    exact (List.perm_insertIdx x _ hle).trans ((ih _).cons x)

theorem insertIdx_eraseIdx_self {α : Type} (l : List α) (i : Nat) (h : i < l.length) :
    (l.eraseIdx i).insertIdx i l[i] = l := by
  induction l generalizing i with
  | nil => simp at h
  | cons x xs ih =>
    cases i with
    | zero => simp [List.insertIdx_zero]
    | succ j =>
      simp only [List.eraseIdx_cons_succ, List.getElem_cons_succ, List.insertIdx_succ_cons]
      rw [ih j (by simpa using h)]

/-- Every order of traversal is chosen by some seed. -/
theorem rangeOrder_surjective {α : Type} (l l' : List α) (h : l'.Perm l) :
    ∃ seed, rangeOrder seed l = l' := by
  induction l generalizing l' with
  | nil => exact ⟨0, by rw [h.eq_nil]; rfl⟩
  | cons x xs ih =>
    have hx : x ∈ l' := h.mem_iff.mpr (List.mem_cons_self _ _)
    obtain ⟨i, hi, hget⟩ := List.getElem_of_mem hx
    have hself := insertIdx_eraseIdx_self l' i hi
    rw [hget] at hself
    have hlen : l'.length = xs.length + 1 := by simpa using h.length_eq
    have hle : i ≤ (l'.eraseIdx i).length := by
      rw [List.length_eraseIdx, if_pos hi]; omega
    have hperm : (l'.eraseIdx i).Perm xs := by
      have h1 := List.perm_insertIdx x (l'.eraseIdx i) hle
      rw [hself] at h1
      exact (h1.symm.trans h).cons_inv
    obtain ⟨seed, hseed⟩ := ih _ hperm
    refine ⟨i + (xs.length + 1) * seed, ?_⟩
    have hmod : (i + (xs.length + 1) * seed) % (xs.length + 1) = i := by
      rw [Nat.add_mul_mod_self_left]
      exact Nat.mod_eq_of_lt (by omega)
    have hdiv : (i + (xs.length + 1) * seed) / (xs.length + 1) = seed := by
      rw [Nat.add_mul_div_left _ _ (Nat.succ_pos _), Nat.div_eq_of_lt (by omega)]
      simp
    rw [rangeOrder, hmod, hdiv, hseed, hself]

theorem foldl_append_singleton {α β : Type} (f : α → β) (l : List α) (init : List β) :
    l.foldl (fun acc e => acc ++ [f e]) init = init ++ l.map f := by
  induction l generalizing init with
  | nil => simp
  | cons x xs ih => simp [ih]

theorem GetToolDefinitions_eq_map {σ : Type} (r : tools.Registry σ) (seed : Nat) :
    r.GetToolDefinitions seed = (rangeOrder seed r.tools).map (fun e => e.2.Definition) := by
  unfold tools.Registry.GetToolDefinitions GoMap.range
  rw [foldl_append_singleton]
  rfl

theorem foldl_Register_tools {σ : Type} (ts : List (tools.Tool σ)) (r : tools.Registry σ) :
    (ts.foldl tools.Registry.Register r).tools
      = r.tools.filter (fun e => ts.all (fun t => t.Name ≠ e.1))
          ++ (lastPerName ts).map (fun t => (t.Name, t)) := by
  induction ts generalizing r with
  | nil => simp [lastPerName]
  | cons t rest ih =>
    have hfilter : List.filter (fun e => rest.all (fun u => decide (u.Name ≠ e.1)))
        (List.filter (fun e => decide (e.1 ≠ t.Name)) r.tools)
        = List.filter (fun e => (t :: rest).all (fun u => decide (u.Name ≠ e.1))) r.tools := by
      rw [List.filter_filter]
      apply List.filter_congr
      intro e _
      by_cases he : e.1 = t.Name
      · simp [he]
      · simp [he, Ne.symm he]
    rw [List.foldl_cons, ih]
    simp only [tools.Registry.Register, GoMap.set, List.filter_append, lastPerName]
    rw [hfilter, List.append_assoc]
    congr 1
    by_cases h : rest.any (fun u => u.Name = t.Name) = true
    · have hex : ∃ x ∈ rest, x.Name = t.Name := by
        simpa only [List.any_eq_true, decide_eq_true_eq] using h
      rw [if_pos h]
      simp [List.filter_cons, hex]
    · have hall : ∀ x ∈ rest, ¬x.Name = t.Name := by
        simpa only [List.any_eq_true, decide_eq_true_eq, not_exists, not_and] using h
      rw [if_neg h]
      simp only [List.filter_cons, List.filter_nil, List.all_eq_true, decide_eq_true_eq, ne_eq,
        List.map_cons]
      rw [if_pos hall]
      rfl

theorem registerAll_tools {σ : Type} (ts : List (tools.Tool σ)) :
    (registerAll ts).tools = (lastPerName ts).map (fun t => (t.Name, t)) := by
  unfold registerAll
  rw [foldl_Register_tools]
  rfl

theorem lastPerName_names {σ : Type} (ts : List (tools.Tool σ)) (name : GoString) :
    name ∈ (lastPerName ts).map (fun t => t.Name) ↔ name ∈ ts.map (fun t => t.Name) := by
  induction ts with
  | nil => simp [lastPerName]
  | cons t rest ih =>
    rw [lastPerName]
    by_cases h : rest.any (fun u => u.Name = t.Name) = true
    · rw [if_pos h, ih]
      simp only [List.any_eq_true, decide_eq_true_eq] at h
      obtain ⟨u, hu, hname⟩ := h
      simp only [List.map_cons, List.mem_cons, List.mem_map]
      constructor
      · exact fun hx => Or.inr hx
      · rintro (rfl | hx)
        · exact ⟨u, hu, hname⟩
        · exact hx
    · rw [if_neg h]
      simp only [List.map_cons, List.mem_cons, ih]

theorem lastPerName_nodup {σ : Type} (ts : List (tools.Tool σ)) :
    ((lastPerName ts).map (fun t => t.Name)).Nodup := by
  induction ts with
  | nil => simp [lastPerName]
  | cons t rest ih =>
    rw [lastPerName]
    by_cases h : rest.any (fun u => u.Name = t.Name) = true
    · rw [if_pos h]; exact ih
    · rw [if_neg h, List.map_cons, List.nodup_cons]
      refine ⟨?_, ih⟩
      rw [lastPerName_names]
      simp only [List.any_eq_true, decide_eq_true_eq, not_exists, not_and] at h
      simp only [List.mem_map, not_exists, not_and]
      exact fun u hu => h u hu

theorem lastRegistered_cons {σ : Type} (name : GoString) (t : tools.Tool σ)
    (rest : List (tools.Tool σ)) :
    lastRegistered name (t :: rest)
      = ((lastRegistered name rest).map (fun e => (e.1 + 1, e.2))).or
          (if t.Name = name then some (0, t) else none) := by
  unfold lastRegistered
  rw [List.enum_cons', List.reverse_cons, List.find?_append, ← List.map_reverse,
    List.find?_map]
  congr 1
  by_cases h : t.Name = name <;> simp [h]

theorem lastPerName_lastRegistered {σ : Type} (ts : List (tools.Tool σ)) :
    ∀ t ∈ lastPerName ts, ∃ k, lastRegistered t.Name ts = some (k, t) := by
  induction ts with
  | nil => simp [lastPerName]
  | cons u rest ih =>
    intro t ht
    rw [lastPerName] at ht
    have hrest : t ∈ lastPerName rest → ∃ k, lastRegistered t.Name (u :: rest) = some (k, t) := by
      intro hmem
      obtain ⟨k, hk⟩ := ih t hmem
      exact ⟨k + 1, by rw [lastRegistered_cons, hk]; rfl⟩
    by_cases h : rest.any (fun v => v.Name = u.Name) = true
    · rw [if_pos h] at ht
      exact hrest ht
    · rw [if_neg h] at ht
      rcases List.mem_cons.mp ht with rfl | ht
      · refine ⟨0, ?_⟩
        have hnone : lastRegistered t.Name rest = none := by
          rw [lastRegistered_eq_none]
          simp only [List.any_eq_true, decide_eq_true_eq, not_exists, not_and] at h
          exact fun v hv => h v hv
        rw [lastRegistered_cons, hnone]
        simp
      · exact hrest ht

/-! ## Lemmas on the tool-call loop -/

theorem execToolCalls_fst {σ : Type} (r : tools.Registry σ) (calls : List openai.ToolCall)
    (msgs : List openai.MessageParam) (s : σ) :
    (execToolCalls r calls msgs s).1 = msgs ++ (execToolCalls r calls [] s).1 := by
  induction calls generalizing msgs s with
  | nil => simp [execToolCalls]
  | cons call rest ih =>
    simp only [execToolCalls]
    rw [ih, ih ([] ++ _)]
    simp

theorem execToolCalls_snd {σ : Type} (r : tools.Registry σ) (calls : List openai.ToolCall)
    (msgs : List openai.MessageParam) (s : σ) :
    (execToolCalls r calls msgs s).2 = (execToolCalls r calls [] s).2 := by
  induction calls generalizing msgs s with
  | nil => simp [execToolCalls]
  | cons call rest ih =>
    simp only [execToolCalls]
    rw [ih, ih ([] ++ _)]

theorem execToolCalls_shape {σ : Type} (r : tools.Registry σ) (calls : List openai.ToolCall)
    (msgs : List openai.MessageParam) (s : σ) :
    ∃ results : List GoString, results.length = calls.length
      ∧ (execToolCalls r calls msgs s).1
          = msgs ++ List.zipWith (fun call result => openai.ToolMessage result call.ID)
              calls results := by
  induction calls generalizing msgs s with
  | nil => exact ⟨[], rfl, by simp [execToolCalls]⟩
  | cons call rest ih =>
    obtain ⟨results, hlen, h⟩ := ih
      (msgs ++ [openai.ToolMessage
        (toolResultContent (r.ExecuteTool call.Function.Name call.Function.Arguments s).1)
        call.ID])
      (r.ExecuteTool call.Function.Name call.Function.Arguments s).2
    refine ⟨toolResultContent (r.ExecuteTool call.Function.Name call.Function.Arguments s).1
      :: results, by simp [hlen], ?_⟩
    simp only [execToolCalls]
    rw [h]
    simp

theorem execToolCalls_length {σ : Type} (r : tools.Registry σ) (calls : List openai.ToolCall)
    (msgs : List openai.MessageParam) (s : σ) :
    (execToolCalls r calls msgs s).1.length = msgs.length + calls.length := by
  obtain ⟨results, hlen, h⟩ := execToolCalls_shape r calls msgs s
  rw [h]
  simp [hlen]

theorem execToolCalls_getElem? {σ : Type} (r : tools.Registry σ) (calls : List openai.ToolCall)
    (msgs : List openai.MessageParam) (s : σ) (k : Nat) (call : openai.ToolCall)
    (hk : calls[k]? = some call) :
    (execToolCalls r calls msgs s).1[msgs.length + k]?
      = some (openai.ToolMessage
          (toolResultContent
            (r.ExecuteTool call.Function.Name call.Function.Arguments
              (execToolCalls r (calls.take k) msgs s).2).1)
          call.ID) := by
  induction calls generalizing msgs s k with
  | nil => simp at hk
  | cons c cs ih =>
    cases k with
    | zero =>
      simp only [List.getElem?_cons_zero, Option.some.injEq] at hk
      subst hk
      simp only [execToolCalls, List.take_zero, Nat.add_zero]
      rw [execToolCalls_fst, List.append_assoc, List.getElem?_append_right (Nat.le_refl _)]
      simp
    | succ j =>
      simp only [List.getElem?_cons_succ] at hk
      have := ih
        (msgs ++ [openai.ToolMessage
          (toolResultContent (r.ExecuteTool c.Function.Name c.Function.Arguments s).1) c.ID])
        (r.ExecuteTool c.Function.Name c.Function.Arguments s).2 j hk
      simp only [execToolCalls, List.take_succ_cons]
      rw [← this]
      congr 1
      simp
      omega

/-! ## Lemmas on the traced world -/

theorem completionCalls_append (l₁ l₂ : List Event) :
    completionCalls (l₁ ++ l₂) = completionCalls l₁ + completionCalls l₂ := by
  simp [completionCalls]

theorem traced_get? {σ : Type} (r : tools.Registry σ) (name : GoString) :
    r.traced.tools.get? name = (r.tools.get? name).map (tools.Tool.traced 0) := by
  unfold tools.Registry.traced GoMap.get?
  induction r.tools with
  | nil => rfl
  | cons e es ih =>
    simp only [List.map_cons, List.find?_cons]
    by_cases h : e.1 = name
    · simp [h]
    · simpa [h] using ih

theorem traced_ExecuteTool_completionCalls {σ : Type} (r : tools.Registry σ)
    (name arguments : GoString) (w : σ × List Event) :
    completionCalls (r.traced.ExecuteTool name arguments w).2.2 = completionCalls w.2 := by
  unfold tools.Registry.ExecuteTool
  rw [traced_get?]
  cases r.tools.get? name with
  | none => rfl
  | some t => simp [tools.Tool.traced, completionCalls_append, completionCalls, Event.isCompletion]

theorem traced_execToolCalls_completionCalls {σ : Type} (r : tools.Registry σ)
    (calls : List openai.ToolCall) (msgs : List openai.MessageParam) (w : σ × List Event) :
    completionCalls (execToolCalls r.traced calls msgs w).2.2 = completionCalls w.2 := by
  induction calls generalizing msgs w with
  | nil => rfl
  | cons call rest ih =>
    simp only [execToolCalls]
    rw [ih, traced_ExecuteTool_completionCalls]

theorem requestsToolCall_iff (out : Except GoError openai.ChatCompletion) :
    requestsToolCall out = true ↔
      ∃ choice rest, out = .ok ⟨choice :: rest⟩ ∧ choice.Message.ToolCalls ≠ [] := by
  cases out with
  | error e => simp [requestsToolCall]
  | ok resp =>
    obtain ⟨choices⟩ := resp
    cases choices with
    | nil => simp [requestsToolCall]
    | cons choice rest => simp [requestsToolCall]

theorem replyIteration_error {σ : Type} (a : Assistant σ) (seed : Nat → Nat) (i : Nat)
    (msgs : List openai.MessageParam) (s s1 : σ) (err : GoError)
    (h : a.cli.New (replyParams a seed i msgs) s = (.error err, s1)) :
    replyIteration a seed i msgs s = .ret (.error err) s1 := by
  simp [replyIteration, h]

theorem replyIteration_no_choices {σ : Type} (a : Assistant σ) (seed : Nat → Nat) (i : Nat)
    (msgs : List openai.MessageParam) (s s1 : σ)
    (h : a.cli.New (replyParams a seed i msgs) s = (.ok ⟨[]⟩, s1)) :
    replyIteration a seed i msgs s
      = .ret (.error (errors.New (str "no choices returned by OpenAI"))) s1 := by
  simp [replyIteration, h]

theorem replyIteration_text {σ : Type} (a : Assistant σ) (seed : Nat → Nat) (i : Nat)
    (msgs : List openai.MessageParam) (s s1 : σ) (choice : openai.ChatCompletionChoice)
    (rest : List openai.ChatCompletionChoice)
    (h : a.cli.New (replyParams a seed i msgs) s = (.ok ⟨choice :: rest⟩, s1))
    (hcalls : choice.Message.ToolCalls = []) :
    replyIteration a seed i msgs s = .ret (.ok choice.Message.Content) s1 := by
  simp [replyIteration, h, hcalls]

theorem replyIteration_tools {σ : Type} (a : Assistant σ) (seed : Nat → Nat) (i : Nat)
    (msgs : List openai.MessageParam) (s s1 : σ) (choice : openai.ChatCompletionChoice)
    (rest : List openai.ChatCompletionChoice)
    (h : a.cli.New (replyParams a seed i msgs) s = (.ok ⟨choice :: rest⟩, s1))
    (hcalls : choice.Message.ToolCalls ≠ []) :
    replyIteration a seed i msgs s
      = .next (dispatchToolCalls a choice.Message msgs s1).1
          (dispatchToolCalls a choice.Message msgs s1).2 := by
  simp [replyIteration, h, hcalls]

theorem replyIteration_cases {σ : Type} (a : Assistant σ) (seed : Nat → Nat) (i : Nat)
    (msgs : List openai.MessageParam) (s : σ) :
    (∃ err s1, a.cli.New (replyParams a seed i msgs) s = (.error err, s1)
        ∧ replyIteration a seed i msgs s = .ret (.error err) s1)
      ∨ (∃ s1, a.cli.New (replyParams a seed i msgs) s = (.ok ⟨[]⟩, s1)
        ∧ replyIteration a seed i msgs s
            = .ret (.error (errors.New (str "no choices returned by OpenAI"))) s1)
      ∨ (∃ choice rest s1, a.cli.New (replyParams a seed i msgs) s = (.ok ⟨choice :: rest⟩, s1)
        ∧ choice.Message.ToolCalls = []
        ∧ replyIteration a seed i msgs s = .ret (.ok choice.Message.Content) s1)
      ∨ (∃ choice rest s1, a.cli.New (replyParams a seed i msgs) s = (.ok ⟨choice :: rest⟩, s1)
        ∧ choice.Message.ToolCalls ≠ []
        ∧ replyIteration a seed i msgs s
            = .next (dispatchToolCalls a choice.Message msgs s1).1
                (dispatchToolCalls a choice.Message msgs s1).2) := by
  rcases hnew : a.cli.New (replyParams a seed i msgs) s with ⟨res, s1⟩
  cases res with
  | error err => exact Or.inl ⟨err, s1, rfl, replyIteration_error a seed i msgs s s1 err hnew⟩
  | ok resp =>
    obtain ⟨choices⟩ := resp
    cases choices with
    | nil => exact Or.inr (Or.inl ⟨s1, rfl, replyIteration_no_choices a seed i msgs s s1 hnew⟩)
    | cons choice rest =>
      by_cases hcalls : choice.Message.ToolCalls = []
      · exact Or.inr (Or.inr (Or.inl ⟨choice, rest, s1, rfl, hcalls,
          replyIteration_text a seed i msgs s s1 choice rest hnew hcalls⟩))
      · exact Or.inr (Or.inr (Or.inr ⟨choice, rest, s1, rfl, hcalls,
          replyIteration_tools a seed i msgs s s1 choice rest hnew hcalls⟩))

theorem traced_New {σ : Type} (a : Assistant σ) (params : openai.ChatCompletionNewParams)
    (w : σ × List Event) :
    a.traced.cli.New params w
      = ((a.cli.New params w.1).1, ((a.cli.New params w.1).2, w.2 ++ [Event.completion params])) :=
  rfl

theorem replyLoop_always_tools {σ : Type} (a : Assistant σ) (seed : Nat → Nat)
    (hcli : ∀ params s, requestsToolCall (a.cli.New params s).1 = true)
    (n i : Nat) (msgs : List openai.MessageParam) (w : σ × List Event) :
    (replyLoop a.traced seed n i msgs w).1
        = .error (errors.New (str "too many tool calls, unable to generate reply"))
      ∧ completionCalls (replyLoop a.traced seed n i msgs w).2.2 = completionCalls w.2 + n := by
  induction n generalizing i msgs w with
  | zero => exact ⟨rfl, rfl⟩
  | succ n ih =>
    obtain ⟨choice, rest, hout, hcalls⟩ :=
      (requestsToolCall_iff _).mp (hcli (replyParams a.traced seed i msgs) w.1)
    have hnew := traced_New a (replyParams a.traced seed i msgs) w
    rw [hout] at hnew
    rw [replyLoop, replyIteration_tools a.traced seed i msgs w _ choice rest hnew hcalls]
    simp only
    refine ⟨(ih _ _ _).1, ?_⟩
    rw [(ih _ _ _).2]
    have := traced_execToolCalls_completionCalls a.toolRegistry choice.Message.ToolCalls
      (msgs ++ [choice.Message.ToParam])
      ((a.cli.New (replyParams a.traced seed i msgs) w.1).2,
        w.2 ++ [Event.completion (replyParams a.traced seed i msgs)])
    simp only [Assistant.traced, dispatchToolCalls] at this ⊢
    rw [this, completionCalls_append]
    simp [completionCalls, Event.isCompletion]
    omega

theorem traced_ExecuteTool_log {σ : Type} (r : tools.Registry σ)
    (name arguments : GoString) (w : σ × List Event) :
    ∃ extra, (r.traced.ExecuteTool name arguments w).2.2 = w.2 ++ extra
      ∧ ∀ e ∈ extra, e.isCompletion = false := by
  unfold tools.Registry.ExecuteTool
  rw [traced_get?]
  cases r.tools.get? name with
  | none => exact ⟨[], by simp⟩
  | some t => exact ⟨[Event.toolExec 0 t.Name arguments], rfl, by simp [Event.isCompletion]⟩

theorem traced_execToolCalls_log {σ : Type} (r : tools.Registry σ)
    (calls : List openai.ToolCall) (msgs : List openai.MessageParam) (w : σ × List Event) :
    ∃ extra, (execToolCalls r.traced calls msgs w).2.2 = w.2 ++ extra
      ∧ ∀ e ∈ extra, e.isCompletion = false := by
  induction calls generalizing msgs w with
  | nil => exact ⟨[], by simp [execToolCalls]⟩
  | cons call rest ih =>
    obtain ⟨x1, h1, hx1⟩ :=
      traced_ExecuteTool_log r call.Function.Name call.Function.Arguments w
    obtain ⟨x2, h2, hx2⟩ := ih
      (msgs ++ [openai.ToolMessage
        (toolResultContent
          (r.traced.ExecuteTool call.Function.Name call.Function.Arguments w).1) call.ID])
      (r.traced.ExecuteTool call.Function.Name call.Function.Arguments w).2
    refine ⟨x1 ++ x2, ?_, ?_⟩
    · simp only [execToolCalls]
      rw [h2, h1, List.append_assoc]
    · intro e he
      rcases List.mem_append.mp he with h | h
      · exact hx1 e h
      · exact hx2 e h

theorem replyLoop_traced_log {σ : Type} (a : Assistant σ) (seed : Nat → Nat)
    (n i : Nat) (msgs : List openai.MessageParam) (w : σ × List Event) :
    ∃ extra, (replyLoop a.traced seed n i msgs w).2.2 = w.2 ++ extra
      ∧ (n ≠ 0 → Event.completion (replyParams a.traced seed i msgs) ∈ extra) := by
  induction n generalizing i msgs w with
  | zero => exact ⟨[], by simp [replyLoop]⟩
  | succ n ih =>
    have hnew := traced_New a (replyParams a.traced seed i msgs) w
    rw [replyLoop]
    rcases replyIteration_cases a.traced seed i msgs w with
      ⟨err, s1, h1, h2⟩ | ⟨s1, h1, h2⟩ | ⟨choice, rest, s1, h1, _, h2⟩ | ⟨choice, rest, s1, h1, _, h2⟩
    · rw [h2]
      rw [hnew] at h1
      refine ⟨[Event.completion (replyParams a.traced seed i msgs)], ?_, by simp⟩
      rw [← (Prod.mk.inj h1).2]
    · rw [h2]
      rw [hnew] at h1
      refine ⟨[Event.completion (replyParams a.traced seed i msgs)], ?_, by simp⟩
      rw [← (Prod.mk.inj h1).2]
    · rw [h2]
      rw [hnew] at h1
      refine ⟨[Event.completion (replyParams a.traced seed i msgs)], ?_, by simp⟩
      rw [← (Prod.mk.inj h1).2]
    · rw [h2]
      rw [hnew] at h1
      obtain ⟨x1, hx1, _⟩ := traced_execToolCalls_log a.toolRegistry choice.Message.ToolCalls
        (msgs ++ [choice.Message.ToParam]) s1
      obtain ⟨x2, hx2, _⟩ := ih (i + 1) (dispatchToolCalls a.traced choice.Message msgs s1).1
        (dispatchToolCalls a.traced choice.Message msgs s1).2
      refine ⟨Event.completion (replyParams a.traced seed i msgs) :: (x1 ++ x2), ?_, by simp⟩
      simp only
      rw [hx2]
      show (execToolCalls a.toolRegistry.traced choice.Message.ToolCalls
        (msgs ++ [choice.Message.ToParam]) s1).2.2 ++ x2 = _
      rw [hx1, ← (Prod.mk.inj h1).2]
      simp

/-! ## Lemmas on the pairing of tool results with tool calls -/

theorem toolResultsKeyed_append (ids : List GoString) (xs ys : List openai.MessageParam) :
    toolResultsKeyed ids (xs ++ ys)
      = (toolResultsKeyed ids xs && toolResultsKeyed (lastCallIDs ids xs) ys) := by
  induction xs generalizing ids with
  | nil => simp [toolResultsKeyed, lastCallIDs]
  | cons m rest ih =>
    cases m with
    | system c => simpa [toolResultsKeyed, lastCallIDs] using ih ids
    | user c => simpa [toolResultsKeyed, lastCallIDs] using ih ids
    | assistant c calls => simpa [toolResultsKeyed, lastCallIDs] using ih _
    | tool c id => simp [toolResultsKeyed, lastCallIDs, ih ids, Bool.and_assoc]

theorem toolResultsKeyed_zipWith_take (ids : List GoString) (calls : List openai.ToolCall)
    (results : List GoString) (k : Nat) (h : ∀ c ∈ calls, c.ID ∈ ids) :
    toolResultsKeyed ids
      ((List.zipWith (fun call result => openai.ToolMessage result call.ID) calls results).take k)
      = true := by
  induction calls generalizing results k with
  | nil => simp [toolResultsKeyed]
  | cons c cs ih =>
    cases results with
    | nil => simp [toolResultsKeyed]
    | cons x xs =>
      cases k with
      | zero => simp [toolResultsKeyed]
      | succ j =>
        simp only [List.zipWith_cons_cons, List.take_succ_cons, openai.ToolMessage,
          toolResultsKeyed, Bool.and_eq_true, decide_eq_true_eq]
        exact ⟨h c (List.mem_cons_self _ _),
          ih xs j (fun c' hc' => h c' (List.mem_cons_of_mem _ hc'))⟩

theorem toolResultsKeyed_turn (msgs : List openai.MessageParam)
    (message : openai.ChatCompletionMessage) (results : List GoString) (k : Nat)
    (h : toolResultsKeyed [] msgs = true) :
    toolResultsKeyed []
      (msgs ++ message.ToParam ::
        (List.zipWith (fun call result => openai.ToolMessage result call.ID)
          message.ToolCalls results).take k) = true := by
  rw [toolResultsKeyed_append, h]
  simp only [openai.ChatCompletionMessage.ToParam, toolResultsKeyed, Bool.true_and]
  exact toolResultsKeyed_zipWith_take _ _ _ _ (fun c hc => List.mem_map_of_mem _ hc)

theorem dispatchToolCalls_shape {σ : Type} (a : Assistant σ)
    (message : openai.ChatCompletionMessage) (msgs : List openai.MessageParam) (s1 : σ) :
    ∃ results : List GoString, results.length = message.ToolCalls.length
      ∧ (dispatchToolCalls a message msgs s1).1
          = msgs ++ message.ToParam ::
              List.zipWith (fun call result => openai.ToolMessage result call.ID)
                message.ToolCalls results := by
  obtain ⟨results, hlen, h⟩ :=
    execToolCalls_shape a.toolRegistry message.ToolCalls (msgs ++ [message.ToParam]) s1
  exact ⟨results, hlen, by rw [dispatchToolCalls, h]; simp⟩

theorem dispatchToolCalls_keyed {σ : Type} (a : Assistant σ)
    (message : openai.ChatCompletionMessage) (msgs : List openai.MessageParam) (s1 : σ)
    (h : toolResultsKeyed [] msgs = true) :
    toolResultsKeyed [] (dispatchToolCalls a message msgs s1).1 = true := by
  obtain ⟨results, hlen, hshape⟩ := dispatchToolCalls_shape a message msgs s1
  have := toolResultsKeyed_turn msgs message results results.length h
  rw [hshape]
  rwa [List.take_of_length_le (by simp [hlen])] at this

theorem buildMessages_keyed (ms : List model.Message) (acc : List openai.MessageParam)
    (h : toolResultsKeyed [] acc = true) :
    toolResultsKeyed [] (buildMessages ms acc) = true := by
  induction ms generalizing acc with
  | nil => exact h
  | cons m rest ih =>
    rw [buildMessages]
    cases m.Role with
    | RoleUser =>
      exact ih _ (by simp [toolResultsKeyed_append, h, openai.UserMessage, toolResultsKeyed])
    | RoleAssistant =>
      exact ih _ (by
        simp [toolResultsKeyed_append, h, openai.AssistantMessage, toolResultsKeyed])
    | RoleOther => exact ih _ h

theorem replyLoop_traced_keyed {σ : Type} (a : Assistant σ) (seed : Nat → Nat)
    (n i : Nat) (msgs : List openai.MessageParam) (w : σ × List Event)
    (hmsgs : toolResultsKeyed [] msgs = true)
    (hlog : ∀ params, Event.completion params ∈ w.2 → toolResultsKeyed [] params.Messages = true) :
    ∀ params, Event.completion params ∈ (replyLoop a.traced seed n i msgs w).2.2 →
      toolResultsKeyed [] params.Messages = true := by
  induction n generalizing i msgs w with
  | zero => simpa [replyLoop] using hlog
  | succ n ih =>
    have hnew := traced_New a (replyParams a.traced seed i msgs) w
    have hret : ∀ params, Event.completion params
        ∈ w.2 ++ [Event.completion (replyParams a.traced seed i msgs)] →
        toolResultsKeyed [] params.Messages = true := by
      intro params hp
      rcases List.mem_append.mp hp with hp | hp
      · exact hlog params hp
      · simp only [List.mem_singleton, Event.completion.injEq] at hp
        subst hp
        exact hmsgs
    rw [replyLoop]
    rcases replyIteration_cases a.traced seed i msgs w with
      ⟨err, s1, h1, h2⟩ | ⟨s1, h1, h2⟩ | ⟨choice, rest, s1, h1, _, h2⟩ | ⟨choice, rest, s1, h1, _, h2⟩
    · rw [h2]
      rw [hnew] at h1
      simp only
      rw [← (Prod.mk.inj h1).2]
      exact hret
    · rw [h2]
      rw [hnew] at h1
      simp only
      rw [← (Prod.mk.inj h1).2]
      exact hret
    · rw [h2]
      rw [hnew] at h1
      simp only
      rw [← (Prod.mk.inj h1).2]
      exact hret
    · rw [h2]
      rw [hnew] at h1
      simp only
      refine ih (i + 1) _ _ (dispatchToolCalls_keyed a.traced choice.Message msgs s1 hmsgs) ?_
      intro params hp
      obtain ⟨x1, hx1, hx⟩ := traced_execToolCalls_log a.toolRegistry choice.Message.ToolCalls
        (msgs ++ [choice.Message.ToParam]) s1
      have hp1 : Event.completion params ∈ s1.2 ++ x1 := by
        rw [← hx1]; exact hp
      rcases List.mem_append.mp hp1 with hp1 | hp1
      · rw [← (Prod.mk.inj h1).2] at hp1
        exact hret params hp1
      · simpa [Event.isCompletion] using hx _ hp1

/-! ## Where the result of the reply loop comes from -/

theorem replyLoop_result {σ : Type} (a : Assistant σ) (seed : Nat → Nat)
    (n i : Nat) (msgs : List openai.MessageParam) (s : σ) :
    (∀ err, (replyLoop a seed n i msgs s).1 = .error err →
        err = errors.New (str "too many tool calls, unable to generate reply")
          ∨ err = errors.New (str "no choices returned by OpenAI")
          ∨ ∃ params s0, (a.cli.New params s0).1 = .error err)
      ∧ (∀ text, (replyLoop a seed n i msgs s).1 = .ok text →
          ∃ params s0 choice rest, (a.cli.New params s0).1 = .ok ⟨choice :: rest⟩
            ∧ choice.Message.ToolCalls = [] ∧ text = choice.Message.Content) := by
  induction n generalizing i msgs s with
  | zero =>
    refine ⟨fun err h => Or.inl ?_, fun text h => ?_⟩
    · simp only [replyLoop] at h
      exact (Except.error.inj h).symm
    · simp [replyLoop] at h
  | succ n ih =>
    rw [replyLoop]
    rcases replyIteration_cases a seed i msgs s with
      ⟨err, s1, h1, h2⟩ | ⟨s1, h1, h2⟩ | ⟨choice, rest, s1, h1, hc, h2⟩ | ⟨choice, rest, s1, h1, _, h2⟩
    · rw [h2]
      refine ⟨fun e h => Or.inr (Or.inr ⟨replyParams a seed i msgs, s, ?_⟩), fun text h => ?_⟩
      · simp only at h
        rw [h1, ← Except.error.inj h]
      · simp at h
    · rw [h2]
      refine ⟨fun e h => Or.inr (Or.inl ?_), fun text h => ?_⟩
      · simp only at h
        exact (Except.error.inj h).symm
      · simp at h
    · rw [h2]
      refine ⟨fun e h => ?_,
        fun text h => ⟨replyParams a seed i msgs, s, choice, rest, ?_, hc, ?_⟩⟩
      · simp at h
      · rw [h1]
      · simp only at h
        exact (Except.ok.inj h).symm
    · rw [h2]
      exact ih (i + 1) _ _

/-! ## Recording the calls does not change the behaviour -/

theorem map_insertIdx {α β : Type} (f : α → β) (n : Nat) (x : α) (l : List α) :
    (l.insertIdx n x).map f = (l.map f).insertIdx n (f x) := by
  induction n generalizing l with
  | zero => simp [List.insertIdx_zero]
  | succ n ih =>
    cases l with
    | nil => simp [List.insertIdx_succ_nil]
    | cons y ys => simp [List.insertIdx_succ_cons, ih]

theorem rangeOrder_map {α β : Type} (f : α → β) (seed : Nat) (l : List α) :
    rangeOrder seed (l.map f) = (rangeOrder seed l).map f := by
  induction l generalizing seed with
  | nil => rfl
  | cons x xs ih =>
    simp only [List.map_cons, rangeOrder, List.length_map]
    rw [ih, map_insertIdx]

theorem traced_GetToolDefinitions {σ : Type} (r : tools.Registry σ) (seed : Nat) :
    r.traced.GetToolDefinitions seed = r.GetToolDefinitions seed := by
  rw [GetToolDefinitions_eq_map, GetToolDefinitions_eq_map]
  unfold tools.Registry.traced
  simp only
  rw [rangeOrder_map, List.map_map]
  rfl

theorem traced_replyParams {σ : Type} (a : Assistant σ) (seed : Nat → Nat) (i : Nat)
    (msgs : List openai.MessageParam) :
    replyParams a.traced seed i msgs = replyParams a seed i msgs := by
  unfold replyParams
  rw [show a.traced.toolRegistry = a.toolRegistry.traced from rfl, traced_GetToolDefinitions]

theorem traced_ExecuteTool {σ : Type} (r : tools.Registry σ) (name arguments : GoString)
    (w : σ × List Event) :
    (r.traced.ExecuteTool name arguments w).1 = (r.ExecuteTool name arguments w.1).1
      ∧ (r.traced.ExecuteTool name arguments w).2.1 = (r.ExecuteTool name arguments w.1).2 := by
  unfold tools.Registry.ExecuteTool
  rw [traced_get?]
  cases r.tools.get? name with
  | none => exact ⟨rfl, rfl⟩
  | some t => exact ⟨rfl, rfl⟩

theorem traced_execToolCalls {σ : Type} (r : tools.Registry σ) (calls : List openai.ToolCall)
    (msgs : List openai.MessageParam) (w : σ × List Event) :
    (execToolCalls r.traced calls msgs w).1 = (execToolCalls r calls msgs w.1).1
      ∧ (execToolCalls r.traced calls msgs w).2.1 = (execToolCalls r calls msgs w.1).2 := by
  induction calls generalizing msgs w with
  | nil => exact ⟨rfl, rfl⟩
  | cons call rest ih =>
    simp only [execToolCalls]
    obtain ⟨h1, h2⟩ := traced_ExecuteTool r call.Function.Name call.Function.Arguments w
    rw [h1]
    have := ih
      (msgs ++ [openai.ToolMessage
        (toolResultContent (r.ExecuteTool call.Function.Name call.Function.Arguments w.1).1)
        call.ID])
      (r.traced.ExecuteTool call.Function.Name call.Function.Arguments w).2
    rw [h2] at this
    exact this

theorem traced_replyLoop {σ : Type} (a : Assistant σ) (seed : Nat → Nat) (n i : Nat)
    (msgs : List openai.MessageParam) (w : σ × List Event) :
    (replyLoop a.traced seed n i msgs w).1 = (replyLoop a seed n i msgs w.1).1
      ∧ (replyLoop a.traced seed n i msgs w).2.1 = (replyLoop a seed n i msgs w.1).2 := by
  induction n generalizing i msgs w with
  | zero => exact ⟨rfl, rfl⟩
  | succ n ih =>
    have hnew := traced_New a (replyParams a.traced seed i msgs) w
    rw [traced_replyParams] at hnew
    rw [replyLoop, replyLoop]
    rcases replyIteration_cases a seed i msgs w.1 with
      ⟨err, s1, h1, h2⟩ | ⟨s1, h1, h2⟩ | ⟨choice, rest, s1, h1, hc, h2⟩ | ⟨choice, rest, s1, h1, hc, h2⟩
    · rw [h2]
      rw [h1] at hnew
      rw [← traced_replyParams] at hnew
      rw [replyIteration_error a.traced seed i msgs w _ err hnew]
      exact ⟨rfl, rfl⟩
    · rw [h2]
      rw [h1] at hnew
      rw [← traced_replyParams] at hnew
      rw [replyIteration_no_choices a.traced seed i msgs w _ hnew]
      exact ⟨rfl, rfl⟩
    · rw [h2]
      rw [h1] at hnew
      rw [← traced_replyParams] at hnew
      rw [replyIteration_text a.traced seed i msgs w _ choice rest hnew hc]
      exact ⟨rfl, rfl⟩
    · rw [h2]
      rw [h1] at hnew
      rw [← traced_replyParams] at hnew
      rw [replyIteration_tools a.traced seed i msgs w _ choice rest hnew hc]
      simp only
      obtain ⟨e1, e2⟩ := traced_execToolCalls a.toolRegistry choice.Message.ToolCalls
        (msgs ++ [choice.Message.ToParam])
        (s1, w.2 ++ [Event.completion (replyParams a.traced seed i msgs)])
      have := ih (i + 1)
        (dispatchToolCalls a.traced choice.Message msgs
          (s1, w.2 ++ [Event.completion (replyParams a.traced seed i msgs)])).1
        (dispatchToolCalls a.traced choice.Message msgs
          (s1, w.2 ++ [Event.completion (replyParams a.traced seed i msgs)])).2
      have d1 : (dispatchToolCalls a.traced choice.Message msgs
          (s1, w.2 ++ [Event.completion (replyParams a.traced seed i msgs)])).1
          = (dispatchToolCalls a choice.Message msgs s1).1 := e1
      have d2 : (dispatchToolCalls a.traced choice.Message msgs
          (s1, w.2 ++ [Event.completion (replyParams a.traced seed i msgs)])).2.1
          = (dispatchToolCalls a choice.Message msgs s1).2 := e2
      rw [d1, d2] at this
      rw [d1]
      exact this

/-- Recording the calls is transparent: the traced assistant returns the same result and
leaves the world in the same state as the assistant itself, for `Reply` and for `Title`. -/
theorem traced_transparent {σ : Type} (a : Assistant σ) (seed : Nat → Nat)
    (conv : model.Conversation) (w : σ × List Event) :
    (a.traced.Reply seed conv w).1 = (a.Reply seed conv w.1).1
      ∧ (a.traced.Reply seed conv w).2.1 = (a.Reply seed conv w.1).2
      ∧ (a.traced.Title conv w).1 = (a.Title conv w.1).1
      ∧ (a.traced.Title conv w).2.1 = (a.Title conv w.1).2 := by
  refine ⟨?_, ?_, ?_, ?_⟩
  · unfold Assistant.Reply
    split
    · rfl
    · exact (traced_replyLoop a seed _ _ _ w).1
  · unfold Assistant.Reply
    split
    · rfl
    · exact (traced_replyLoop a seed _ _ _ w).2
  · unfold Assistant.Title
    split
    · rfl
    · rw [traced_New]
      rcases a.cli.New (titleParams conv) w.1 with ⟨res, s1⟩
      cases res with
      | error err => rfl
      | ok resp =>
        obtain ⟨choices⟩ := resp
        cases choices with
        | nil => rfl
        | cons choice rest =>
          simp only
          split <;> rfl
  · unfold Assistant.Title
    split
    · rfl
    · rw [traced_New]
      rcases a.cli.New (titleParams conv) w.1 with ⟨res, s1⟩
      cases res with
      | error err => rfl
      | ok resp =>
        obtain ⟨choices⟩ := resp
        cases choices with
        | nil => rfl
        | cons choice rest =>
          simp only
          split <;> rfl

/-! ## Lemmas on the simulated completion API -/

theorem isPlainAnswer_iff (out : Except GoError openai.ChatCompletion) :
    isPlainAnswer out = true ↔
      ∃ choice rest, out = .ok ⟨choice :: rest⟩ ∧ choice.Message.ToolCalls = [] := by
  cases out with
  | error e => simp [isPlainAnswer]
  | ok resp =>
    obtain ⟨choices⟩ := resp
    cases choices with
    | nil => simp [isPlainAnswer]
    | cons choice rest => simp [isPlainAnswer]

theorem lift_get? {τ : Type} (r : tools.Registry τ) (name : GoString) :
    r.lift.tools.get? name = (r.tools.get? name).map tools.Tool.lift := by
  unfold tools.Registry.lift GoMap.get?
  induction r.tools with
  | nil => rfl
  | cons e es ih =>
    simp only [List.map_cons, List.find?_cons]
    by_cases h : e.1 = name
    · simp [h]
    · simpa [h] using ih

theorem lift_ExecuteTool_counter {τ : Type} (r : tools.Registry τ)
    (name arguments : GoString) (w : Nat × τ) :
    (r.lift.ExecuteTool name arguments w).2.1 = w.1 := by
  unfold tools.Registry.ExecuteTool
  rw [lift_get?]
  cases r.tools.get? name with
  | none => rfl
  | some t => rfl

theorem lift_execToolCalls_counter {τ : Type} (r : tools.Registry τ)
    (calls : List openai.ToolCall) (msgs : List openai.MessageParam) (w : Nat × τ) :
    (execToolCalls r.lift calls msgs w).2.1 = w.1 := by
  induction calls generalizing msgs w with
  | nil => rfl
  | cons call rest ih =>
    simp only [execToolCalls]
    rw [ih, lift_ExecuteTool_counter]

theorem replyLoop_scripted {τ : Type}
    (script : Nat → openai.ChatCompletionNewParams → Except GoError openai.ChatCompletion)
    (r : tools.Registry τ) (seed : Nat → Nat) (d : Nat) :
    ∀ (n i : Nat) (msgs : List openai.MessageParam) (c : Nat) (t : τ), d < n →
      (∀ j, j < d → ∀ params, requestsToolCall (script (c + j) params) = true) →
      (∀ params, isPlainAnswer (script (c + d) params) = true) →
      ∃ params choice rest, script (c + d) params = .ok ⟨choice :: rest⟩
        ∧ choice.Message.ToolCalls = []
        ∧ (replyLoop (scriptedAssistant script r) seed n i msgs (c, t)).1
            = .ok choice.Message.Content
        ∧ (replyLoop (scriptedAssistant script r) seed n i msgs (c, t)).2.1 = c + d + 1 := by
  induction d with
  | zero =>
    intro n i msgs c t hn _ hplain
    obtain ⟨n, rfl⟩ : ∃ m, n = m + 1 := ⟨n - 1, by omega⟩
    obtain ⟨choice, rest, hout, hcalls⟩ :=
      (isPlainAnswer_iff _).mp (hplain (replyParams (scriptedAssistant script r) seed i msgs))
    have hnew : (scriptedAssistant script r).cli.New
        (replyParams (scriptedAssistant script r) seed i msgs) (c, t)
        = (.ok ⟨choice :: rest⟩, (c + 1, t)) := by
      show (script c _, (c + 1, t)) = _
      rw [← hout]; rfl
    refine ⟨_, choice, rest, hout, hcalls, ?_, ?_⟩
    · rw [replyLoop, replyIteration_text _ seed i msgs _ _ choice rest hnew hcalls]
    · rw [replyLoop, replyIteration_text _ seed i msgs _ _ choice rest hnew hcalls]
  | succ d ih =>
    intro n i msgs c t hn htools hplain
    obtain ⟨n, rfl⟩ : ∃ m, n = m + 1 := ⟨n - 1, by omega⟩
    obtain ⟨choice, rest, hout, hcalls⟩ :=
      (requestsToolCall_iff _).mp
        (htools 0 (Nat.succ_pos d) (replyParams (scriptedAssistant script r) seed i msgs))
    have hnew : (scriptedAssistant script r).cli.New
        (replyParams (scriptedAssistant script r) seed i msgs) (c, t)
        = (.ok ⟨choice :: rest⟩, (c + 1, t)) := by
      show (script c _, (c + 1, t)) = _
      rw [← hout]; rfl
    have hc := lift_execToolCalls_counter r choice.Message.ToolCalls
      (msgs ++ [choice.Message.ToParam]) (c + 1, t)
    generalize hw : execToolCalls r.lift choice.Message.ToolCalls
      (msgs ++ [choice.Message.ToParam]) (c + 1, t) = out at hc
    obtain ⟨msgs1, c1, t1⟩ := out
    simp only at hc
    subst hc
    obtain ⟨params, choice1, rest1, h1, h2, h3, h4⟩ := ih n (i + 1) msgs1 (c + 1) t1 (by omega)
      (fun j hj params => by
        have := htools (j + 1) (by omega) params
        rwa [show c + (j + 1) = c + 1 + j by omega] at this)
      (fun params => by
        have := hplain params
        rwa [show c + (d + 1) = c + 1 + d by omega] at this)
    have hcd : c + 1 + d = c + (d + 1) := by omega
    refine ⟨params, choice1, rest1, hcd ▸ h1, h2, ?_, ?_⟩
    · rw [replyLoop, replyIteration_tools _ seed i msgs _ _ choice rest hnew hcalls]
      show (replyLoop _ seed n (i + 1)
        (execToolCalls r.lift choice.Message.ToolCalls (msgs ++ [choice.Message.ToParam])
          (c + 1, t)).1
        (execToolCalls r.lift choice.Message.ToolCalls (msgs ++ [choice.Message.ToParam])
          (c + 1, t)).2).1 = _
      rw [hw]; exact h3
    · rw [replyLoop, replyIteration_tools _ seed i msgs _ _ choice rest hnew hcalls]
      show (replyLoop _ seed n (i + 1)
        (execToolCalls r.lift choice.Message.ToolCalls (msgs ++ [choice.Message.ToParam])
          (c + 1, t)).1
        (execToolCalls r.lift choice.Message.ToolCalls (msgs ++ [choice.Message.ToParam])
          (c + 1, t)).2).2.1 = _
      rw [hw, h4]; omega

/-! ## Lemmas on the title -/

theorem truncateTitle_eq_take (title : GoString) : truncateTitle title = title.take 80 := by
  unfold truncateTitle
  split
  · rfl
  · rw [List.take_of_length_le (by omega)]

theorem strings.ReplaceAll_of_not_mem (s : GoString) (old new : Nat) (h : ∀ b ∈ s, b ≠ old) :
    strings.ReplaceAll s old new = s := by
  unfold strings.ReplaceAll
  induction s with
  | nil => rfl
  | cons b rest ih =>
    rw [List.map_cons, if_neg (h b (List.mem_cons_self _ _)),
      ih (fun c hc => h c (List.mem_cons_of_mem _ hc))]

theorem dropWhile_of_head (p : Nat → Bool) (s : GoString)
    (h : ∀ b, s.head? = some b → p b = false) : s.dropWhile p = s := by
  cases s with
  | nil => rfl
  | cons b rest => rw [List.dropWhile_cons, h b rfl]; rfl

theorem strings.Trim_of_ends (s cutset : GoString)
    (hhead : ∀ b, s.head? = some b → b ∉ cutset)
    (hlast : ∀ b, s.getLast? = some b → b ∉ cutset) :
    strings.Trim s cutset = s := by
  unfold strings.Trim
  rw [dropWhile_of_head _ s.reverse (fun b hb => by
    rw [List.head?_reverse] at hb
    simpa using hlast b hb), List.reverse_reverse]
  exact dropWhile_of_head _ s (fun b hb => by simpa using hhead b hb)

theorem Title_of_text {σ : Type} (a : Assistant σ) (conv : model.Conversation) (s s1 : σ)
    (choice : openai.ChatCompletionChoice) (rest : List openai.ChatCompletionChoice)
    (hconv : conv.Messages ≠ [])
    (hnew : a.cli.New (titleParams conv) s = (.ok ⟨choice :: rest⟩, s1))
    (htext : strings.TrimSpace choice.Message.Content ≠ []) :
    a.Title conv s = (.ok ((cleanTitle choice.Message.Content).take 80), s1) := by
  have hlen : conv.Messages.length ≠ 0 := fun h => hconv (List.length_eq_zero.mp h)
  unfold Assistant.Title
  rw [if_neg hlen, hnew]
  simp only
  rw [if_neg htext, truncateTitle_eq_take]

/-! ## Lemmas on the decimal representation -/

theorem decimalAux_eq (fuel n : Nat) (acc : GoString) (h : n < fuel) :
    decimalAux fuel n acc
      = (if n = 0 then [0x30] else (Nat.digits 10 n).reverse.map (fun d => 0x30 + d)) ++ acc := by
  induction fuel generalizing n acc with
  | zero => omega
  | succ fuel ih =>
    rw [decimalAux]
    by_cases h10 : n / 10 = 0
    · rw [if_pos h10]
      have hlt : n < 10 := by omega
      by_cases h0 : n = 0
      · subst h0; rfl
      · rw [if_neg h0, Nat.digits_of_lt 10 n h0 hlt, Nat.mod_eq_of_lt hlt]
        rfl
    · rw [if_neg h10]
      have h0 : n ≠ 0 := by omega
      rw [ih (n / 10) _ (by omega), if_neg h10, if_neg h0,
        Nat.digits_def' (by norm_num) (Nat.pos_of_ne_zero h0)]
      simp

theorem decimal_eq (n : Nat) :
    decimal n = if n = 0 then [0x30] else (Nat.digits 10 n).reverse.map (fun d => 0x30 + d) := by
  rw [decimal, decimalAux_eq _ _ _ (Nat.lt_succ_self n), List.append_nil]

theorem decimalValue_digits (l : List Nat) (h : ∀ d ∈ l, d < 10) :
    decimalValue (l.reverse.map (fun d => 0x30 + d)) = Nat.ofDigits 10 l := by
  unfold decimalValue
  rw [List.foldl_map, List.foldl_reverse]
  induction l with
  | nil => rfl
  | cons d ds ih =>
    rw [List.foldr_cons, ih (fun x hx => h x (List.mem_cons_of_mem _ hx)), Nat.ofDigits_cons]
    omega

theorem decimalValue_decimal (n : Nat) : decimalValue (decimal n) = n := by
  rw [decimal_eq]
  by_cases h0 : n = 0
  · subst h0; rfl
  · rw [if_neg h0, decimalValue_digits _ (fun d hd => Nat.digits_lt_base (by norm_num) hd),
      Nat.ofDigits_digits]

theorem decimal_isDigit (n : Nat) : ∀ b ∈ decimal n, isDigit b = true := by
  intro b hb
  rw [decimal_eq] at hb
  by_cases h0 : n = 0
  · rw [if_pos h0] at hb
    simp only [List.mem_singleton] at hb
    subst hb; rfl
  · rw [if_neg h0] at hb
    obtain ⟨d, hd, rfl⟩ := List.mem_map.mp hb
    have : d < 10 := Nat.digits_lt_base (by norm_num) (List.mem_reverse.mp hd)
    simp only [isDigit, Bool.and_eq_true, decide_eq_true_eq]
    omega

theorem decimal_ne_nil (n : Nat) : decimal n ≠ [] := by
  rw [decimal_eq]
  by_cases h0 : n = 0
  · rw [if_pos h0]; exact List.cons_ne_nil _ _
  · rw [if_neg h0]
    intro h
    have h1 := List.map_eq_nil_iff.mp h
    exact h0 (Nat.digits_eq_nil_iff_eq_zero.mp (List.reverse_eq_nil_iff.mp h1))

/-! ## Lemmas on `formatVolume` -/

theorem formatVolumeLoop_result (n i : Nat) (l result : GoString) :
    formatVolumeLoop n i l result = result ++ formatVolumeLoop n i l [] := by
  induction l generalizing i result with
  | nil => simp [formatVolumeLoop]
  | cons r rest ih =>
    rw [formatVolumeLoop, formatVolumeLoop]
    split
    · rw [ih, ih (i + 1) (([] ++ [0x2C]) ++ [r])]
      simp
    · rw [ih, ih (i + 1) ([] ++ [r])]
      simp

theorem formatVolumeLoop_groups (n k : Nat) :
    ∀ (l : GoString) (i : Nat), l.length = 3 * k → 0 < i → n - i = l.length →
      ∃ rest : List GoString, (∀ g ∈ rest, g.length = 3) ∧ rest.flatten = l
        ∧ formatVolumeLoop n i l [] = (rest.map (fun g => 0x2C :: g)).flatten := by
  induction k with
  | zero =>
    intro l i hl _ _
    have : l = [] := List.length_eq_zero.mp (by omega)
    subst this
    exact ⟨[], by simp, rfl, rfl⟩
  | succ k ih =>
    intro l i hl hi hn
    match l, hl with
    | a :: b :: c :: l', hl =>
      simp only [List.length_cons] at hl hn
      obtain ⟨rest, h1, h2, h3⟩ := ih l' (i + 3) (by omega) (by omega) (by omega)
      refine ⟨[a, b, c] :: rest, ?_, ?_, ?_⟩
      · intro g hg
        rcases List.mem_cons.mp hg with rfl | hg
        · rfl
        · exact h1 g hg
      · simp [h2]
      · have c1 : i > 0 ∧ (n - i) % 3 = 0 := ⟨hi, by omega⟩
        have c2 : ¬(i + 1 > 0 ∧ (n - (i + 1)) % 3 = 0) := by omega
        have c3 : ¬(i + 1 + 1 > 0 ∧ (n - (i + 1 + 1)) % 3 = 0) := by omega
        rw [formatVolumeLoop, if_pos c1, formatVolumeLoop, if_neg c2, formatVolumeLoop,
          if_neg c3, formatVolumeLoop_result, h3]
        simp

theorem formatVolumeLoop_first (n k f : Nat) (l : GoString) (hl : l.length = n)
    (hn : n = f + 3 * k) (hf1 : 1 ≤ f) (hf3 : f ≤ 3) :
    formatVolumeLoop n 0 l [] = l.take f ++ formatVolumeLoop n f (l.drop f) [] := by
  have c0 : ¬(0 > 0 ∧ (n - 0) % 3 = 0) := by omega
  match l, hl with
  | [], hl => simp at hl; omega
  | [a], hl =>
    simp only [List.length_cons, List.length_nil] at hl
    have : f = 1 := by omega
    subst this
    rw [formatVolumeLoop, if_neg c0, formatVolumeLoop_result]
    simp
  | [a, b], hl =>
    simp only [List.length_cons, List.length_nil] at hl
    have c1 : ¬(0 + 1 > 0 ∧ (n - (0 + 1)) % 3 = 0) := by omega
    have : f = 2 := by omega
    subst this
    rw [formatVolumeLoop, if_neg c0, formatVolumeLoop, if_neg c1, formatVolumeLoop_result]
    simp
  | a :: b :: c :: l', hl =>
    simp only [List.length_cons] at hl
    have hcases : f = 1 ∨ f = 2 ∨ f = 3 := by omega
    rcases hcases with rfl | rfl | rfl
    · rw [formatVolumeLoop, if_neg c0, formatVolumeLoop_result]
      simp
    · have c1 : ¬(0 + 1 > 0 ∧ (n - (0 + 1)) % 3 = 0) := by omega
      rw [formatVolumeLoop, if_neg c0, formatVolumeLoop, if_neg c1, formatVolumeLoop_result]
      simp
    · have c1 : ¬(0 + 1 > 0 ∧ (n - (0 + 1)) % 3 = 0) := by omega
      have c2 : ¬(0 + 1 + 1 > 0 ∧ (n - (0 + 1 + 1)) % 3 = 0) := by omega
      rw [formatVolumeLoop, if_neg c0, formatVolumeLoop, if_neg c1, formatVolumeLoop,
        if_neg c2, formatVolumeLoop_result]
      simp

theorem formatVolume_structure (v : Int) (hv : 0 ≤ v) :
    ∃ (first : GoString) (rest : List GoString),
      formatVolume v = first ++ (rest.map (fun g => 0x2C :: g)).flatten
        ∧ 1 ≤ first.length ∧ first.length ≤ 3
        ∧ (∀ g ∈ rest, g.length = 3)
        ∧ first ++ rest.flatten = fmt.Sprintd v := by
  have hs : fmt.Sprintd v = decimal v.toNat := by
    rw [fmt.Sprintd, if_neg (by omega)]
  have hpos : 1 ≤ (fmt.Sprintd v).length := by
    rw [hs]
    exact Nat.pos_of_ne_zero (fun h => decimal_ne_nil _ (List.length_eq_zero.mp h))
  by_cases h0 : v = 0
  · subst h0
    exact ⟨str "0", [], rfl, by decide, by decide, by simp, rfl⟩
  · rw [formatVolume, if_neg h0]
    by_cases h3 : (fmt.Sprintd v).length ≤ 3
    · rw [if_pos h3]
      exact ⟨fmt.Sprintd v, [], by simp, hpos, h3, by simp, by simp⟩
    · rw [if_neg h3]
      have hfk : (fmt.Sprintd v).length
          = (((fmt.Sprintd v).length - 1) % 3 + 1) + 3 * (((fmt.Sprintd v).length - 1) / 3) := by
        omega
      rw [formatVolumeLoop_first _ _ _ (fmt.Sprintd v) rfl hfk (by omega) (by omega)]
      obtain ⟨rest, h1, h2, h4⟩ := formatVolumeLoop_groups (fmt.Sprintd v).length
        (((fmt.Sprintd v).length - 1) / 3)
        ((fmt.Sprintd v).drop (((fmt.Sprintd v).length - 1) % 3 + 1))
        (((fmt.Sprintd v).length - 1) % 3 + 1)
        (by rw [List.length_drop]; omega) (by omega) (by rw [List.length_drop])
      refine ⟨(fmt.Sprintd v).take (((fmt.Sprintd v).length - 1) % 3 + 1), rest, by rw [h4],
        ?_, ?_, h1, by rw [h2, List.take_append_drop]⟩
      · rw [List.length_take]; omega
      · rw [List.length_take]; omega

theorem filter_groups (rest : List GoString) (h : ∀ g ∈ rest, ∀ b ∈ g, isDigit b = true) :
    ((rest.map (fun g => 0x2C :: g)).flatten).filter (fun b => b ≠ 0x2C) = rest.flatten := by
  induction rest with
  | nil => rfl
  | cons g rest ih =>
    have hg : g.filter (fun b => b ≠ 0x2C) = g := by
      apply List.filter_eq_self.mpr
      intro b hb
      have := h g (List.mem_cons_self _ _) b hb
      simp only [isDigit, Bool.and_eq_true, decide_eq_true_eq] at this
      simp only [ne_eq, decide_not, Bool.not_eq_true', decide_eq_false_iff_not]
      omega
    simp only [List.map_cons, List.flatten_cons, List.filter_append, List.filter_cons]
    rw [hg, ih (fun g' hg' => h g' (List.mem_cons_of_mem _ hg'))]
    simp

theorem getLast?_groups (rest : List GoString)
    (h : ∀ g ∈ rest, g.length = 3 ∧ ∀ b ∈ g, isDigit b = true) :
    ∀ b, ((rest.map (fun g => 0x2C :: g)).flatten).getLast? = some b → isDigit b = true := by
  induction rest with
  | nil => intro b hb; simp at hb
  | cons g rest ih =>
    intro b hb
    simp only [List.map_cons, List.flatten_cons, List.getLast?_append] at hb
    cases hx : ((rest.map (fun g => 0x2C :: g)).flatten).getLast? with
    | some b' =>
      rw [hx] at hb
      simp only [Option.or, Option.some.injEq] at hb
      subst hb
      exact ih (fun g' hg' => h g' (List.mem_cons_of_mem _ hg')) b' hx
    | none =>
      rw [hx] at hb
      simp only [Option.or] at hb
      obtain ⟨hlen, hdig⟩ := h g (List.mem_cons_self _ _)
      match g, hlen with
      | a :: g', _ =>
        rw [List.getLast?_cons_cons] at hb
        exact hdig b (List.mem_of_getLast?_eq_some hb)

/-! ## Lemmas on the formatting of floating-point numbers -/

theorem fractionDigits_isDigit (prec frac : Nat) :
    ∀ b ∈ fractionDigits prec frac, isDigit b = true := by
  intro b hb
  obtain ⟨i, _, rfl⟩ := List.mem_map.mp hb
  have : frac / 10 ^ (prec - 1 - i) % 10 < 10 := Nat.mod_lt _ (by norm_num)
  simp only [isDigit, Bool.and_eq_true, decide_eq_true_eq]
  omega

theorem fractionDigits_two (frac : Nat) :
    fractionDigits 2 frac = [0x30 + frac / 10 % 10, 0x30 + frac % 10] := by
  simp [fractionDigits, List.range_succ]

theorem isDigit_ne {b : Nat} (h : isDigit b = true) : b ≠ 0x0A ∧ b ≠ 0x2D ∧ b ≠ 0x2C := by
  simp only [isDigit, Bool.and_eq_true, decide_eq_true_eq] at h
  omega

theorem isUnsignedFixed2_digits (int : GoString) (frac : Nat) (hne : int ≠ [])
    (hint : ∀ b ∈ int, isDigit b = true) :
    isUnsignedFixed2 (int ++ 0x2E :: fractionDigits 2 frac) = true := by
  have hd := fractionDigits_isDigit 2 frac
  rw [fractionDigits_two] at hd ⊢
  have h1 := hd _ (List.mem_cons_self _ _)
  have h2 := hd _ (List.mem_cons_of_mem _ (List.mem_cons_self _ _))
  have hrev : (int ++ [0x2E, 0x30 + frac / 10 % 10, 0x30 + frac % 10]).reverse
      = (0x30 + frac % 10) :: (0x30 + frac / 10 % 10) :: 0x2E :: int.reverse := by
    simp
  unfold isUnsignedFixed2
  rw [hrev]
  simp only [h1, h2, Bool.true_and, Bool.and_eq_true, Bool.not_eq_true', List.isEmpty_eq_false,
    List.all_eq_true, List.mem_reverse]
  exact ⟨fun h => hne (List.reverse_eq_nil_iff.mp h), hint⟩

theorem fixed2_nonneg_unsigned (mant : Nat) (exp : Int) :
    isUnsignedFixed2 (fmt.fixed 2 (.finite false mant exp)) = true := by
  simp only [fmt.fixed, if_false, Bool.false_eq_true, List.nil_append]
  exact isUnsignedFixed2_digits _ _ (decimal_ne_nil _) (decimal_isDigit _)

theorem fixed2_finite_isFixed2 (neg : Bool) (mant : Nat) (exp : Int) :
    isFixed2 (fmt.fixed 2 (.finite neg mant exp)) = true := by
  cases neg with
  | true =>
    have h := fixed2_nonneg_unsigned mant exp
    simp only [fmt.fixed, if_false, Bool.false_eq_true, List.nil_append] at h
    simp only [fmt.fixed, if_true, List.singleton_append, List.cons_append, isFixed2]
    exact h
  | false =>
    have h := fixed2_nonneg_unsigned mant exp
    have hd := decimal_isDigit (float64.scaled mant exp 2 / 10 ^ 2)
    have hne := decimal_ne_nil (float64.scaled mant exp 2 / 10 ^ 2)
    simp only [fmt.fixed, if_false, Bool.false_eq_true, List.nil_append] at h ⊢
    match hdec : decimal (float64.scaled mant exp 2 / 10 ^ 2), hne with
    | d :: ds, _ =>
      rw [hdec] at h hd
      have hd0 : d ≠ 0x2D := (isDigit_ne (hd d (List.mem_cons_self _ _))).2.1
      unfold isFixed2
      split
      · rename_i rest heq
        simp only [List.cons_append, List.cons.injEq] at heq
        exact absurd heq.1 hd0
      · exact h

theorem fixed_no_newline (prec : Nat) (f : float64) : 0x0A ∉ fmt.fixed prec f := by
  cases f with
  | finite neg mant exp =>
    intro h
    simp only [fmt.fixed, List.mem_append, List.mem_cons] at h
    rcases h with (h | h) | h | h
    · cases neg <;> simp at h
    · exact (isDigit_ne (decimal_isDigit _ _ h)).1 rfl
    · omega
    · exact (isDigit_ne (fractionDigits_isDigit _ _ _ h)).1 rfl
  | inf neg =>
    cases neg
    · show 0x0A ∉ str "+Inf"
      decide
    · show 0x0A ∉ str "-Inf"
      decide
  | nan =>
    show 0x0A ∉ str "NaN"
    decide

theorem abs_of_finite (neg : Bool) (mant : Nat) (exp : Int)
    (h : (float64.finite neg mant exp).isNegZero = false) :
    abs (.finite neg mant exp) = .finite false mant exp := by
  cases neg with
  | false => rfl
  | true =>
    have hm : mant ≠ 0 := by
      intro h0
      simp [float64.isNegZero, h0] at h
    simp [abs, float64.lt0, float64.neg, hm]

theorem nmem_append {b : Nat} {l₁ l₂ : GoString} (h₁ : b ∉ l₁) (h₂ : b ∉ l₂) :
    b ∉ l₁ ++ l₂ := by
  intro h
  rcases List.mem_append.mp h with h | h
  · exact h₁ h
  · exact h₂ h

theorem occursIn_self (s : GoString) : occursIn s s := ⟨[], [], by simp⟩

theorem occursIn_append_left {sub s : GoString} (t : GoString) (h : occursIn sub s) :
    occursIn sub (s ++ t) := by
  obtain ⟨before, after, rfl⟩ := h
  exact ⟨before, after ++ t, by simp⟩

theorem occursIn_append_right {sub t : GoString} (s : GoString) (h : occursIn sub t) :
    occursIn sub (s ++ t) := by
  obtain ⟨before, after, rfl⟩ := h
  exact ⟨s ++ before, after, by simp⟩

theorem occursIn_pair (x g f : GoString) : occursIn (g ++ f) (x ++ g ++ f) :=
  ⟨x, [], by simp⟩

theorem changeIndicator_no_newline (data : StockData) : 0x0A ∉ changeIndicator data := by
  unfold changeIndicator
  split <;> decide

/-! ## Lemmas on `GetWeather` -/

theorem head?_append_of_head? {c : Nat} {front : GoString} (back : GoString)
    (h : front.head? = some c) : (front ++ back).head? = some c := by
  cases front with
  | nil => simp at h
  | cons a l => simpa using h

theorem error_ne_of_head? {a b : GoString} {c d : Nat} (ha : a.head? = some c)
    (hb : b.head? = some d) (hcd : c ≠ d) :
    (Except.error (errors.New a) : Except GoError GoString) ≠ .error (errors.New b) := by
  intro h
  have hab : a = b := congrArg GoError.Error (Except.error.inj h)
  rw [hab, hb] at ha
  exact hcd (Option.some.inj ha).symm

theorem parse_failure_not_status_failure (location status : GoString) (err : GoError) :
    ¬isStatusFailure location status
      (.error (errors.New (str "failed to parse weather data: " ++ err.Error))) := by
  have hf : (str "failed to parse weather data: " ++ err.Error).head? = some 0x66 :=
    head?_append_of_head? _ (by decide)
  rintro (h | h | h | h)
  · exact error_ne_of_head? hf
      (head?_append_of_head? _ (head?_append_of_head? _ (by decide : (str "location '").head?
        = some 0x6C))) (by decide) h
  · exact error_ne_of_head? hf
      (by decide : (str "invalid API key for weather service").head? = some 0x69) (by decide) h
  · exact error_ne_of_head? hf
      (by decide : (str "invalid location format or missing parameters").head? = some 0x69)
      (by decide) h
  · exact error_ne_of_head? hf
      (head?_append_of_head? _ (by decide : (str "weather API returned status: ").head?
        = some 0x77)) (by decide) h

theorem GetWeather_of_response (w : WeatherWorld) (apiKey location : GoString)
    (resp : WeatherResponse) (hkey : apiKey ≠ [])
    (hreq : w.NewRequest (weatherURL apiKey location) = .ok ())
    (hdo : w.Do (weatherURL apiKey location) = .ok resp) :
    GetWeather w apiKey location
      = if resp.StatusCode ≠ 200 then
          if resp.StatusCode = 404 then
            .error (errors.New (str "location '" ++ location ++ str "' not found"))
          else if resp.StatusCode = 401 then
            .error (errors.New (str "invalid API key for weather service"))
          else if resp.StatusCode = 400 then
            .error (errors.New (str "invalid location format or missing parameters"))
          else .error (errors.New (str "weather API returned status: " ++ resp.Status))
        else
          match resp.Body with
          | .error err => .error (errors.New (str "failed to parse weather data: " ++ err.Error))
          | .ok weatherData => .ok (formatWeather weatherData) := by
  unfold GetWeather
  rw [if_neg hkey, hreq, hdo]

/-! ## Lemmas on the holidays tool -/

theorem holidaysLoop_error (payload : HolidaysPayload) (event : ics.VEvent)
    (rest : List ics.VEvent) (holidays : List GoString) (err : GoError)
    (h : event.AllDayStartAt = .error err) :
    holidaysLoop payload (event :: rest) holidays = holidaysLoop payload rest holidays := by
  rw [holidaysLoop, h]

theorem qualifies_error (payload : HolidaysPayload) (event : ics.VEvent) (err : GoError)
    (h : event.AllDayStartAt = .error err) : qualifies payload event = false := by
  rw [qualifies, h]

theorem holidaysLoop_limited (payload : HolidaysPayload) (hmax : payload.MaxCount > 0)
    (events : List ics.VEvent) :
    ∀ holidays : List GoString,
      (∀ e ∈ (events.filter (qualifies payload)).take
          (payload.MaxCount.toNat - holidays.length), e.Summary ≠ none) →
      holidaysLoop payload events holidays
        = some (holidays ++ ((events.filter (qualifies payload)).take
            (payload.MaxCount.toNat - holidays.length)).map holidayLine) := by
  induction events with
  | nil => intro holidays _; simp [holidaysLoop]
  | cons event rest ih =>
    intro holidays hsum
    cases hstart : event.AllDayStartAt with
    | error err =>
      have hq := qualifies_error payload event err hstart
      rw [holidaysLoop_error payload event rest holidays err hstart]
      rw [List.filter_cons_of_neg (by simp [hq])] at hsum ⊢
      exact ih holidays hsum
    | ok date =>
      rw [holidaysLoop, hstart]
      simp only
      by_cases hfull : payload.MaxCount > 0 ∧ (holidays.length : Int) ≥ payload.MaxCount
      · rw [if_pos hfull]
        have h0 : payload.MaxCount.toNat - holidays.length = 0 := by omega
        rw [h0]
        simp
      · rw [if_neg hfull]
        have hroom : payload.MaxCount.toNat - holidays.length
            = (payload.MaxCount.toNat - (holidays.length + 1)) + 1 := by omega
        by_cases hb : (!payload.BeforeDate.IsZero && date.After payload.BeforeDate) = true
        · have hq : qualifies payload event = false := by
            rw [qualifies, hstart]; simp only; rw [hb]; rfl
          rw [if_pos hb]
          rw [List.filter_cons_of_neg (by simp [hq])] at hsum ⊢
          exact ih holidays hsum
        · rw [if_neg hb]
          by_cases ha : (!payload.AfterDate.IsZero && date.Before payload.AfterDate) = true
          · have hq : qualifies payload event = false := by
              rw [qualifies, hstart]; simp only; rw [ha]; simp
            rw [if_pos ha]
            rw [List.filter_cons_of_neg (by simp [hq])] at hsum ⊢
            exact ih holidays hsum
          · have hq : qualifies payload event = true := by
              rw [qualifies, hstart]; simp only
              rw [Bool.not_eq_true] at hb ha
              rw [hb, ha]; rfl
            rw [if_neg ha]
            rw [List.filter_cons_of_pos hq, hroom, List.take_succ_cons] at hsum ⊢
            cases hval : event.Summary with
            | none => exact absurd hval (hsum event (List.mem_cons_self _ _))
            | some value =>
              simp only
              have hline : holidayLine event = date.FormatDateOnly ++ str ": " ++ value := by
                rw [holidayLine, hstart, hval]
              have := ih (holidays ++ [date.FormatDateOnly ++ str ": " ++ value])
                (by
                  simp only [List.length_append, List.length_singleton]
                  exact fun e he => hsum e (List.mem_cons_of_mem _ he))
              rw [this]
              simp only [List.length_append, List.length_singleton, List.map_cons, hline,
                List.append_assoc, List.singleton_append]

theorem holidaysLoop_unlimited (payload : HolidaysPayload) (hmax : ¬payload.MaxCount > 0)
    (events : List ics.VEvent) :
    ∀ holidays : List GoString,
      (∀ e ∈ events.filter (qualifies payload), e.Summary ≠ none) →
      holidaysLoop payload events holidays
        = some (holidays ++ (events.filter (qualifies payload)).map holidayLine) := by
  induction events with
  | nil => intro holidays _; simp [holidaysLoop]
  | cons event rest ih =>
    intro holidays hsum
    cases hstart : event.AllDayStartAt with
    | error err =>
      have hq := qualifies_error payload event err hstart
      rw [holidaysLoop_error payload event rest holidays err hstart]
      rw [List.filter_cons_of_neg (by simp [hq])] at hsum ⊢
      exact ih holidays hsum
    | ok date =>
      rw [holidaysLoop, hstart]
      simp only
      rw [if_neg (fun h => hmax h.1)]
      by_cases hb : (!payload.BeforeDate.IsZero && date.After payload.BeforeDate) = true
      · have hq : qualifies payload event = false := by
          rw [qualifies, hstart]; simp only; rw [hb]; rfl
        rw [if_pos hb]
        rw [List.filter_cons_of_neg (by simp [hq])] at hsum ⊢
        exact ih holidays hsum
      · rw [if_neg hb]
        by_cases ha : (!payload.AfterDate.IsZero && date.Before payload.AfterDate) = true
        · have hq : qualifies payload event = false := by
            rw [qualifies, hstart]; simp only; rw [ha]; simp
          rw [if_pos ha]
          rw [List.filter_cons_of_neg (by simp [hq])] at hsum ⊢
          exact ih holidays hsum
        · have hq : qualifies payload event = true := by
            rw [qualifies, hstart]; simp only
            rw [Bool.not_eq_true] at hb ha
            rw [hb, ha]; rfl
          rw [if_neg ha]
          rw [List.filter_cons_of_pos hq] at hsum ⊢
          cases hval : event.Summary with
          | none => exact absurd hval (hsum event (List.mem_cons_self _ _))
          | some value =>
            simp only
            have hline : holidayLine event = date.FormatDateOnly ++ str ": " ++ value := by
              rw [holidayLine, hstart, hval]
            rw [ih _ (fun e he => hsum e (List.mem_cons_of_mem _ he))]
            simp only [List.map_cons, hline, List.append_assoc, List.singleton_append]

theorem doy_le (doe : Nat) (h : doe < 146097) :
    doe - (365 * ((doe - doe / 1460 + doe / 36524 - doe / 146096) / 365)
      + ((doe - doe / 1460 + doe / 36524 - doe / 146096) / 365) / 4
      - ((doe - doe / 1460 + doe / 36524 - doe / 146096) / 365) / 100) ≤ 365 := by
  have he : doe / 36524 ≤ 4 := by omega
  have hf : doe / 146096 ≤ 1 := by omega
  generalize hyoe : (doe - doe / 1460 + doe / 36524 - doe / 146096) / 365 = yoe
  have hy : yoe ≤ 400 := by omega
  have hc : yoe / 100 ≤ 4 := by omega
  generalize hc' : yoe / 100 = c at hc ⊢
  generalize he' : doe / 36524 = e at he hyoe
  generalize hf' : doe / 146096 = f at hf hyoe
  interval_cases e <;> interval_cases f <;> interval_cases c <;> omega

theorem civil_month_day (days : Int) :
    1 ≤ (time.civil days).2.1 ∧ (time.civil days).2.1 ≤ 12
      ∧ 1 ≤ (time.civil days).2.2 ∧ (time.civil days).2.2 ≤ 31 := by
  have hdoe : ((days + 306) % 146097).toNat < 146097 := by omega
  have hdoy := doy_le _ hdoe
  simp only [time.civil]
  generalize ((days + 306) % 146097).toNat
    - (365 * ((((days + 306) % 146097).toNat - ((days + 306) % 146097).toNat / 1460
        + ((days + 306) % 146097).toNat / 36524
        - ((days + 306) % 146097).toNat / 146096) / 365)
      + ((((days + 306) % 146097).toNat - ((days + 306) % 146097).toNat / 1460
        + ((days + 306) % 146097).toNat / 36524
        - ((days + 306) % 146097).toNat / 146096) / 365) / 4
      - ((((days + 306) % 146097).toNat - ((days + 306) % 146097).toNat / 1460
        + ((days + 306) % 146097).toNat / 36524
        - ((days + 306) % 146097).toNat / 146096) / 365) / 100) = doy at hdoy ⊢
  split <;> omega

theorem decimal_length_le (n width : Nat) (hw : 0 < width) (h : n < 10 ^ width) :
    (decimal n).length ≤ width := by
  rw [decimal_eq]
  split
  · exact hw
  · rename_i hn0
    rw [List.length_map, List.length_reverse]
    have h1 := Nat.base_pow_length_digits_le 10 n (by norm_num) hn0
    have h2 : 10 ^ (Nat.digits 10 n).length < 10 ^ (width + 1) := by
      rw [pow_succ]
      linarith
    have h3 := (Nat.pow_lt_pow_iff_right (by norm_num : 1 < 10)).mp h2
    omega

theorem appendInt_digits (x : Int) (width : Nat) (hw : 0 < width) (h0 : 0 ≤ x)
    (h : x.natAbs < 10 ^ width) :
    (time.appendInt x width).length = width
      ∧ ∀ b ∈ time.appendInt x width, isDigit b = true := by
  have hlen := decimal_length_le x.natAbs width hw h
  unfold time.appendInt
  rw [if_neg (by omega)]
  refine ⟨?_, ?_⟩
  · simp only [List.nil_append, List.length_append, List.length_replicate]
    omega
  · intro b hb
    simp only [List.nil_append, List.mem_append, List.mem_replicate] at hb
    rcases hb with ⟨_, rfl⟩ | hb
    · rfl
    · exact decimal_isDigit _ b hb

theorem FormatDateOnly_isDateOnly (t : time.Time) (h0 : 0 ≤ t.Year) (h9 : t.Year ≤ 9999) :
    isDateOnly t.FormatDateOnly = true := by
  unfold time.Time.Year at h0 h9
  unfold time.Time.FormatDateOnly
  obtain ⟨hm1, hm12, hd1, hd31⟩ := civil_month_day ((t.instant / 1000000000 + t.offset) / 86400)
  generalize time.civil ((t.instant / 1000000000 + t.offset) / 86400) = date at *
  obtain ⟨hyl, hyd⟩ := appendInt_digits date.1 4 (by decide) h0 (by omega)
  obtain ⟨hml, hmd⟩ := appendInt_digits (date.2.1 : Int) 2 (by decide) (by omega) (by omega)
  obtain ⟨hdl, hdd⟩ := appendInt_digits (date.2.2 : Int) 2 (by decide) (by omega) (by omega)
  simp only []
  generalize time.appendInt date.1 4 = ys at *
  generalize time.appendInt (date.2.1 : Int) 2 = ms at *
  generalize time.appendInt (date.2.2 : Int) 2 = ds at *
  match ys, hyl, hyd with
  | [y1, y2, y3, y4], _, hyd =>
    match ms, hml, hmd with
    | [m1, m2], _, hmd =>
      match ds, hdl, hdd with
      | [d1, d2], _, hdd =>
        simp only [List.mem_cons, List.mem_singleton, forall_eq_or_imp, forall_eq,
          List.not_mem_nil, false_implies, implies_true, and_true] at hyd hmd hdd
        simp [isDateOnly, hyd, hmd, hdd]

theorem appendInt_no_newline (x : Int) (width : Nat) : 0x0A ∉ time.appendInt x width := by
  intro h
  simp only [time.appendInt, List.mem_append, List.mem_replicate] at h
  rcases h with (h | h) | h
  · split at h <;> simp at h
  · omega
  · exact (isDigit_ne (decimal_isDigit _ _ h)).1 rfl

theorem FormatDateOnly_no_newline (t : time.Time) : 0x0A ∉ t.FormatDateOnly := by
  unfold time.Time.FormatDateOnly
  exact nmem_append (nmem_append (nmem_append (nmem_append (appendInt_no_newline _ _)
    (by decide)) (appendInt_no_newline _ _)) (by decide)) (appendInt_no_newline _ _)

theorem holidayLine_no_newline (event : ics.VEvent)
    (h : ∀ value, event.Summary = some value → 0x0A ∉ value) : 0x0A ∉ holidayLine event := by
  unfold holidayLine
  split
  · rename_i date value _ hval
    exact nmem_append (nmem_append (FormatDateOnly_no_newline date) (by decide)) (h value hval)
  · exact List.not_mem_nil _

theorem count_Join_newline (lines : List GoString) (h : ∀ l ∈ lines, 0x0A ∉ l)
    (hne : lines ≠ []) :
    (strings.Join lines (str "\n")).count 0x0A + 1 = lines.length := by
  induction lines with
  | nil => exact absurd rfl hne
  | cons a rest ih =>
    have ha : List.count 0x0A a = 0 := List.count_eq_zero.mpr (h a (List.mem_cons_self _ _))
    cases rest with
    | nil => simp [strings.Join, ha]
    | cons b rest' =>
      have := ih (fun l hl => h l (List.mem_cons_of_mem _ hl)) (List.cons_ne_nil _ _)
      have hsep : List.count 0x0A (str "\n") = 1 := by decide
      rw [strings.Join, List.count_append, List.count_append, ha, hsep]
      simp only [List.length_cons] at this ⊢
      omega

theorem lineCount_Join (lines : List GoString) (h : ∀ l ∈ lines, 0x0A ∉ l)
    (hne : lines ≠ []) : lineCount (strings.Join lines (str "\n")) = lines.length := by
  unfold lineCount
  exact count_Join_newline lines h hne

theorem holidaysLoop_selected (payload : HolidaysPayload) (events : List ics.VEvent)
    (hsum : ∀ e ∈ selectedHolidays payload events, e.Summary ≠ none) :
    holidaysLoop payload events [] = some ((selectedHolidays payload events).map holidayLine) := by
  unfold selectedHolidays at hsum ⊢
  by_cases hmax : payload.MaxCount > 0
  · rw [if_pos hmax] at hsum ⊢
    have := holidaysLoop_limited payload hmax events [] (by simpa using hsum)
    simpa using this
  · rw [if_neg hmax] at hsum ⊢
    have := holidaysLoop_unlimited payload hmax events [] hsum
    simpa using this

/-! ## Claims -/

/-- C1: for a non-empty conversation, when every completion response succeeds with a first
candidate that requests at least one tool call, `Reply` fails with
"too many tool calls, unable to generate reply" after exactly 15 completion calls,
whatever the tools return. -/
theorem Reply_too_many_tool_calls {σ : Type} (a : Assistant σ) (seed : Nat → Nat)
    (conv : model.Conversation) (s : σ)
    (hconv : conv.Messages ≠ [])
    (hcli : ∀ params s, requestsToolCall (a.cli.New params s).1 = true) :
    (a.Reply seed conv s).1
        = .error (errors.New (str "too many tool calls, unable to generate reply"))
      ∧ (a.traced.Reply seed conv (s, [])).1
        = .error (errors.New (str "too many tool calls, unable to generate reply"))
      ∧ completionCalls (a.traced.Reply seed conv (s, [])).2.2 = 15 := by
  have hlen : conv.Messages.length ≠ 0 := fun h => hconv (List.length_eq_zero.mp h)
  have h := replyLoop_always_tools a seed hcli maxToolIterations 0
    (buildMessages conv.Messages [openai.SystemMessage systemPrompt]) (s, [])
  have ht := (traced_transparent a seed conv (s, [])).1
  have h1 : (a.traced.Reply seed conv (s, [])).1
      = .error (errors.New (str "too many tool calls, unable to generate reply")) := by
    simp only [Assistant.Reply, hlen, if_false]
    exact h.1
  refine ⟨by rw [← ht, h1], h1, ?_⟩
  simp only [Assistant.Reply, hlen, if_false]
  rw [h.2]
  simp [completionCalls, maxToolIterations]

/-- Instance of C1 on the looping assistant. -/
theorem Reply_too_many_tool_calls_witness :
    sampleConversation.Messages ≠ []
      ∧ (loopingAssistant.Reply (fun _ => 0) sampleConversation ()).1
          = .error (errors.New (str "too many tool calls, unable to generate reply"))
      ∧ (loopingAssistant.traced.Reply (fun _ => 0) sampleConversation ((), [])).1
          = .error (errors.New (str "too many tool calls, unable to generate reply"))
      ∧ completionCalls
          (loopingAssistant.traced.Reply (fun _ => 0) sampleConversation ((), [])).2.2 = 15 :=
  ⟨by decide,
    Reply_too_many_tool_calls loopingAssistant (fun _ => 0) sampleConversation ()
      (by decide) (fun _ _ => rfl)⟩

/-- C2: in an iteration of `Reply` whose candidate requests tool calls, every call whose
`ExecuteTool` invocation fails with `err` (an unregistered name fails with
`ErrToolNotFound`) gets the tool message `"Error: " + err.Error()` under its ID; the
iteration does not return: all calls of the turn get their message and the loop goes on,
so that with iterations left the next completion call is made on the extended message
list. A failure of `Reply` is the empty-conversation error, the no-choices error, the
iteration bound or an error of the completion client, never one of a tool. -/
theorem Reply_absorbs_tool_failures {σ : Type} (a : Assistant σ) (seed : Nat → Nat)
    (n i : Nat) (msgs : List openai.MessageParam) (w : σ × List Event) (s1 : σ)
    (choice : openai.ChatCompletionChoice) (rest : List openai.ChatCompletionChoice)
    (hnew : a.cli.New (replyParams a.traced seed i msgs) w.1 = (.ok ⟨choice :: rest⟩, s1))
    (hcalls : choice.Message.ToolCalls ≠ []) :
    (∀ k call err w2, choice.Message.ToolCalls[k]? = some call →
        a.traced.toolRegistry.ExecuteTool call.Function.Name call.Function.Arguments
            (execToolCalls a.traced.toolRegistry (choice.Message.ToolCalls.take k)
              (msgs ++ [choice.Message.ToParam])
              (s1, w.2 ++ [Event.completion (replyParams a.traced seed i msgs)])).2
          = (.error err, w2) →
        (dispatchToolCalls a.traced choice.Message msgs
            (s1, w.2 ++ [Event.completion (replyParams a.traced seed i msgs)])).1[
              msgs.length + 1 + k]?
          = some (openai.ToolMessage (str "Error: " ++ err.Error) call.ID))
      ∧ (∀ k call, choice.Message.ToolCalls[k]? = some call →
          a.toolRegistry.tools.get? call.Function.Name = none →
          (dispatchToolCalls a.traced choice.Message msgs
              (s1, w.2 ++ [Event.completion (replyParams a.traced seed i msgs)])).1[
                msgs.length + 1 + k]?
            = some (openai.ToolMessage (str "Error: tool not found") call.ID))
      ∧ (dispatchToolCalls a.traced choice.Message msgs
            (s1, w.2 ++ [Event.completion (replyParams a.traced seed i msgs)])).1.length
          = msgs.length + 1 + choice.Message.ToolCalls.length
      ∧ replyLoop a.traced seed (n + 1) i msgs w
          = replyLoop a.traced seed n (i + 1)
              (dispatchToolCalls a.traced choice.Message msgs
                (s1, w.2 ++ [Event.completion (replyParams a.traced seed i msgs)])).1
              (dispatchToolCalls a.traced choice.Message msgs
                (s1, w.2 ++ [Event.completion (replyParams a.traced seed i msgs)])).2
      ∧ (n ≠ 0 →
          Event.completion (replyParams a.traced seed (i + 1)
              (dispatchToolCalls a.traced choice.Message msgs
                (s1, w.2 ++ [Event.completion (replyParams a.traced seed i msgs)])).1)
            ∈ (replyLoop a.traced seed (n + 1) i msgs w).2.2)
      ∧ (∀ conv w0 err, (a.traced.Reply seed conv w0).1 = .error err →
          err = errors.New (str "conversation has no messages")
            ∨ err = errors.New (str "no choices returned by OpenAI")
            ∨ err = errors.New (str "too many tool calls, unable to generate reply")
            ∨ ∃ params s0, (a.cli.New params s0).1 = .error err) := by
  have hnew1 : a.traced.cli.New (replyParams a.traced seed i msgs) w
      = (.ok ⟨choice :: rest⟩,
          (s1, w.2 ++ [Event.completion (replyParams a.traced seed i msgs)])) := by
    rw [traced_New, hnew]
  have hloop : replyLoop a.traced seed (n + 1) i msgs w
      = replyLoop a.traced seed n (i + 1)
          (dispatchToolCalls a.traced choice.Message msgs
            (s1, w.2 ++ [Event.completion (replyParams a.traced seed i msgs)])).1
          (dispatchToolCalls a.traced choice.Message msgs
            (s1, w.2 ++ [Event.completion (replyParams a.traced seed i msgs)])).2 := by
    rw [replyLoop, replyIteration_tools a.traced seed i msgs w _ choice rest hnew1 hcalls]
  have hidx : ∀ k call, choice.Message.ToolCalls[k]? = some call →
      (dispatchToolCalls a.traced choice.Message msgs
          (s1, w.2 ++ [Event.completion (replyParams a.traced seed i msgs)])).1[
            msgs.length + 1 + k]?
        = some (openai.ToolMessage
            (toolResultContent
              (a.traced.toolRegistry.ExecuteTool call.Function.Name call.Function.Arguments
                (execToolCalls a.traced.toolRegistry (choice.Message.ToolCalls.take k)
                  (msgs ++ [choice.Message.ToParam])
                  (s1, w.2 ++ [Event.completion (replyParams a.traced seed i msgs)])).2).1)
            call.ID) := by
    intro k call hk
    have := execToolCalls_getElem? a.traced.toolRegistry choice.Message.ToolCalls
      (msgs ++ [choice.Message.ToParam])
      (s1, w.2 ++ [Event.completion (replyParams a.traced seed i msgs)]) k call hk
    simpa [dispatchToolCalls] using this
  refine ⟨?_, ?_, ?_, hloop, ?_, ?_⟩
  · intro k call err w2 hk hexec
    rw [hidx k call hk, hexec]
    rfl
  · intro k call hk hget
    rw [hidx k call hk]
    have : ∀ w3, a.traced.toolRegistry.ExecuteTool call.Function.Name call.Function.Arguments w3
        = (.error tools.ErrToolNotFound, w3) := by
      intro w3
      show tools.Registry.ExecuteTool a.toolRegistry.traced _ _ w3 = _
      unfold tools.Registry.ExecuteTool
      rw [traced_get?, hget]
      rfl
    rw [this]
    rfl
  · simp [dispatchToolCalls, execToolCalls_length]
  · intro hn
    rw [hloop]
    obtain ⟨extra, h1, h2⟩ := replyLoop_traced_log a seed n (i + 1)
      (dispatchToolCalls a.traced choice.Message msgs
        (s1, w.2 ++ [Event.completion (replyParams a.traced seed i msgs)])).1
      (dispatchToolCalls a.traced choice.Message msgs
        (s1, w.2 ++ [Event.completion (replyParams a.traced seed i msgs)])).2
    rw [h1]
    exact List.mem_append_right _ (h2 hn)
  · intro conv w0 err h
    unfold Assistant.Reply at h
    by_cases hlen : conv.Messages.length = 0
    · rw [if_pos hlen] at h
      exact Or.inl (Except.error.inj h).symm
    · rw [if_neg hlen] at h
      rcases (replyLoop_result a.traced seed _ _ _ _).1 err h with h | h | ⟨params, s0, h⟩
      · exact Or.inr (Or.inr (Or.inl h))
      · exact Or.inr (Or.inl h)
      · exact Or.inr (Or.inr (Or.inr ⟨params, s0.1, h⟩))

/-- Instance of C2: the looping assistant calls the failing tool; its failure "boom" becomes
the tool message "Error: boom" and the next completion call is made. -/
theorem Reply_absorbs_tool_failures_witness :
    loopingAssistant.cli.New (replyParams loopingAssistant.traced (fun _ => 0) 0 []) ()
        = (.ok ⟨[⟨⟨str "", [failCall]⟩⟩]⟩, ())
      ∧ (dispatchToolCalls loopingAssistant.traced ⟨str "", [failCall]⟩ []
            ((), [] ++ [Event.completion
              (replyParams loopingAssistant.traced (fun _ => 0) 0 [])])).1[0 + 1 + 0]?
          = some (openai.ToolMessage (str "Error: " ++ (errors.New (str "boom")).Error)
              failCall.ID)
      ∧ Event.completion (replyParams loopingAssistant.traced (fun _ => 0) (0 + 1)
            (dispatchToolCalls loopingAssistant.traced ⟨str "", [failCall]⟩ []
              ((), [] ++ [Event.completion
                (replyParams loopingAssistant.traced (fun _ => 0) 0 [])])).1)
          ∈ (replyLoop loopingAssistant.traced (fun _ => 0) (14 + 1) 0 [] ((), [])).2.2 :=
  have h := Reply_absorbs_tool_failures loopingAssistant (fun _ => 0) 14 0 [] ((), []) ()
    ⟨⟨str "", [failCall]⟩⟩ [] rfl (by decide)
  ⟨rfl, h.1 0 failCall (errors.New (str "boom")) _ rfl rfl, h.2.2.2.2.1 (by decide)⟩

/-- C3: for a conversation with zero messages, `Reply` fails with
"conversation has no messages" and makes no external call: the world state is unchanged
and the log of completion calls and tool executions stays empty. -/
theorem Reply_empty_conversation {σ : Type} (a : Assistant σ) (seed : Nat → Nat)
    (conv : model.Conversation) (s : σ) (hconv : conv.Messages.length = 0) :
    a.Reply seed conv s = (.error (errors.New (str "conversation has no messages")), s)
      ∧ a.traced.Reply seed conv (s, [])
        = (.error (errors.New (str "conversation has no messages")), (s, [])) := by
  simp [Assistant.Reply, hconv]

/-- Instance of C3 on the looping assistant. -/
theorem Reply_empty_conversation_witness :
    emptyConversation.Messages.length = 0
      ∧ loopingAssistant.Reply (fun _ => 0) emptyConversation ()
          = (.error (errors.New (str "conversation has no messages")), ())
      ∧ loopingAssistant.traced.Reply (fun _ => 0) emptyConversation ((), [])
          = (.error (errors.New (str "conversation has no messages")), ((), [])) :=
  ⟨rfl, Reply_empty_conversation loopingAssistant (fun _ => 0) emptyConversation () rfl⟩

/-- C4: for a non-empty conversation and 1 ≤ k ≤ 15, when the first k-1 completion
responses each succeed with a first candidate that requests a tool call and the k-th
succeeds with a first candidate that requests none, `Reply` succeeds with exactly the text
of that candidate of the k-th response, after exactly k completion calls. -/
theorem Reply_returns_first_plain_answer {τ : Type}
    (script : Nat → openai.ChatCompletionNewParams → Except GoError openai.ChatCompletion)
    (r : tools.Registry τ) (seed : Nat → Nat) (conv : model.Conversation) (t : τ) (k : Nat)
    (hconv : conv.Messages ≠ []) (hk1 : 1 ≤ k) (hk15 : k ≤ 15)
    (htools : ∀ j, j + 1 < k → ∀ params, requestsToolCall (script j params) = true)
    (hplain : ∀ params, isPlainAnswer (script (k - 1) params) = true) :
    ∃ params choice rest, script (k - 1) params = .ok ⟨choice :: rest⟩
      ∧ choice.Message.ToolCalls = []
      ∧ ((scriptedAssistant script r).Reply seed conv (0, t)).1 = .ok choice.Message.Content
      ∧ ((scriptedAssistant script r).Reply seed conv (0, t)).2.1 = k := by
  have hlen : conv.Messages.length ≠ 0 := fun h => hconv (List.length_eq_zero.mp h)
  obtain ⟨params, choice, rest, h1, h2, h3, h4⟩ :=
    replyLoop_scripted script r seed (k - 1) maxToolIterations 0
      (buildMessages conv.Messages [openai.SystemMessage systemPrompt]) 0 t
      (by simp only [maxToolIterations]; omega)
      (fun j hj params => by simpa using htools j (by omega) params)
      (fun params => by simpa using hplain params)
  refine ⟨params, choice, rest, by simpa using h1, h2, ?_, ?_⟩
  · simp only [Assistant.Reply, hlen, if_false]; exact h3
  · simp only [Assistant.Reply, hlen, if_false]; rw [h4]; omega

/-- Instance of C4 with k = 2: one tool-calling response, then the answer "Sunny". -/
theorem Reply_returns_first_plain_answer_witness :
    ∃ params choice rest, oneToolScript (2 - 1) params = .ok ⟨choice :: rest⟩
      ∧ choice.Message.ToolCalls = []
      ∧ ((scriptedAssistant oneToolScript sampleRegistry).Reply (fun _ => 0)
            sampleConversation (0, ())).1 = .ok choice.Message.Content
      ∧ ((scriptedAssistant oneToolScript sampleRegistry).Reply (fun _ => 0)
            sampleConversation (0, ())).2.1 = 2 :=
  Reply_returns_first_plain_answer oneToolScript sampleRegistry (fun _ => 0)
    sampleConversation () 2 (by decide) (by decide) (by decide)
    (fun j hj _ => by
      have : j = 0 := by omega
      subst this; rfl)
    (fun _ => rfl)

/-- C5: an iteration of `Reply` whose candidate requests the tool calls c1..cn (n ≥ 1)
turns the message list into the same list followed by the candidate's assistant message
and by exactly n tool messages keyed by id(c1), ..., id(cn) in that order. Hence the
pairing holds at every point of the loop: it holds of the initial list, an iteration keeps
it after each appended tool message, and every request sent to the completion API
satisfies it. -/
theorem Reply_iteration_appends_keyed_results {σ : Type} (a : Assistant σ) (seed : Nat → Nat)
    (i : Nat) (msgs : List openai.MessageParam) (s s1 : σ)
    (choice : openai.ChatCompletionChoice) (rest : List openai.ChatCompletionChoice)
    (hnew : a.cli.New (replyParams a seed i msgs) s = (.ok ⟨choice :: rest⟩, s1))
    (hcalls : choice.Message.ToolCalls ≠ []) :
    (∃ (results : List GoString) (s2 : σ),
        results.length = choice.Message.ToolCalls.length
          ∧ replyIteration a seed i msgs s
              = .next
                  (msgs ++ choice.Message.ToParam ::
                    List.zipWith (fun call result => openai.ToolMessage result call.ID)
                      choice.Message.ToolCalls results) s2
          ∧ (toolResultsKeyed [] msgs = true → ∀ k,
              toolResultsKeyed []
                (msgs ++ choice.Message.ToParam ::
                  (List.zipWith (fun call result => openai.ToolMessage result call.ID)
                    choice.Message.ToolCalls results).take k) = true))
      ∧ (∀ conv : model.Conversation,
          toolResultsKeyed []
            (buildMessages conv.Messages [openai.SystemMessage systemPrompt]) = true)
      ∧ (∀ (conv : model.Conversation) (s0 : σ) (params : openai.ChatCompletionNewParams),
          Event.completion params ∈ (a.traced.Reply seed conv (s0, [])).2.2 →
            toolResultsKeyed [] params.Messages = true) := by
  have hinit : ∀ conv : model.Conversation,
      toolResultsKeyed []
        (buildMessages conv.Messages [openai.SystemMessage systemPrompt]) = true :=
    fun conv => buildMessages_keyed _ _ rfl
  refine ⟨?_, hinit, ?_⟩
  · obtain ⟨results, hlen, hshape⟩ := dispatchToolCalls_shape a choice.Message msgs s1
    refine ⟨results, (dispatchToolCalls a choice.Message msgs s1).2, hlen, ?_,
      fun h k => toolResultsKeyed_turn msgs choice.Message results k h⟩
    rw [replyIteration_tools a seed i msgs s s1 choice rest hnew hcalls, hshape]
  · intro conv s0 params hp
    unfold Assistant.Reply at hp
    by_cases hlen : conv.Messages.length = 0
    · rw [if_pos hlen] at hp
      simp at hp
    · rw [if_neg hlen] at hp
      exact replyLoop_traced_keyed a seed _ _ _ _ (hinit conv) (by simp) params hp

/-- Instance of C5 on the looping assistant: after the first iteration the list holds the
assistant message and one tool message keyed by "call_1". -/
theorem Reply_iteration_appends_keyed_results_witness :
    loopingAssistant.cli.New (replyParams loopingAssistant (fun _ => 0) 0 []) ()
        = (.ok ⟨[⟨⟨str "", [failCall]⟩⟩]⟩, ())
      ∧ (∃ (results : List GoString) (s2 : Unit),
          results.length = [failCall].length
            ∧ replyIteration loopingAssistant (fun _ => 0) 0 [] ()
                = .next
                    ([] ++ openai.ChatCompletionMessage.ToParam ⟨str "", [failCall]⟩ ::
                      List.zipWith (fun call result => openai.ToolMessage result call.ID)
                        [failCall] results) s2) :=
  have h := Reply_iteration_appends_keyed_results loopingAssistant (fun _ => 0) 0 [] () ()
    ⟨⟨str "", [failCall]⟩⟩ [] rfl (by decide)
  ⟨rfl, h.1.elim fun results hr => hr.elim fun s2 hs => ⟨results, s2, hs.1, hs.2.1⟩⟩

/-- C6: on the registry built by any sequence `ts` of `Register` calls, `ExecuteTool(name,
args)` fails with `ErrToolNotFound` without executing any tool when no tool of `ts` has
that name; otherwise it executes the tool most recently registered under `name`, exactly
once and with `args` as its arguments, and returns that tool's result or error unchanged. -/
theorem ExecuteTool_dispatches_last_registered {σ : Type} (ts : List (tools.Tool σ))
    (name arguments : GoString) (w : σ × List Event) :
    ((∀ t ∈ ts, t.Name ≠ name) →
        lastRegistered name ts = none
          ∧ (registerAll (tracedAll ts)).ExecuteTool name arguments w
              = (.error tools.ErrToolNotFound, w)
          ∧ (registerAll ts).ExecuteTool name arguments w.1
              = (.error tools.ErrToolNotFound, w.1))
      ∧ ((∃ t ∈ ts, t.Name = name) →
          ∃ k t, lastRegistered name ts = some (k, t)
            ∧ ts[k]? = some t ∧ t.Name = name
            ∧ (∀ j u, k < j → ts[j]? = some u → u.Name ≠ name)
            ∧ (registerAll (tracedAll ts)).ExecuteTool name arguments w
                = ((t.Execute arguments w.1).1,
                    ((t.Execute arguments w.1).2, w.2 ++ [Event.toolExec k name arguments]))
            ∧ (registerAll ts).ExecuteTool name arguments w.1 = t.Execute arguments w.1) := by
  have htraced := registerAll_get? (fun k (t : tools.Tool σ) => t.traced k) (fun _ _ => rfl)
    ts name
  have hplain := registerAll_get? (fun _ (t : tools.Tool σ) => t) (fun _ _ => rfl) ts name
  have hmap : ts.enum.map (fun e => e.2) = ts := List.enum_map_snd ts
  rw [hmap] at hplain
  constructor
  · intro hnone
    have hl := (lastRegistered_eq_none name ts).mpr hnone
    rw [hl] at htraced hplain
    refine ⟨hl, ?_, ?_⟩
    · unfold tools.Registry.ExecuteTool tracedAll
      rw [htraced]; rfl
    · unfold tools.Registry.ExecuteTool
      rw [hplain]; rfl
  · rintro ⟨u, hu, hname⟩
    cases hl : lastRegistered name ts with
    | none => exact absurd hname ((lastRegistered_eq_none name ts).mp hl u hu)
    | some e =>
      obtain ⟨k, t⟩ := e
      obtain ⟨h1, h2, h3⟩ := lastRegistered_some name ts k t hl
      rw [hl] at htraced hplain
      refine ⟨k, t, rfl, h1, h2, h3, ?_, ?_⟩
      · unfold tools.Registry.ExecuteTool tracedAll
        rw [htraced]
        simp [tools.Tool.traced, h2]
      · unfold tools.Registry.ExecuteTool
        rw [hplain]; rfl

/-- Instance of C6 on the registrations `echoTool`, `failingTool`, `echoAgainTool`: the name
"nonexistent" is not found and nothing is executed; the name "echo" runs the tool registered
last under it, once. -/
theorem ExecuteTool_dispatches_last_registered_witness :
    (∀ t ∈ [echoTool, failingTool, echoAgainTool], t.Name ≠ str "nonexistent")
      ∧ (registerAll (tracedAll [echoTool, failingTool, echoAgainTool])).ExecuteTool
            (str "nonexistent") (str "{}") ((), [])
          = (.error tools.ErrToolNotFound, ((), []))
      ∧ (∃ t ∈ [echoTool, failingTool, echoAgainTool], t.Name = str "echo")
      ∧ (registerAll (tracedAll [echoTool, failingTool, echoAgainTool])).ExecuteTool
            (str "echo") (str "{}") ((), [])
          = (.ok (str "again"), ((), [Event.toolExec 2 (str "echo") (str "{}")])) := by
  have hne : ∀ t ∈ [echoTool, failingTool, echoAgainTool], t.Name ≠ str "nonexistent" := by
    intro t ht
    simp only [List.mem_cons, List.mem_singleton, List.not_mem_nil, or_false] at ht
    rcases ht with rfl | rfl | rfl <;> decide
  have hex : ∃ t ∈ [echoTool, failingTool, echoAgainTool], t.Name = str "echo" :=
    ⟨echoTool, List.mem_cons_self _ _, rfl⟩
  have hmiss := (ExecuteTool_dispatches_last_registered [echoTool, failingTool, echoAgainTool]
    (str "nonexistent") (str "{}") ((), [])).1 hne
  obtain ⟨k, t, hlast, _, _, _, hexec, _⟩ :=
    (ExecuteTool_dispatches_last_registered [echoTool, failingTool, echoAgainTool]
      (str "echo") (str "{}") ((), [])).2 hex
  have hkt : (k, t) = (2, echoAgainTool) := Option.some.inj (hlast.symm.trans rfl)
  obtain ⟨rfl, rfl⟩ := Prod.mk.inj hkt
  exact ⟨hne, hmiss.2.1, hex, hexec⟩

/-- C7, as stated, fails: after registering `echoTool` and then `failingTool`, a traversal
of the registry's map may list the definition of `failingTool` first, which is not the
order of registration. -/
theorem GetToolDefinitions_not_in_registration_order :
    (registerAll [echoTool, failingTool]).GetToolDefinitions 1
        = [failingTool.Definition, echoTool.Definition]
      ∧ (registerAll [echoTool, failingTool]).GetToolDefinitions 1
        ≠ [echoTool.Definition, failingTool.Definition] := by
  constructor
  · rfl
  · decide

/-- C7, amended: for every sequence `ts` of `Register` calls and every order of traversal of
the map, `GetToolDefinitions` returns, in some order, exactly one definition per distinct
registered name, namely that of the tool last registered under the name. -/
theorem GetToolDefinitions_perm_last_registered {σ : Type} (ts : List (tools.Tool σ))
    (seed : Nat) :
    ((registerAll ts).GetToolDefinitions seed).Perm
        ((lastPerName ts).map (fun t => t.Definition))
      ∧ ((lastPerName ts).map (fun t => t.Name)).Nodup
      ∧ (∀ name, name ∈ (lastPerName ts).map (fun t => t.Name)
          ↔ name ∈ ts.map (fun t => t.Name))
      ∧ (∀ t ∈ lastPerName ts, ∃ k, lastRegistered t.Name ts = some (k, t)) := by
  refine ⟨?_, lastPerName_nodup ts, lastPerName_names ts, lastPerName_lastRegistered ts⟩
  rw [GetToolDefinitions_eq_map, registerAll_tools]
  have := (rangeOrder_perm seed ((lastPerName ts).map (fun t => (t.Name, t)))).map
    (fun e => e.2.Definition)
  simpa [List.map_map, Function.comp] using this

/-- C8, as stated, fails: a generated text of 120 characters that begins with a double
quote gives the 80 characters that follow the quote, not the first 80 characters of the
text. -/
theorem Title_not_first_80_of_quoted_text :
    quotedText.length = 120
      ∧ strings.TrimSpace quotedText ≠ []
      ∧ ((titleAssistant quotedText).Title sampleConversation ()).1
          = .ok (List.replicate 80 0x61)
      ∧ ((titleAssistant quotedText).Title sampleConversation ()).1
          ≠ .ok (quotedText.take 80) := by
  have hclean : (cleanTitle quotedText).take 80 = List.replicate 80 0x61 := by decide
  have hne : List.replicate 80 0x61 ≠ quotedText.take 80 := by decide
  have h := Title_of_text (titleAssistant quotedText) sampleConversation () ()
    ⟨⟨quotedText, []⟩⟩ [] (by decide) rfl (by decide)
  rw [hclean] at h
  refine ⟨by decide, by decide, by rw [h], ?_⟩
  rw [h]
  exact fun heq => hne (Except.ok.inj heq)

/-- C8, amended: for a non-empty conversation and a generated text that is not blank,
`Title` returns the first 80 bytes of the cleaned text (newlines replaced by spaces, then
space, tab, CR, LF, hyphen, double quote and apostrophe trimmed off both ends), hence at
most 80 bytes, and the whole cleaned text when it has at most 80 bytes; for a text of 120
bytes without newline that neither begins nor ends with a trimmed byte, the result is
exactly its first 80 bytes. -/
theorem Title_truncates_cleaned_text {σ : Type} (a : Assistant σ) (conv : model.Conversation)
    (s s1 : σ) (choice : openai.ChatCompletionChoice) (rest : List openai.ChatCompletionChoice)
    (hconv : conv.Messages ≠ [])
    (hnew : a.cli.New (titleParams conv) s = (.ok ⟨choice :: rest⟩, s1))
    (htext : strings.TrimSpace choice.Message.Content ≠ []) :
    (a.Title conv s).1 = .ok ((cleanTitle choice.Message.Content).take 80)
      ∧ ((cleanTitle choice.Message.Content).take 80).length ≤ 80
      ∧ ((cleanTitle choice.Message.Content).length ≤ 80 →
          (a.Title conv s).1 = .ok (cleanTitle choice.Message.Content))
      ∧ (choice.Message.Content.length = 120 →
          (∀ b ∈ choice.Message.Content, b ≠ 0x0A) →
          (∀ b, choice.Message.Content.head? = some b → b ∉ titleCutset) →
          (∀ b, choice.Message.Content.getLast? = some b → b ∉ titleCutset) →
          (a.Title conv s).1 = .ok (choice.Message.Content.take 80)) := by
  have h := Title_of_text a conv s s1 choice rest hconv hnew htext
  refine ⟨by rw [h], List.length_take_le _ _, ?_, ?_⟩
  · intro hlen
    rw [h, List.take_of_length_le hlen]
  · intro _ hnl hhead hlast
    rw [h, cleanTitle, strings.ReplaceAll_of_not_mem _ _ _ hnl,
      strings.Trim_of_ends _ _ hhead hlast]

/-- Instance of C8 (amended) on a generated text of 120 letters. -/
theorem Title_truncates_cleaned_text_witness :
    sampleConversation.Messages ≠ []
      ∧ strings.TrimSpace plainText ≠ []
      ∧ ((titleAssistant plainText).Title sampleConversation ()).1
          = .ok ((cleanTitle plainText).take 80)
      ∧ ((titleAssistant plainText).Title sampleConversation ()).1 = .ok (plainText.take 80) :=
  have h := Title_truncates_cleaned_text (titleAssistant plainText) sampleConversation () ()
    ⟨⟨plainText, []⟩⟩ [] (by decide) rfl (by decide)
  ⟨by decide, by decide, h.1, h.2.2.2 (by decide) (by decide) (by decide) (by decide)⟩

/-- C9, as stated, fails: on a conversation without messages `Title` does not return an
error, it succeeds with the title "An empty conversation". -/
theorem Title_empty_conversation_is_not_an_error :
    emptyConversation.Messages.length = 0
      ∧ (loopingAssistant.traced.Title emptyConversation ((), [])).1
          = .ok (str "An empty conversation")
      ∧ ∀ err, (loopingAssistant.traced.Title emptyConversation ((), [])).1 ≠ .error err := by
  refine ⟨rfl, rfl, ?_⟩
  intro err h
  exact Except.noConfusion (h.symm.trans (rfl : (loopingAssistant.traced.Title emptyConversation
    ((), [])).1 = .ok (str "An empty conversation")))

/-- C9, amended: for a conversation with zero messages, `Title` succeeds with the fixed
title "An empty conversation" and makes no completion call: the world state is unchanged
and the log of calls stays empty. -/
theorem Title_empty_conversation {σ : Type} (a : Assistant σ) (conv : model.Conversation)
    (s : σ) (hconv : conv.Messages.length = 0) :
    a.traced.Title conv (s, []) = (.ok (str "An empty conversation"), (s, [])) := by
  simp [Assistant.Title, hconv]

/-- Instance of C9 (amended) on the looping assistant. -/
theorem Title_empty_conversation_witness :
    emptyConversation.Messages.length = 0
      ∧ loopingAssistant.traced.Title emptyConversation ((), [])
          = (.ok (str "An empty conversation"), ((), [])) :=
  ⟨rfl, Title_empty_conversation loopingAssistant emptyConversation () rfl⟩

/-- C10: on a generated text made of two double quotes, which is empty once whitespace and
quote characters are trimmed, `Title` does not fail: it returns the empty string as a
title. -/
theorem Title_quotes_only_returns_empty_title :
    cleanTitle (str "\"\"") = []
      ∧ (titleAssistant (str "\"\"")).Title sampleConversation () = (.ok [], ()) := by
  constructor
  · decide
  · rw [Title_of_text (titleAssistant (str "\"\"")) sampleConversation () ()
      ⟨⟨str "\"\"", []⟩⟩ [] (by decide) rfl (by decide)]
    rfl

/-- C11, as stated, fails: with `max_count` given as 0 the tool lists every event it lets
through, not the first 0 of them; and it lists a timed event, which is not an all-day
event, because `GetAllDayStartAt()` returns the date of its start too. -/
theorem Execute_lists_more_than_claimed :
    HolidaysTool.Execute noEnv (feedOf [christmas]) (.object none none (some 0))
        = .ok (str "2024-12-25: Christmas Day")
      ∧ christmas.AllDay = true
      ∧ claimedHolidays [christmas] none none (some 0) = []
      ∧ HolidaysTool.Execute noEnv (feedOf [christmas]) (.object none none (some 0))
        ≠ .ok (claimedHolidays [christmas] none none (some 0))
      ∧ meeting.AllDay = false
      ∧ HolidaysTool.Execute noEnv (feedOf [meeting]) .empty = .ok (str "2024-12-25: Meeting")
      ∧ claimedHolidays [meeting] none none none = [] := by
  decide

/-- C11, amended: for every feed and every decoded payload, when the listed events carry a
summary, the output of the holidays tool is the newline-join of the lines
`<date>: <summary>`, the date being the start date in the layout `time.DateOnly`
(`YYYY-MM-DD` for the years 0 to 9999), of the first `MaxCount` events when `MaxCount` is
positive, and of all of them when `max_count` is absent, zero or negative, taken in feed
order among the events for which `GetAllDayStartAt()` returns a start date without error
(no other test of being an all-day event is made) and whose start date is neither strictly
after `BeforeDate` nor strictly before `AfterDate`, a bound that is absent or equal to the
zero time excluding nothing. When at least one event is listed and the summaries hold no
newline, the output has exactly one line per listed event; in particular, with
`MaxCount = 3` over a feed of 10 events that are all let through, the output has exactly 3
lines, those of the first three events of the feed. -/
theorem Execute_lists_selected_holidays (getenv : GoString → GoString)
    (LoadCalendar : GoString → Except GoError (List ics.VEvent)) (args : HolidaysArgs)
    (events : List ics.VEvent) (payload : HolidaysPayload)
    (hfeed : LoadCalendar (calendarLink getenv) = .ok events)
    (hargs : args.Unmarshal = .ok payload)
    (hsummary : ∀ e ∈ selectedHolidays payload events, e.Summary ≠ none) :
    HolidaysTool.Execute getenv LoadCalendar args
        = .ok (strings.Join ((selectedHolidays payload events).map holidayLine) (str "\n"))
      ∧ (selectedHolidays payload events).Sublist events
      ∧ (∀ e, qualifies payload e = true ↔
          ∃ date, e.AllDayStartAt = .ok date
            ∧ ¬(payload.BeforeDate.IsZero = false ∧ date.After payload.BeforeDate = true)
            ∧ ¬(payload.AfterDate.IsZero = false ∧ date.Before payload.AfterDate = true))
      ∧ (∀ e ∈ selectedHolidays payload events,
          ∃ date value, e.AllDayStartAt = .ok date ∧ e.Summary = some value
            ∧ holidayLine e = date.FormatDateOnly ++ str ": " ++ value
            ∧ (0 ≤ date.Year → date.Year ≤ 9999 → isDateOnly date.FormatDateOnly = true))
      ∧ (payload.MaxCount > 0 → selectedHolidays payload events
          = (events.filter (qualifies payload)).take payload.MaxCount.toNat)
      ∧ (payload.MaxCount ≤ 0 → selectedHolidays payload events
          = events.filter (qualifies payload))
      ∧ (selectedHolidays payload events ≠ [] →
          (∀ e ∈ selectedHolidays payload events, ∀ value, e.Summary = some value →
            0x0A ∉ value) →
          lineCount (strings.Join ((selectedHolidays payload events).map holidayLine)
            (str "\n")) = (selectedHolidays payload events).length)
      ∧ (payload.MaxCount = 3 → events.length = 10 →
          (∀ e ∈ events, qualifies payload e = true) →
          (∀ e ∈ events.take 3, ∀ value, e.Summary = some value → 0x0A ∉ value) →
          selectedHolidays payload events = events.take 3
            ∧ HolidaysTool.Execute getenv LoadCalendar args
              = .ok (strings.Join ((events.take 3).map holidayLine) (str "\n"))
            ∧ lineCount (strings.Join ((events.take 3).map holidayLine) (str "\n")) = 3) := by
  have hexec : HolidaysTool.Execute getenv LoadCalendar args
      = .ok (strings.Join ((selectedHolidays payload events).map holidayLine) (str "\n")) := by
    unfold HolidaysTool.Execute
    rw [hfeed, hargs]
    simp only
    rw [holidaysLoop_selected payload events hsummary]
  have hqual : ∀ e ∈ selectedHolidays payload events, qualifies payload e = true := by
    intro e he
    unfold selectedHolidays at he
    split at he
    · exact (List.mem_filter.mp (List.mem_of_mem_take he)).2
    · exact (List.mem_filter.mp he).2
  have hlines : ∀ sel : List ics.VEvent, sel ≠ [] →
      (∀ e ∈ sel, ∀ value, e.Summary = some value → 0x0A ∉ value) →
      lineCount (strings.Join (sel.map holidayLine) (str "\n")) = sel.length := by
    intro sel hne hnl
    rw [lineCount_Join (sel.map holidayLine) ?_ (fun h => hne (List.map_eq_nil_iff.mp h)),
      List.length_map]
    intro l hl
    obtain ⟨e, he, rfl⟩ := List.mem_map.mp hl
    exact holidayLine_no_newline e (hnl e he)
  refine ⟨hexec, ?_, ?_, ?_, ?_, ?_, hlines _, ?_⟩
  · unfold selectedHolidays
    split
    · exact (List.take_sublist _ _).trans (List.filter_sublist _)
    · exact List.filter_sublist _
  · intro e
    unfold qualifies
    cases e.AllDayStartAt with
    | error err => simp
    | ok date =>
      cases payload.BeforeDate.IsZero <;> cases payload.AfterDate.IsZero
        <;> cases date.After payload.BeforeDate <;> cases date.Before payload.AfterDate
        <;> simp
  · intro e he
    have hq := hqual e he
    have hs := hsummary e he
    unfold qualifies at hq
    cases hstart : e.AllDayStartAt with
    | error err => rw [hstart] at hq; exact absurd hq (by simp)
    | ok date =>
      cases hval : e.Summary with
      | none => exact absurd hval hs
      | some value =>
        exact ⟨date, value, rfl, rfl, by rw [holidayLine, hstart, hval],
          FormatDateOnly_isDateOnly date⟩
  · intro h
    rw [selectedHolidays, if_pos h]
  · intro h
    rw [selectedHolidays, if_neg (by omega)]
  · intro h3 hlen hall hnl
    have hfilter : events.filter (qualifies payload) = events :=
      List.filter_eq_self.mpr hall
    have hsel : selectedHolidays payload events = events.take 3 := by
      rw [selectedHolidays, if_pos (by omega), hfilter, h3]
      rfl
    have hlen3 : (events.take 3).length = 3 := by
      rw [List.length_take, hlen]; rfl
    refine ⟨hsel, by rw [hexec, hsel], ?_⟩
    rw [hlines (events.take 3) (fun h => by rw [h] at hlen3; simp at hlen3) hnl, hlen3]

/-- Instance of C11 (amended): `max_count = 3` over the feed of ten holidays gives exactly
three lines, those of December 22, 23 and 24. -/
theorem Execute_lists_selected_holidays_witness :
    feedOf tenHolidays (calendarLink noEnv) = .ok tenHolidays
      ∧ (HolidaysArgs.object none none (some 3)).Unmarshal = .ok ⟨time.zero, time.zero, 3⟩
      ∧ (∀ e ∈ selectedHolidays ⟨time.zero, time.zero, 3⟩ tenHolidays, e.Summary ≠ none)
      ∧ HolidaysTool.Execute noEnv (feedOf tenHolidays) (.object none none (some 3))
        = .ok (str "2024-12-22: Holiday\n2024-12-23: Holiday\n2024-12-24: Holiday")
      ∧ lineCount (str "2024-12-22: Holiday\n2024-12-23: Holiday\n2024-12-24: Holiday") = 3
      ∧ isDateOnly (str "2024-12-22") = true := by
  have hsum : ∀ e ∈ selectedHolidays ⟨time.zero, time.zero, 3⟩ tenHolidays,
      e.Summary ≠ none := by
    intro e he
    have hmem : e ∈ tenHolidays :=
      ((List.take_sublist _ _).trans (List.filter_sublist _)).subset he
    obtain ⟨i, _, rfl⟩ := List.mem_map.mp hmem
    exact fun h => Option.noConfusion h
  exact ⟨rfl, rfl, hsum,
    (Execute_lists_selected_holidays noEnv (feedOf tenHolidays) (.object none none (some 3))
      tenHolidays ⟨time.zero, time.zero, 3⟩ rfl rfl hsum).1.trans
      (congrArg GoResult.ok (by decide)),
    by decide, by decide⟩

/-- C12: an all-day event whose start instant equals the given `before_date`, or equals
the given `after_date`, does appear in the output: both bounds are inclusive. -/
theorem Execute_lists_event_on_the_bound :
    christmas.AllDayStartAt = .ok christmasStart
      ∧ HolidaysTool.Execute noEnv (feedOf [christmas]) (.object (some christmasStart) none none)
        = .ok (str "2024-12-25: Christmas Day")
      ∧ HolidaysTool.Execute noEnv (feedOf [christmas]) (.object none (some christmasStart) none)
        = .ok (str "2024-12-25: Christmas Day") := by
  refine ⟨rfl, ?_, ?_⟩ <;> decide

/-- C13, as stated, fails: a quote whose price is +Inf is rendered "$+Inf", not with two
decimals, and a quote whose change is the negative zero is rendered "▲-0.00", with a minus
sign. -/
theorem formatSimpleResponse_not_always_two_decimals :
    formatSimpleResponse { appleData with Price := .inf false }
        = str "AAPL: $+Inf ▼2.50 (1.50%)"
      ∧ isFixed2 (fmt.fixed 2 (.inf false)) = false
      ∧ formatSimpleResponse { appleData with Change := .finite true 0 0 }
        = str "AAPL: $150.00 ▲-0.00 (1.50%)"
      ∧ isUnsignedFixed2 (fmt.fixed 2 (abs (.finite true 0 0))) = false := by
  decide

/-- C13, amended: for every quote with symbol s, finite price p and finite change c other
than the negative zero (s and the company name containing no newline),
`formatSimpleResponse` returns a single line that contains s, p rendered with exactly two
decimals, the glyph "▼" if c < 0 and "▲" otherwise, followed by the absolute value of c
rendered with two decimals and no minus sign; for AAPL, 150.00 and -2.50 the line is
"AAPL: $150.00 ▼2.50 (1.50%)". -/
theorem formatSimpleResponse_single_line (data : StockData)
    (hprice : data.Price.isFinite = true) (hchange : data.Change.isFinite = true)
    (hzero : data.Change.isNegZero = false)
    (hsymbol : 0x0A ∉ data.Symbol) (hname : 0x0A ∉ data.Name) :
    0x0A ∉ formatSimpleResponse data
      ∧ occursIn data.Symbol (formatSimpleResponse data)
      ∧ occursIn (fmt.fixed 2 data.Price) (formatSimpleResponse data)
      ∧ isFixed2 (fmt.fixed 2 data.Price) = true
      ∧ occursIn ((if data.Change.lt0 then str "▼" else str "▲") ++ fmt.fixed 2 (abs data.Change))
          (formatSimpleResponse data)
      ∧ isUnsignedFixed2 (fmt.fixed 2 (abs data.Change)) = true
      ∧ (∃ neg mant exp, data.Change = .finite neg mant exp
          ∧ abs data.Change = .finite false mant exp)
      ∧ formatSimpleResponse appleData = str "AAPL: $150.00 ▼2.50 (1.50%)" := by
  obtain ⟨symbol, price, change, percent, volume, high, low, opening, close, name⟩ := data
  simp only at hprice hchange hzero hsymbol hname ⊢
  have hnl : ∀ f, 0x0A ∉ fmt.fixed 2 f := fixed_no_newline 2
  have hind := changeIndicator_no_newline
    ⟨symbol, price, change, percent, volume, high, low, opening, close, name⟩
  have hlit1 : 0x0A ∉ str " (" := by decide
  have hlit2 : 0x0A ∉ str "): $" := by decide
  have hlit3 : 0x0A ∉ str " " := by decide
  have hlit4 : 0x0A ∉ str "%)" := by decide
  have hlit5 : 0x0A ∉ str ": $" := by decide
  match price, hprice, change, hchange, hzero with
  | .finite pneg pmant pexp, _, .finite cneg cmant cexp, _, hzero =>
    have habs := abs_of_finite cneg cmant cexp hzero
    refine ⟨?_, ?_, ?_, fixed2_finite_isFixed2 _ _ _, ?_, ?_, ⟨cneg, cmant, cexp, rfl, habs⟩,
      by decide⟩
    · unfold formatSimpleResponse
      split
      · exact nmem_append (nmem_append (nmem_append (nmem_append (nmem_append (nmem_append
          (nmem_append (nmem_append (nmem_append (nmem_append hname hlit1) hsymbol) hlit2)
            (hnl _)) hlit3) hind) (hnl _)) hlit1) (hnl _)) hlit4
      · exact nmem_append (nmem_append (nmem_append (nmem_append (nmem_append (nmem_append
          (nmem_append (nmem_append hsymbol hlit5) (hnl _)) hlit3) hind) (hnl _)) hlit1)
            (hnl _)) hlit4
    · unfold formatSimpleResponse
      split
      · exact occursIn_append_left _ (occursIn_append_left _ (occursIn_append_left _
          (occursIn_append_left _ (occursIn_append_left _ (occursIn_append_left _
            (occursIn_append_left _ (occursIn_append_left _
              (occursIn_append_right _ (occursIn_self _)))))))))
      · exact occursIn_append_left _ (occursIn_append_left _ (occursIn_append_left _
          (occursIn_append_left _ (occursIn_append_left _ (occursIn_append_left _
            (occursIn_append_left _ (occursIn_append_left _ (occursIn_self _))))))))
    · unfold formatSimpleResponse
      split
      · exact occursIn_append_left _ (occursIn_append_left _ (occursIn_append_left _
          (occursIn_append_left _ (occursIn_append_left _ (occursIn_append_left _
            (occursIn_append_right _ (occursIn_self _)))))))
      · exact occursIn_append_left _ (occursIn_append_left _ (occursIn_append_left _
          (occursIn_append_left _ (occursIn_append_left _ (occursIn_append_left _
            (occursIn_append_right _ (occursIn_self _)))))))
    · show occursIn
        (changeIndicator ⟨symbol, .finite pneg pmant pexp, .finite cneg cmant cexp, percent,
          volume, high, low, opening, close, name⟩ ++ _) _
      unfold formatSimpleResponse
      split
      · exact occursIn_append_left _ (occursIn_append_left _ (occursIn_append_left _
          (occursIn_pair _ _ _)))
      · exact occursIn_append_left _ (occursIn_append_left _ (occursIn_append_left _
          (occursIn_pair _ _ _)))
    · rw [habs]
      exact fixed2_nonneg_unsigned _ _

/-- Instance of C13 (amended) on the quote AAPL, 150.00, -2.50. -/
theorem formatSimpleResponse_single_line_witness :
    appleData.Price.isFinite = true ∧ appleData.Change.isFinite = true
      ∧ appleData.Change.isNegZero = false
      ∧ 0x0A ∉ formatSimpleResponse appleData
      ∧ occursIn appleData.Symbol (formatSimpleResponse appleData)
      ∧ occursIn (fmt.fixed 2 appleData.Price) (formatSimpleResponse appleData)
      ∧ fmt.fixed 2 appleData.Price = str "150.00"
      ∧ fmt.fixed 2 (abs appleData.Change) = str "2.50" :=
  have h := formatSimpleResponse_single_line appleData rfl rfl rfl (by decide) (by decide)
  ⟨rfl, rfl, rfl, h.1, h.2.1, h.2.2.1, by decide, by decide⟩

/-- C14: when the quote lookup succeeds and the company-overview lookup fails, the stock
tool succeeds, but only the one-line summary shows the symbol in place of the name: the
detailed block starts with the line "Stock:  (AAPL)", with an empty name. -/
theorem Execute_detailed_empty_name_on_overview_failure :
    getCompanyName overviewDownWorld (str "AAPL")
        = .error (errors.New (str "context deadline exceeded"))
      ∧ StockTool.Execute overviewDownWorld (str "key") simpleArgs
        = .ok (str "AAPL: $150.00 ▼2.50 (1.50%)")
      ∧ StockTool.Execute overviewDownWorld (str "key") detailedArgs
        = .ok (str ("Stock:  (AAPL)\nPrice: $150.00\nChange: ▼$2.50 (1.50%)\nOpen: $152.00\n"
            ++ "High: $151.00\nLow: $149.00\nPrevious Close: $152.50\nVolume: 1,234,567\n")) := by
  refine ⟨rfl, ?_, ?_⟩
  · have h : formatSimpleResponse appleData = str "AAPL: $150.00 ▼2.50 (1.50%)" := by decide
    rw [← h]
    rfl
  · have h : formatDetailedResponse appleData
        = str ("Stock:  (AAPL)\nPrice: $150.00\nChange: ▼$2.50 (1.50%)\nOpen: $152.00\n"
            ++ "High: $151.00\nLow: $149.00\nPrevious Close: $152.50\nVolume: 1,234,567\n") := by
      decide
    rw [← h]
    rfl

/-- C15, as stated, fails: the status 204, which lies in 200-299, is answered with the
generic failure and its body is not parsed. -/
theorem GetWeather_fails_on_204 :
    (200 : Int) ≤ 204 ∧ (204 : Int) ≤ 299
      ∧ GetWeather (weatherWorld 204 (str "204 No Content")) (str "key") (str "Barcelona")
        = .error (errors.New (str "weather API returned status: 204 No Content"))
      ∧ GetWeather (weatherWorld 200 (str "200 OK")) (str "key") (str "Barcelona")
        = .ok (formatWeather barcelonaWeather) := by
  refine ⟨by decide, by decide, ?_, ?_⟩
  · rw [GetWeather_of_response _ _ _ ⟨204, str "204 No Content", .ok barcelonaWeather⟩
      (by decide) rfl rfl]
    rfl
  · rw [GetWeather_of_response _ _ _ ⟨200, str "200 OK", .ok barcelonaWeather⟩
      (by decide) rfl rfl]
    rfl

/-- C15, amended: once the request has been answered, `GetWeather` maps the status 404 to
the "location '<location>' not found" failure, 401 to the invalid-API-key failure, 400 to
the invalid-location failure and every other status different from 200 to the generic
"weather API returned status" failure; it returns one of these failures if and only if
the status is not 200, and the status 200 alone proceeds to parsing and formatting the
body. -/
theorem GetWeather_status_mapping (w : WeatherWorld) (apiKey location : GoString)
    (resp : WeatherResponse) (hkey : apiKey ≠ [])
    (hreq : w.NewRequest (weatherURL apiKey location) = .ok ())
    (hdo : w.Do (weatherURL apiKey location) = .ok resp) :
    (resp.StatusCode = 404 → GetWeather w apiKey location
        = .error (errors.New (str "location '" ++ location ++ str "' not found")))
      ∧ (resp.StatusCode = 401 → GetWeather w apiKey location
        = .error (errors.New (str "invalid API key for weather service")))
      ∧ (resp.StatusCode = 400 → GetWeather w apiKey location
        = .error (errors.New (str "invalid location format or missing parameters")))
      ∧ (resp.StatusCode ≠ 200 → resp.StatusCode ≠ 404 → resp.StatusCode ≠ 401 →
          resp.StatusCode ≠ 400 → GetWeather w apiKey location
        = .error (errors.New (str "weather API returned status: " ++ resp.Status)))
      ∧ (isStatusFailure location resp.Status (GetWeather w apiKey location)
          ↔ resp.StatusCode ≠ 200)
      ∧ (resp.StatusCode = 200 → GetWeather w apiKey location
        = match resp.Body with
          | .error err => .error (errors.New (str "failed to parse weather data: " ++ err.Error))
          | .ok weatherData => .ok (formatWeather weatherData)) := by
  have h := GetWeather_of_response w apiKey location resp hkey hreq hdo
  have h404 : resp.StatusCode = 404 → GetWeather w apiKey location
      = .error (errors.New (str "location '" ++ location ++ str "' not found")) := by
    intro hc
    rw [h, if_pos (by omega), if_pos hc]
  have h401 : resp.StatusCode = 401 → GetWeather w apiKey location
      = .error (errors.New (str "invalid API key for weather service")) := by
    intro hc
    rw [h, if_pos (by omega), if_neg (by omega), if_pos hc]
  have h400 : resp.StatusCode = 400 → GetWeather w apiKey location
      = .error (errors.New (str "invalid location format or missing parameters")) := by
    intro hc
    rw [h, if_pos (by omega), if_neg (by omega), if_neg (by omega), if_pos hc]
  have hother : resp.StatusCode ≠ 200 → resp.StatusCode ≠ 404 → resp.StatusCode ≠ 401 →
      resp.StatusCode ≠ 400 → GetWeather w apiKey location
      = .error (errors.New (str "weather API returned status: " ++ resp.Status)) := by
    intro h1 h2 h3 h4
    rw [h, if_pos h1, if_neg h2, if_neg h3, if_neg h4]
  have h200 : resp.StatusCode = 200 → GetWeather w apiKey location
      = match resp.Body with
        | .error err => .error (errors.New (str "failed to parse weather data: " ++ err.Error))
        | .ok weatherData => .ok (formatWeather weatherData) := by
    intro hc
    rw [h, if_neg (by omega)]
  refine ⟨h404, h401, h400, hother, ⟨?_, ?_⟩, h200⟩
  · intro hfail hc
    rw [h200 hc] at hfail
    cases hbody : resp.Body with
    | error err =>
      rw [hbody] at hfail
      exact parse_failure_not_status_failure _ _ _ hfail
    | ok weatherData =>
      rw [hbody] at hfail
      rcases hfail with hf | hf | hf | hf <;> exact Except.noConfusion hf
  · intro hc
    by_cases c404 : resp.StatusCode = 404
    · exact Or.inl (h404 c404)
    · by_cases c401 : resp.StatusCode = 401
      · exact Or.inr (Or.inl (h401 c401))
      · by_cases c400 : resp.StatusCode = 400
        · exact Or.inr (Or.inr (Or.inl (h400 c400)))
        · exact Or.inr (Or.inr (Or.inr (hother hc c404 c401 c400)))

/-- Instance of C15 (amended): the status 404 gives the location-not-found failure. -/
theorem GetWeather_status_mapping_witness :
    str "key" ≠ []
      ∧ (weatherWorld 404 (str "404 Not Found")).NewRequest
          (weatherURL (str "key") (str "Atlantis")) = .ok ()
      ∧ GetWeather (weatherWorld 404 (str "404 Not Found")) (str "key") (str "Atlantis")
        = .error (errors.New (str "location '" ++ str "Atlantis" ++ str "' not found")) :=
  ⟨by decide, rfl,
    (GetWeather_status_mapping (weatherWorld 404 (str "404 Not Found")) (str "key")
      (str "Atlantis") ⟨404, str "404 Not Found", .ok barcelonaWeather⟩ (by decide) rfl rfl).1
      rfl⟩

/-- C16: for every volume v ≥ 0, `formatVolume(v)` is the decimal representation of v with
thousands separators: removing the commas gives back the decimal representation, the
result neither starts nor ends with a comma, and it is made of a first group of 1 to 3
digits followed by groups of a comma and exactly three digits; 0, 999, 1000 and 1234567
give "0", "999", "1,000" and "1,234,567". -/
theorem formatVolume_thousands_separators (v : Int) (hv : 0 ≤ v) :
    fmt.Sprintd v = decimal v.toNat
      ∧ decimalValue (decimal v.toNat) = v.toNat
      ∧ (formatVolume v).filter (fun b => b ≠ 0x2C) = fmt.Sprintd v
      ∧ (formatVolume v).head? ≠ some 0x2C
      ∧ (formatVolume v).getLast? ≠ some 0x2C
      ∧ (∃ (first : GoString) (rest : List GoString),
          formatVolume v = first ++ (rest.map (fun g => 0x2C :: g)).flatten
            ∧ 1 ≤ first.length ∧ first.length ≤ 3 ∧ (∀ b ∈ first, isDigit b = true)
            ∧ (∀ g ∈ rest, g.length = 3 ∧ ∀ b ∈ g, isDigit b = true)
            ∧ first ++ rest.flatten = fmt.Sprintd v)
      ∧ formatVolume 0 = str "0" ∧ formatVolume 999 = str "999"
      ∧ formatVolume 1000 = str "1,000" ∧ formatVolume 1234567 = str "1,234,567" := by
  have hs : fmt.Sprintd v = decimal v.toNat := by
    rw [fmt.Sprintd, if_neg (by omega)]
  obtain ⟨first, rest, hout, h1, h3, hrest, hcat⟩ := formatVolume_structure v hv
  have hdig : ∀ b ∈ first ++ rest.flatten, isDigit b = true := by
    rw [hcat, hs]; exact decimal_isDigit _
  have hfirst : ∀ b ∈ first, isDigit b = true :=
    fun b hb => hdig b (List.mem_append_left _ hb)
  have hgroups : ∀ g ∈ rest, g.length = 3 ∧ ∀ b ∈ g, isDigit b = true :=
    fun g hg => ⟨hrest g hg, fun b hb =>
      hdig b (List.mem_append_right _ (List.mem_flatten.mpr ⟨g, hg, hb⟩))⟩
  have hne : ∀ b, isDigit b = true → b ≠ 0x2C := by
    intro b hb
    simp only [isDigit, Bool.and_eq_true, decide_eq_true_eq] at hb
    omega
  refine ⟨hs, decimalValue_decimal _, ?_, ?_, ?_,
    ⟨first, rest, hout, h1, h3, hfirst, hgroups, hcat⟩, rfl, by decide, by decide, by decide⟩
  · rw [hout, List.filter_append, filter_groups rest (fun g hg => (hgroups g hg).2), ← hcat]
    congr 1
    apply List.filter_eq_self.mpr
    intro b hb
    simpa using hne b (hfirst b hb)
  · rw [hout]
    match first, h1, hfirst with
    | a :: first', _, hfirst =>
      intro h
      simp only [List.cons_append, List.head?_cons, Option.some.injEq] at h
      exact hne a (hfirst a (List.mem_cons_self _ _)) h
  · rw [hout, List.getLast?_append]
    intro h
    cases hx : ((rest.map (fun g => 0x2C :: g)).flatten).getLast? with
    | some b =>
      rw [hx] at h
      simp only [Option.or, Option.some.injEq] at h
      exact hne b (getLast?_groups rest hgroups b hx) h
    | none =>
      rw [hx] at h
      simp only [Option.or] at h
      exact hne _ (hfirst _ (List.mem_of_getLast?_eq_some h)) rfl

/-- Instance of C16 on the volume 1234567. -/
theorem formatVolume_thousands_separators_witness :
    (0 : Int) ≤ 1234567
      ∧ (formatVolume 1234567).filter (fun b => b ≠ 0x2C) = fmt.Sprintd 1234567
      ∧ (formatVolume 1234567).head? ≠ some 0x2C
      ∧ (formatVolume 1234567).getLast? ≠ some 0x2C :=
  have h := formatVolume_thousands_separators 1234567 (by decide)
  ⟨by decide, h.2.2.1, h.2.2.2.1, h.2.2.2.2.1⟩

/-- C17: on the negative volume -123456, `formatVolume` puts a comma directly after the
minus sign: the result is "-,123,456", not "-123,456". -/
theorem formatVolume_negative_comma_after_sign :
    formatVolume (-123456) = str "-,123,456"
      ∧ formatVolume (-123456) ≠ str "-123,456"
      ∧ formatVolume (-123) = str "-,123" := by
  decide

end Chat
